import Mathlib

/-!
# Beluga VRP solver: fleet-size feasibility, clustering and route assembly

Shallow embedding of `BEL_VRPVehiclesLB`, `BEL_VRPProblemIsFeasible`, `BEL_SolveVRPProblem`
(src/beluga.c) and of the integer programs that `BEL_BPPSolve` (src/binpacking.c) and
`BEL_CCLPSolve` (src/capconloc.c) hand to the MIP solver.

Modelling conventions
* C `int` values are `Int`; loop counters, row and column numbers are `Nat`.
* The accumulation `total_demand += demand[i]` wraps to 32 bits (`wrapInt32`).
* `float` is IEEE-754 binary32 with round-to-nearest-even (`f32Round`); a finite value is kept as
  `mant * 2 ^ exp` (`F32`).  Exponent range limits are not modelled: every quotient of two C
  `int`s lies between `2^-31` and `2^31`, well inside the normal range.
* The MIP solver (GLPK) is an external collaborator: it is a parameter
  `solver : MipProblem → MipResult`, and what is assumed about it is stated in each theorem
  (`SolverSound`, `SolverComplete`).
* The tour solver and the distance function `edgelen` of the instance are parameters of
  `BEL_SolveVRPProblem`; what its local arrays `cluster` and `seed` hold before they are written
  is given by the parameters `cluster0` and `seed0`.  `BEL_TSPSolve` itself is modelled with the
  Held-Karp and branch-and-cut routines as parameters (`TourSolvers`).
* `BEL_SolveVRPProblem` returns `none` when a write falls outside `seed`, `current_set` or
  the triple arrays of `BEL_CCLPSolve`, or `node2customer` is read outside its extent: the C
  execution has no defined result there.  `BEL_VRPProblemIsFeasible` returns `none` when the
  cast in `BEL_VRPVehiclesLB` is undefined, a write falls outside `volume` or the triple arrays
  of `BEL_BPPSolve`, the row or column count handed to GLPK is not positive, or a name is
  written through the pointer `s` of `BEL_BPPSolve` while it designates no writable storage.
  Both return `none` as well when a table of `ncustomers` cells is left partly unwritten and
  then read, and `BEL_SolveVRPProblem` when one of its variable-length arrays has no cell.
* The sums and products of distances (`seed_cost`, `cost`, `total_cost`) are C `int`
  arithmetic: every operation wraps to 32 bits (`wrapInt32`), as `total_demand` does.
-/

namespace Beluga

/-! ## Machine arithmetic -/

/-- Two's-complement wrap of an integer to the range of a 32-bit C `int`. -/
def wrapInt32 (z : Int) : Int := (z + 2147483648) % 4294967296 - 2147483648

/-- Auxiliary for `bitLen`, by recursion on fuel. -/
def bitLenAux : Nat → Nat → Nat
  | 0, _ => 0
  | f + 1, n => if n = 0 then 0 else bitLenAux f (n / 2) + 1

/-- Number of binary digits of `n` (`0` for `n = 0`). -/
def bitLen (n : Nat) : Nat := bitLenAux n n

/-- The integer nearest to `N / D`, ties going to the even neighbour. -/
def roundHalfEven (N D : Nat) : Nat :=
  if 2 * (N % D) < D then N / D
  else if D < 2 * (N % D) then N / D + 1
  else if (N / D) % 2 = 0 then N / D else N / D + 1

/-- A finite binary32 value `mant * 2 ^ exp`. -/
structure F32 where
  mant : Int
  exp : Int
deriving DecidableEq, Repr

/-- The fraction `a / b` scaled by `2 ^ s`, as numerator and denominator. -/
def f32Scale (a b : Nat) (s : Int) : Nat × Nat :=
  if 0 ≤ s then (a * 2 ^ s.toNat, b) else (a, b * 2 ^ (-s).toNat)

/-- Binary32 rounding of the positive fraction `a / b`: the result `(m, e)` stands for
`m * 2 ^ e`, where `m` is `a / b * 2 ^ (-e)` rounded half-to-even and `e` is chosen so that the
scaled fraction lies in `[2^23, 2^24)` (a 24-bit significand). -/
def f32Round (a b : Nat) : Nat × Int :=
  let s0 : Int := 24 + (bitLen b : Int) - (bitLen a : Int)
  let s : Int := if (f32Scale a b s0).1 / (f32Scale a b s0).2 < 2 ^ 24 then s0 else s0 - 1
  (roundHalfEven (f32Scale a b s).1 (f32Scale a b s).2, -s)

/-- The conversion `(float) z` of a C `int`. -/
def f32OfInt (z : Int) : F32 :=
  if z = 0 then ⟨0, 0⟩
  else ⟨z.sign * ((f32Round z.natAbs 1).1 : Int), (f32Round z.natAbs 1).2⟩

/-- The binary32 quotient `x / y`; `none` when the divisor is zero (the C result is then an
infinity or a NaN). -/
def f32Div (x y : F32) : Option F32 :=
  if y.mant = 0 then none
  else if x.mant = 0 then some ⟨0, 0⟩
  else
    some ⟨x.mant.sign * y.mant.sign * ((f32Round x.mant.natAbs y.mant.natAbs).1 : Int),
      (f32Round x.mant.natAbs y.mant.natAbs).2 + x.exp - y.exp⟩

/-- The C library `ceil` on a finite binary32 value (exact, widening to `double` loses nothing). -/
def f32Ceil (x : F32) : Int :=
  if 0 ≤ x.exp then x.mant * 2 ^ x.exp.toNat else -((-x.mant) / 2 ^ (-x.exp).toNat)

/-- The cast `(int)` of a floating-point value that holds an integer.  For a non-finite value or
one outside the `int` range the C standard leaves the result undefined; the model takes the
value that x86-64 produces there (`INT_MIN`). -/
def castInt32 (v : Option Int) : Int :=
  match v with
  | none => -2147483648
  | some z => if -2147483648 ≤ z ∧ z < 2147483648 then z else -2147483648

/-- The cast `(int)` of a floating-point value that holds an integer is defined: the value is
finite and inside the `int` range. -/
def castInt32Defined : Option Int → Prop
  | none => False
  | some z => -2147483648 ≤ z ∧ z < 2147483648

instance (v : Option Int) : Decidable (castInt32Defined v) := by
  cases v <;> unfold castInt32Defined <;> infer_instance

/-! ## Instance data (src/beluga.h) -/

/-- The fields of `struct BEL_VRPData` that the feasibility check reads or writes. -/
structure BEL_VRPData where
  demand : List Int
  isadepot : List Int
  depots : List Int
  capacity : Int
  dimension : Nat
  ndepots : Int
  ncustomers : Nat
  nvehicles : Int
deriving DecidableEq, Repr

/-- The constant `BEL_VRP_NOT_ENOUGH_VEHICLES` of src/beluga.h. -/
def BEL_VRP_NOT_ENOUGH_VEHICLES : Int := 6

/-- The loop of `BEL_VRPVehiclesLB` that accumulates `total_demand` over all nodes. -/
def totalDemand (data : BEL_VRPData) : Int :=
  (List.range data.dimension).foldl (fun acc i => wrapInt32 (acc + data.demand.getD i 0)) 0

/-- `BEL_VRPVehiclesLB`: `(int) ceil(total_demand / (float) capacity)`. -/
def BEL_VRPVehiclesLB (data : BEL_VRPData) : Int :=
  castInt32 ((f32Div (f32OfInt (totalDemand data)) (f32OfInt data.capacity)).map f32Ceil)

/-- The cast `(int) ceil(total_demand / (float) capacity)` of `BEL_VRPVehiclesLB` is defined;
it is not when `capacity` is 0, where the quotient is an infinity or a NaN. -/
def vehiclesLBDefined (data : BEL_VRPData) : Prop :=
  castInt32Defined ((f32Div (f32OfInt (totalDemand data)) (f32OfInt data.capacity)).map f32Ceil)

instance (data : BEL_VRPData) : Decidable (vehiclesLBDefined data) := by
  unfold vehiclesLBDefined; infer_instance

/-- The macro `MAX_NONZEROES` of src/beluga.h: the arrays `ia`, `ja`, `ar` of `BEL_BPPSolve` and
`BEL_CCLPSolve` have `1 + MAX_NONZEROES` entries. -/
def MAX_NONZEROES : Nat := 100000

/-! ## The MIP problem handed to the solver -/

/-- Row bound types used by the formulations: `LPX_FX` (activity fixed) and `LPX_UP`
(activity bounded above). -/
inductive RowBnd where
  | fx (v : Int)
  | up (v : Int)
deriving DecidableEq, Repr

/-- One entry `(ia[k], ja[k], ar[k])` of the sparse constraint matrix. -/
structure Triple where
  row : Nat
  col : Nat
  val : Int
deriving DecidableEq, Repr

/-- The direction given to `lpx_set_obj_dir` (glpk.h). -/
inductive ObjDir where
  | LPX_MIN
  | LPX_MAX
deriving DecidableEq, Repr

/-- What the formulation code passes to GLPK: the direction, the sizes given to `lpx_add_rows`
and `lpx_add_cols`, every `lpx_set_row_bnds` and `lpx_set_col_bnds` call, the objective
coefficients and the triples loaded by `lpx_load_matrix`.  All columns are of integer kind. -/
structure MipProblem where
  objDir : ObjDir
  nrows : Int
  ncols : Int
  rowBnds : List (Nat × RowBnd)
  colBnds : List (Nat × Int × Int)
  objCoef : List (Nat × Int)
  matrix : List Triple
deriving DecidableEq, Repr

/-- The values of `lpx_mip_status` (glpk.h). -/
inductive MipStatus where
  | I_UNDEF
  | I_OPT
  | I_FEAS
  | I_NOFEAS
deriving DecidableEq, Repr

/-- What is read back from the solver: `lpx_mip_status`, `lpx_mip_obj_val` and
`lpx_mip_col_val`.  The objective value is kept as an integer: the formulations have integer
objective coefficients on integer columns. -/
structure MipResult where
  status : MipStatus
  objVal : Int
  colVal : Nat → Int

/-- The loop `for (k = a; k <= b; k++)`. -/
def forIncl (a b : Nat) : List Nat := List.range' a (b + 1 - a)

/-- The loop `for (k = a; k < b; k++)`. -/
def forExcl (a b : Nat) : List Nat := List.range' a (b - a)

/-- The loop `for (k = a; k <= b; k += step)`; a zero step is never reached in the code. -/
def forStep (a b step : Nat) : List Nat :=
  if step = 0 then [] else List.range' a ((b + step - a) / step) step

/-- Activity of row `r` under the column values `x`: the sum of `ar * x[ja]` over the triples
with `ia = r`. -/
def rowActivity (m : List Triple) (x : Nat → Int) (r : Nat) : Int :=
  ((m.filter (fun t => t.row = r)).map (fun t => t.val * x t.col)).sum

/-- Whether an activity respects a row bound. -/
def RowBnd.Holds : RowBnd → Int → Prop
  | RowBnd.fx v, a => a = v
  | RowBnd.up v, a => a ≤ v

instance (b : RowBnd) (a : Int) : Decidable (b.Holds a) := by
  cases b <;> (unfold RowBnd.Holds; infer_instance)

/-- Row `rb.1` respects the bound `rb.2` set on it. -/
def RowOk (p : MipProblem) (x : Nat → Int) (rb : Nat × RowBnd) : Prop :=
  rb.2.Holds (rowActivity p.matrix x rb.1)

instance (p : MipProblem) (x : Nat → Int) (rb : Nat × RowBnd) : Decidable (RowOk p x rb) := by
  unfold RowOk; infer_instance

/-- Every row bound that was set holds.  (The formulations set each row once.) -/
def RowsOk (p : MipProblem) (x : Nat → Int) : Prop :=
  ∀ rb ∈ p.rowBnds, RowOk p x rb

instance (p : MipProblem) (x : Nat → Int) : Decidable (RowsOk p x) := by
  unfold RowsOk; infer_instance

/-- Every column value lies within the bounds set on the column. -/
def ColsOk (p : MipProblem) (x : Nat → Int) : Prop :=
  ∀ cb ∈ p.colBnds, cb.2.1 ≤ x cb.1 ∧ x cb.1 ≤ cb.2.2

instance (p : MipProblem) (x : Nat → Int) : Decidable (ColsOk p x) := by
  unfold ColsOk; infer_instance

/-- An integer-feasible point of the problem. -/
def Feasible (p : MipProblem) (x : Nat → Int) : Prop := ColsOk p x ∧ RowsOk p x

instance (p : MipProblem) (x : Nat → Int) : Decidable (Feasible p x) := by
  unfold Feasible; infer_instance

/-- Objective value of the column values `x`. -/
def objective (p : MipProblem) (x : Nat → Int) : Int :=
  (p.objCoef.map (fun c => c.2 * x c.1)).sum

/-! ## `BEL_BPPSolve` (src/binpacking.c) -/

/-- The `lpx_set_row_bnds` calls of `BEL_BPPSolve`, in order; `row` is the running offset of the
C code (inside the third loop nest it is `items + bins + (i - 1) * bins` in iteration `i`). -/
def bppRowBnds (bins items : Nat) : List (Nat × RowBnd) :=
  let row := 0
  let c2 := (forIncl 1 items).map (fun i => (i + row, RowBnd.fx 1))
  let row := row + items
  let c3 := (forIncl 1 bins).map (fun j => (j + row, RowBnd.up 0))
  let row := row + bins
  let c4 := (forIncl 1 items).flatMap (fun i =>
    (forIncl 1 bins).map (fun j => (j + (row + (i - 1) * bins), RowBnd.up 0)))
  let row := row + items * bins
  let c5 := (forExcl 1 bins).map (fun j => (j + row, RowBnd.up 0))
  c2 ++ c3 ++ c4 ++ c5

/-- The `lpx_set_col_bnds` calls of `BEL_BPPSolve`: every column is `LPX_DB` with bounds 0, 1. -/
def bppColBnds (bins items : Nat) : List (Nat × Int × Int) :=
  let xs := (forIncl 1 items).flatMap (fun i =>
    (forIncl 1 bins).map (fun j => (j + (i - 1) * bins, (0 : Int), (1 : Int))))
  let row := items * bins
  let ys := (forIncl 1 bins).map (fun j => (j + row, (0 : Int), (1 : Int)))
  xs ++ ys

/-- The `lpx_set_obj_coef` calls of `BEL_BPPSolve`: 0 on the `x` columns, 1 on the `y` columns. -/
def bppObjCoef (bins items : Nat) : List (Nat × Int) :=
  let xs := (forIncl 1 items).flatMap (fun i =>
    (forIncl 1 bins).map (fun j => (j + (i - 1) * bins, (0 : Int))))
  let row := items * bins
  let ys := (forIncl 1 bins).map (fun j => (j + row, (1 : Int)))
  xs ++ ys

/-- Matrix block of constraint (2): rows `1 .. items`. -/
def bppMatrix2 (bins items row : Nat) : List Triple :=
  (forIncl 1 items).flatMap (fun i =>
    (forIncl ((i - 1) * bins + 1) (i * bins)).map (fun j => Triple.mk (i + row) j 1))

/-- Matrix block of constraint (3): rows `items + 1 .. items + bins`. -/
def bppMatrix3 (bins : Nat) (capacity : Int) (items : Nat) (volume : List Int) (row : Nat) :
    List Triple :=
  (forIncl 1 bins).flatMap (fun i =>
    (forStep i (items * bins) bins).map
        (fun j => Triple.mk (i + row) j (volume.getD ((j - 1) / bins) 0))
      ++ [Triple.mk (i + row) (items * bins + i) (-capacity)])

/-- Matrix block of constraint (4): one row per `x` column. -/
def bppMatrix4 (bins items row : Nat) : List Triple :=
  (forIncl 1 (items * bins)).flatMap (fun i =>
    [Triple.mk (i + row) i 1, Triple.mk (i + row) (items * bins + ((i - 1) % bins) + 1) (-1)])

/-- Matrix block of constraint (5): rows for `y[j+1] <= y[j]`. -/
def bppMatrix5 (bins items row : Nat) : List Triple :=
  (forExcl 1 bins).flatMap (fun i =>
    [Triple.mk (i + row) (items * bins + ((i - 1) % bins) + 1) (-1),
     Triple.mk (i + row) (items * bins + ((i - 1) % bins) + 2) 1])

/-- The triples `ia/ja/ar[1 .. offset]` written by `BEL_BPPSolve`, in order. -/
def bppMatrix (bins : Nat) (capacity : Int) (items : Nat) (volume : List Int) : List Triple :=
  let row := 0
  let m2 := bppMatrix2 bins items row
  let row := row + items
  let m3 := bppMatrix3 bins capacity items volume row
  let row := row + bins
  let m4 := bppMatrix4 bins items row
  let row := row + items * bins
  let m5 := bppMatrix5 bins items row
  m2 ++ m3 ++ m4 ++ m5

/-- The problem that `BEL_BPPSolve` builds.  With `items >= 0`, every loop bound that involves
`bins` is non-positive when `bins <= 0`, so the loops run over `bins.toNat`.  The names given
to the problem, its rows and its columns, the files written and the `verbose` output play no
part in the solution; whether the call that builds the problem is a defined execution is
`bppCallDefined`. -/
def bppProblem (bins capacity : Int) (items : Nat) (volume : List Int) : MipProblem where
  objDir := ObjDir.LPX_MIN
  nrows := items + bins + items * bins + (bins - 1)
  ncols := (items + 1) * bins
  rowBnds := bppRowBnds bins.toNat items
  colBnds := bppColBnds bins.toNat items
  objCoef := bppObjCoef bins.toNat items
  matrix := bppMatrix bins.toNat capacity items volume

/-- What the pointer `s` of `BEL_BPPSolve` designates.  It is declared `char *s;` and never
assigned, so its value is whatever its stack slot holds: `writable` when that happens to be
storage that takes the row and column names `sprintf` writes through it, `wild` otherwise. -/
inductive NamePointer where
  | writable
  | wild
deriving DecidableEq, Repr

/-- The conditions under which a call of `BEL_BPPSolve` is a defined execution that reaches its
`return`: a name is written through `s` only when `s` designates writable storage (the first
`sprintf` runs as soon as `items >= 1` or `bins >= 1`), the counts passed to `lpx_add_rows` and
`lpx_add_cols` are positive (GLPK stops the program otherwise), and every write
`ia/ja/ar[offset]` stays below the array size `1 + MAX_NONZEROES`. -/
def bppCallDefined (s : NamePointer) (bins capacity : Int) (items : Nat) (volume : List Int) :
    Prop :=
  ((1 ≤ items ∨ 1 ≤ bins) → s = NamePointer.writable)
    ∧ 1 ≤ (bppProblem bins capacity items volume).nrows
    ∧ 1 ≤ (bppProblem bins capacity items volume).ncols
    ∧ (bppProblem bins capacity items volume).matrix.length ≤ MAX_NONZEROES

instance (s : NamePointer) (bins capacity : Int) (items : Nat) (volume : List Int) :
    Decidable (bppCallDefined s bins capacity items volume) := by
  unfold bppCallDefined; infer_instance

/-- `BEL_BPPSolve`: the C return value and the value stored in `*min_bins` by a call that is
a defined execution (`bppCallDefined`; the caller `BEL_VRPProblemIsFeasible` has no result
otherwise). -/
def BEL_BPPSolve (solver : MipProblem → MipResult) (bins capacity : Int) (items : Nat)
    (volume : List Int) : Int × Int :=
  let res := solver (bppProblem bins capacity items volume)
  let min_bins := res.objVal
  let mip_status := res.status
  (if mip_status = MipStatus.I_OPT ∨ mip_status = MipStatus.I_FEAS then 1 else 0, min_bins)

/-! ## `BEL_VRPProblemIsFeasible` (src/beluga.c) -/

/-- The values that the copying loop writes to `volume[0]`, `volume[1]`, ...: the demand of
every non-depot node.  The C array has `ncustomers` cells (`CC_SAFE_MALLOC(items, int)`), so
the writes stay inside it only when the list has at most `ncustomers` entries, and the list is
the array exactly when `ncustomers` is the number of non-depot nodes. -/
def customerVolumes (data : BEL_VRPData) : List Int :=
  (List.range data.dimension).filterMap (fun i =>
    if data.isadepot.getD i 0 = 0 then some (data.demand.getD i 0) else none)

/-- Result of `BEL_VRPProblemIsFeasible`: the returned `BOOL`, the instance and `*errorCode`
after the call. -/
structure FeasResult where
  ret : Bool
  data : Option BEL_VRPData
  errorCode : Int
deriving DecidableEq, Repr

/-- `BEL_VRPProblemIsFeasible`; `data = none` is the null pointer and `s` is what the pointer
`s` of `BEL_BPPSolve` designates.  The result is `none` when the C execution has no defined
result: the cast in `BEL_VRPVehiclesLB` is undefined, the copying loop does not fill the
`ncustomers` cells of `volume` exactly (with more unflagged nodes a write falls outside the
allocation, with fewer the last cells are read without having been written), or the call of
`BEL_BPPSolve` is not a defined execution. -/
def BEL_VRPProblemIsFeasible (solver : MipProblem → MipResult) (s : NamePointer)
    (data : Option BEL_VRPData) (errorCode : Int) : Option FeasResult :=
  match data with
  | none => some ⟨false, none, errorCode⟩
  | some d =>
    let items := d.ncustomers
    let bins := BEL_VRPVehiclesLB d
    let capacity := d.capacity
    let volume := customerVolumes d
    if ¬ vehiclesLBDefined d then none
    else if volume.length ≠ items then none
    else if ¬ bppCallDefined s bins capacity items volume then none
    else
      let r := BEL_BPPSolve solver bins capacity items volume
      if r.1 ≠ 0 then
        some ⟨true, some { d with nvehicles := r.2 }, errorCode⟩
      else
        some ⟨false, some d, BEL_VRP_NOT_ENOUGH_VEHICLES⟩

/-- The call of `BEL_VRPProblemIsFeasible` on the instance `d` is a defined execution: the
three conditions that the function checks before it gives a result. -/
def feasibilityCallDefined (s : NamePointer) (d : BEL_VRPData) : Prop :=
  vehiclesLBDefined d ∧ (customerVolumes d).length = d.ncustomers
    ∧ bppCallDefined s (BEL_VRPVehiclesLB d) d.capacity d.ncustomers (customerVolumes d)

instance (s : NamePointer) (d : BEL_VRPData) : Decidable (feasibilityCallDefined s d) := by
  unfold feasibilityCallDefined; infer_instance

/-! ## Assumptions on the external solver -/

/-- A reported integer solution is a feasible point and the reported objective is its value. -/
def SolverSound (solver : MipProblem → MipResult) (p : MipProblem) : Prop :=
  ((solver p).status = MipStatus.I_OPT ∨ (solver p).status = MipStatus.I_FEAS) →
    Feasible p (solver p).colVal ∧ (solver p).objVal = objective p (solver p).colVal

/-- Column of `x[i][j]` (1-based). -/
def xcol (bins i j : Nat) : Nat := (i - 1) * bins + j

/-- Column of `y[j]` (1-based). -/
def ycol (bins items j : Nat) : Nat := items * bins + j

/-- Constraint (2): every item is in exactly one bin. -/
def BppAssign (bins items : Nat) (x : Nat → Int) : Prop :=
  ∀ i, 1 ≤ i → i ≤ items → ∑ j ∈ Finset.Icc 1 bins, x (xcol bins i j) = 1

/-- Constraint (3): the volume put in bin `j` is at most `capacity * y[j]`. -/
def BppCapacity (bins : Nat) (capacity : Int) (items : Nat) (volume : List Int)
    (x : Nat → Int) : Prop :=
  ∀ j, 1 ≤ j → j ≤ bins →
    ∑ i ∈ Finset.Icc 1 items, volume.getD (i - 1) 0 * x (xcol bins i j)
      ≤ capacity * x (ycol bins items j)

/-- Constraint (4): an item is only put in a used bin. -/
def BppLink (bins items : Nat) (x : Nat → Int) : Prop :=
  ∀ i j, 1 ≤ i → i ≤ items → 1 ≤ j → j ≤ bins → x (xcol bins i j) ≤ x (ycol bins items j)

/-- Constraint (5): a bin is used only if its predecessor is. -/
def BppOrder (bins items : Nat) (x : Nat → Int) : Prop :=
  ∀ j, 1 ≤ j → j < bins → x (ycol bins items (j + 1)) ≤ x (ycol bins items j)

/-- Every column `1 .. (items + 1) * bins` holds 0 or 1. -/
def BppBinary (bins items : Nat) (x : Nat → Int) : Prop :=
  ∀ c, 1 ≤ c → c ≤ (items + 1) * bins → x c = 0 ∨ x c = 1

/-- Number of bins in use: the sum of the `y` columns. -/
def binsUsed (bins items : Nat) (x : Nat → Int) : Int :=
  ∑ j ∈ Finset.Icc 1 bins, x (ycol bins items j)

/-- The bounds set on the rows `1 .. n` hold. -/
def FirstRowsOk (p : MipProblem) (n : Nat) (x : Nat → Int) : Prop :=
  ∀ rb ∈ p.rowBnds, rb.1 ≤ n → RowOk p x rb

instance (p : MipProblem) (n : Nat) (x : Nat → Int) : Decidable (FirstRowsOk p n x) := by
  unfold FirstRowsOk; infer_instance

/-- Total volume of the items `1 .. items`. -/
def totalVolume (items : Nat) (volume : List Int) : Int :=
  ∑ i ∈ Finset.Icc 1 items, volume.getD (i - 1) 0

/-- The column vector `x` with the bins renumbered by `τ`: bin `j` of the result is bin `τ j`
of `x`. -/
def renumberBins (bins items : Nat) (τ : Nat → Nat) (x : Nat → Int) : Nat → Int :=
  fun c =>
    if c ≤ items * bins then x (xcol bins ((c - 1) / bins + 1) (τ ((c - 1) % bins + 1)))
    else if c ≤ (items + 1) * bins then x (ycol bins items (τ (c - items * bins)))
    else 0

instance (solver : MipProblem → MipResult) (p : MipProblem) : Decidable (SolverSound solver p) := by
  unfold SolverSound; infer_instance

/-! ## Concrete instances used in the worked examples -/

/-- One depot and three customers of demand 16777217 each, capacity 16777217. -/
def roundedUpData : BEL_VRPData :=
  { demand := [0, 16777217, 16777217, 16777217], isadepot := [1, 0, 0, 0], depots := [0],
    capacity := 16777217, dimension := 4, ndepots := 1, ncustomers := 3, nvehicles := 0 }

/-- A solver answer for `roundedUpData`: one customer in each of the bins 1, 2, 3 (of 4). -/
def roundedUpSolver : MipProblem → MipResult := fun _ =>
  ⟨MipStatus.I_OPT, 3,
    fun c => if c = 1 ∨ c = 6 ∨ c = 11 ∨ c = 13 ∨ c = 14 ∨ c = 15 then 1 else 0⟩

/-- Two items of volume 6 in two bins of capacity 10: item 1 in bin 1, item 2 in bin 2. -/
def twoBinsPacking : Nat → Int := fun c => if c = 1 ∨ c = 4 ∨ c = 5 ∨ c = 6 then 1 else 0

/-- One depot and one customer whose demand 11 exceeds the capacity 10. -/
def oversizedData : BEL_VRPData :=
  { demand := [0, 11], isadepot := [1, 0], depots := [0],
    capacity := 10, dimension := 2, ndepots := 1, ncustomers := 1, nvehicles := 0 }

/-- A solver answer that reports no integer-feasible point. -/
def rejectingSolver : MipProblem → MipResult := fun _ => ⟨MipStatus.I_NOFEAS, 0, fun _ => 0⟩

/-- One depot and three customers of demand 6 each, capacity 10: three vehicles are needed,
the closed-form bound is 2. -/
def threeSixesData : BEL_VRPData :=
  { demand := [0, 6, 6, 6], isadepot := [1, 0, 0, 0], depots := [0],
    capacity := 10, dimension := 4, ndepots := 1, ncustomers := 3, nvehicles := 0 }

/-- Three items of volume 6 in three bins of capacity 10, one item per bin. -/
def threeBinsPacking : Nat → Int :=
  fun c => if c = 1 ∨ c = 5 ∨ c = 9 ∨ c = 10 ∨ c = 11 ∨ c = 12 then 1 else 0

/-- One depot and one customer of demand 16777217, capacity 16777216. -/
def roundedDownData : BEL_VRPData :=
  { demand := [0, 16777217], isadepot := [1, 0], depots := [0],
    capacity := 16777216, dimension := 2, ndepots := 1, ncustomers := 1, nvehicles := 0 }

/-- One depot and two customers of demand 6 each, capacity 10, with a fleet size of 1 supplied
by the caller. -/
def suppliedFleetData : BEL_VRPData :=
  { demand := [0, 6, 6], isadepot := [1, 0, 0], depots := [0],
    capacity := 10, dimension := 3, ndepots := 1, ncustomers := 2, nvehicles := 1 }

/-- A solver answer for `suppliedFleetData`: the packing `twoBinsPacking`, two bins in use. -/
def twoBinsSolver : MipProblem → MipResult := fun _ => ⟨MipStatus.I_OPT, 2, twoBinsPacking⟩

/-- One item of volume 0 placed in the single bin, with the bin flagged unused. -/
def zeroVolumePoint : Nat → Int := fun c => if c = 1 then 1 else 0

/-- One item placed in the single bin, with the bin flagged used. -/
def oneBinPoint : Nat → Int := fun c => if c = 1 ∨ c = 2 then 1 else 0

/-- A depot and one customer of demand 1, with capacity 0. -/
def zeroCapacityData : BEL_VRPData :=
  { demand := [0, 1], isadepot := [1, 0], depots := [0],
    capacity := 0, dimension := 2, ndepots := 1, ncustomers := 1, nvehicles := 0 }

/-- What the reader of src/datautils.c stores for three nodes of demands 0, 1, 0 with node 1
alone in the `DEPOT_SECTION`: both nodes of demand 0 are counted as depots
(`ncustomers = dimension - 2`), one of them is flagged. -/
def strayNodeData : BEL_VRPData :=
  { demand := [0, 1, 0], isadepot := [1, 0, 0], depots := [0],
    capacity := 1, dimension := 3, ndepots := 2, ncustomers := 1, nvehicles := 0 }

/-! ## `BEL_CCLPSolve` (src/capconloc.c)

Distances and costs are C `int`s; their sums and products are taken on the integers (signed
overflow is undefined in C). -/

/-- The macro `MIN` of src/beluga.h. -/
def MIN (x y : Int) : Int := if x < y then x else y

/-- The value of `(float) z` for a C `int` `z`; it is an integer, which `f32Ceil` returns. -/
def f32IntValue (z : Int) : Int := f32Ceil (f32OfInt z)

/-- The entry `a[i][j]` of a two-dimensional C array. -/
def getD2 (a : List (List Int)) (i j : Nat) : Int := (a.getD i []).getD j 0

/-- The `lpx_set_row_bnds` calls of `BEL_CCLPSolve`, in order; `row` is the running offset of
the C code (inside the last loop nest it is `1 + 2 * items + (i - 1) * items` in iteration
`i`). -/
def cclpRowBnds (items : Nat) (seeds : Int) : List (Nat × RowBnd) :=
  let row := 1
  let c2 := [(row, RowBnd.fx (f32IntValue (MIN seeds items)))]
  let c3 := (forIncl 1 items).map (fun i => (i + row, RowBnd.up 0))
  let row := row + items
  let c4 := (forIncl 1 items).map (fun i => (i + row, RowBnd.fx 1))
  let row := row + items
  let c5 := (forIncl 1 items).flatMap (fun i =>
    (forIncl 1 items).map (fun j => (j + (row + (i - 1) * items), RowBnd.up 0)))
  c2 ++ c3 ++ c4 ++ c5

/-- The `lpx_set_col_bnds` calls of `BEL_CCLPSolve`: every column is `LPX_DB` with bounds 0, 1;
`col` is `(i - 1) * items` in iteration `i` and `items * items` after the loop nest. -/
def cclpColBnds (items : Nat) : List (Nat × Int × Int) :=
  let ys := (forIncl 1 items).flatMap (fun i =>
    (forIncl 1 items).map (fun j => (j + (i - 1) * items, (0 : Int), (1 : Int))))
  let col := items * items
  let zs := (forIncl 1 items).map (fun j => (j + col, (0 : Int), (1 : Int)))
  ys ++ zs

/-- The `lpx_set_obj_coef` calls of `BEL_CCLPSolve`: `cost[i-1][j-1]` on the column of
`y[i][j]`, `seed_cost[j-1]` on the column of `z[j]`. -/
def cclpObjCoef (items : Nat) (cost : List (List Int)) (seed_cost : List Int) :
    List (Nat × Int) :=
  let ys := (forIncl 1 items).flatMap (fun i =>
    (forIncl 1 items).map (fun j => (j + (i - 1) * items, getD2 cost (i - 1) (j - 1))))
  let col := items * items
  let zs := (forIncl 1 items).map (fun j => (j + col, seed_cost.getD (j - 1) 0))
  ys ++ zs

/-- First matrix block: row 1, the sum of the `z` columns. -/
def cclpMatrixSeeds (items row : Nat) : List Triple :=
  (forIncl 1 items).map (fun i => Triple.mk 1 (i + items * items + row) 1)

/-- Second matrix block: rows `i + row`, the weight put on seed `i` minus
`capacity * z[i]`. -/
def cclpMatrixCapacity (items : Nat) (weight : List Int) (capacity : Int) (row : Nat) :
    List Triple :=
  (forIncl 1 items).flatMap (fun i =>
    (forStep i (i + items * (items - 1)) items).map
        (fun j => Triple.mk (i + row) j (weight.getD ((j - 1) / items) 0))
      ++ [Triple.mk (i + row) (i + items * items) (-capacity)])

/-- Third matrix block: rows `i + row`, the sum of the `y[i][.]` columns. -/
def cclpMatrixAssign (items row : Nat) : List Triple :=
  (forIncl 1 items).flatMap (fun i =>
    (forIncl ((i - 1) * items + 1) (i * items)).map (fun j => Triple.mk (i + row) j 1))

/-- Fourth matrix block: one row `y[i][j] - z[j]` per `y` column. -/
def cclpMatrixLink (items row : Nat) : List Triple :=
  (forIncl 1 (items * items)).flatMap (fun i =>
    [Triple.mk (i + row) i 1,
     Triple.mk (i + row) (items * items + ((i - 1) % items) + 1) (-1)])

/-- The triples `ia/ja/ar[1 .. offset]` written by `BEL_CCLPSolve`, in order. -/
def cclpMatrix (items : Nat) (weight : List Int) (capacity : Int) : List Triple :=
  let row := 0
  let m2 := cclpMatrixSeeds items row
  let row := row + 1
  let m4 := cclpMatrixCapacity items weight capacity row
  let row := row + items
  let m3 := cclpMatrixAssign items row
  let row := row + items
  let m5 := cclpMatrixLink items row
  m2 ++ m4 ++ m3 ++ m5

/-- The problem that `BEL_CCLPSolve` builds (names, files and `verbose` output left out). -/
def cclpProblem (items : Nat) (cost : List (List Int)) (weight : List Int) (seeds : Int)
    (seed_cost : List Int) (capacity : Int) : MipProblem where
  objDir := ObjDir.LPX_MIN
  nrows := 1 + items + items + items * items
  ncols := (items + 1) * items
  rowBnds := cclpRowBnds items seeds
  colBnds := cclpColBnds items
  objCoef := cclpObjCoef items cost seed_cost
  matrix := cclpMatrix items weight capacity

/-- The inner read-back loop for item `i`: `assignments[i] = j` for every `j` whose column
`i * items + j + 1` holds a non-zero value. -/
def cclpReadRow (items : Nat) (colVal : Nat → Int) (i : Nat) (assignments : List Int) :
    List Int :=
  (List.range items).foldl
    (fun a j => if colVal (i * items + j + 1) ≠ 0 then a.set i (j : Int) else a) assignments

/-- The read-back loop nest of `BEL_CCLPSolve` (the `default:` branch of the `switch`, taken
for every status). -/
def cclpReadBack (items : Nat) (colVal : Nat → Int) (assignments : List Int) : List Int :=
  (List.range items).foldl (fun a i => cclpReadRow items colVal i a) assignments

/-- `BEL_CCLPSolve`: returns the C return value and the array `assignments` after the call;
the argument `assignments` is the content of the array before the call. -/
def BEL_CCLPSolve (solver : MipProblem → MipResult) (items : Nat) (cost : List (List Int))
    (weight : List Int) (seeds : Int) (seed_cost : List Int) (capacity : Int)
    (assignments : List Int) : Int × List Int :=
  let res := solver (cclpProblem items cost weight seeds seed_cost capacity)
  (0, cclpReadBack items res.colVal assignments)

/-- The bounds set on the rows `lo .. hi` hold. -/
def RowsOkIn (p : MipProblem) (lo hi : Nat) (x : Nat → Int) : Prop :=
  ∀ rb ∈ p.rowBnds, lo ≤ rb.1 → rb.1 ≤ hi → RowOk p x rb

instance (p : MipProblem) (lo hi : Nat) (x : Nat → Int) : Decidable (RowsOkIn p lo hi x) := by
  unfold RowsOkIn; infer_instance

/-! ## `BEL_SolveVRPProblem` (src/beluga.c) -/

/-- The size class `norm & CC_NORM_SIZE_BITS` of a Concorde norm: `CC_D2_NORM_SIZE`,
`CC_D3_NORM_SIZE`, or anything else. -/
inductive NormSize where
  | d2
  | d3
  | other
deriving DecidableEq, Repr

/-- The fields of Concorde's `CCdatagroup` that `BEL_SolveVRPProblem` reads or writes: the
size class of the norm and the coordinate arrays (empty when not allocated). -/
structure CCdatagroup where
  normSize : NormSize
  x : List ℚ
  y : List ℚ
  z : List ℚ
deriving DecidableEq, Repr

/-- The file-static variables of src/beluga.c that `BEL_SolveVRPProblem` reads. -/
structure Statics where
  curr_depot : Nat
  norm : NormSize
deriving DecidableEq, Repr

/-- `struct BEL_VRPSolution` (src/beluga.h); a route that was not allocated is `[]`. -/
structure BEL_VRPSolution where
  routes : List (List Nat)
  routelen : List Int
  cost : Int
  nvehicles : Int
deriving DecidableEq, Repr

/-- The local arrays that the first loop of `BEL_SolveVRPProblem` fills, and the counter `k`. -/
structure ClusterInput where
  demand : List Int
  cost : List (List Int)
  seed_cost : List Int
  customer2node : List Nat
  node2customer : List Int
  k : Nat
deriving DecidableEq, Repr

/-- The row `cost[k][.]` written by the inner loop for the customer at node `i`:
`edgelen(i, depot) + edgelen(i, j) - edgelen(depot, j)` in C `int` arithmetic, the sum first. -/
def costRow (edgelen : Nat → Nat → Int) (data : BEL_VRPData) (depot i : Nat) : List Int :=
  (List.range data.dimension).filterMap (fun j =>
    if data.isadepot.getD j 0 = 0 then
      some (wrapInt32 (wrapInt32 (edgelen i depot + edgelen i j) - edgelen depot j))
    else none)

/-- One iteration of the first loop of `BEL_SolveVRPProblem`, for node `i`.  The writes
`customer2node[k]`, `demand[k]`, `seed_cost[k]`, `cost[k][.]` and `node2customer[i]` go to the
next free cell of each array, so they are appends; `seed_cost[k]` is `2 * edgelen(i, depot)`
in C `int` arithmetic. -/
def tablesStep (edgelen : Nat → Nat → Int) (data : BEL_VRPData) (depot : Nat)
    (s : ClusterInput) (i : Nat) : ClusterInput :=
  if data.isadepot.getD i 0 = 0 then
    { demand := s.demand ++ [data.demand.getD i 0]
      cost := s.cost ++ [costRow edgelen data depot i]
      seed_cost := s.seed_cost ++ [wrapInt32 (2 * edgelen i depot)]
      customer2node := s.customer2node ++ [i]
      node2customer := s.node2customer ++ [(s.k : Int)]
      k := s.k + 1 }
  else
    { s with node2customer := s.node2customer ++ [-1] }

/-- The first loop of `BEL_SolveVRPProblem`. -/
def buildClusterInput (edgelen : Nat → Nat → Int) (data : BEL_VRPData) (depot : Nat) :
    ClusterInput :=
  (List.range data.dimension).foldl (tablesStep edgelen data depot) ⟨[], [], [], [], [], 0⟩

/-- The element `a[i]` of an `int` array read with an `int` index; `none` when the index lies
outside the array. -/
def readIdx (a : List Int) (i : Int) : Option Int :=
  if 0 ≤ i ∧ i.toNat < a.length then some (a.getD i.toNat 0) else none

/-- The values that the seed-detection loop writes to `seed[0]`, `seed[1]`, ...: the nodes of
the customers with `cluster[i] == i`, in order. -/
def foundSeeds (items : Nat) (cluster : List Int) (customer2node : List Nat) : List Int :=
  (List.range items).filterMap (fun i =>
    if cluster.getD i 0 = (i : Int) then some ((customer2node.getD i 0 : Nat) : Int) else none)

/-- The array `int seed[seeds]` after the seed-detection loop: the detected seeds followed by
what the array held before (`seed0`); `none` when a write `seed[n++]` falls outside the
array. -/
def detectSeeds (items : Nat) (seeds : Int) (cluster : List Int) (customer2node : List Nat)
    (seed0 : List Int) : Option (List Int) :=
  let found := foundSeeds items cluster customer2node
  if (found.length : Int) ≤ seeds then some (found ++ seed0.drop found.length) else none

/-- The values written to `current_set[0]`, `current_set[1]`, ... for the customer index `s`
read from `node2customer[seed[i]]`: the depot, then the node of every customer `j` with
`cluster[j] == s`. -/
def clusterNodes (items depot : Nat) (cluster : List Int) (customer2node : List Nat) (s : Int) :
    List Nat :=
  depot :: (List.range items).filterMap (fun j =>
    if cluster.getD j 0 = s then some (customer2node.getD j 0) else none)

/-- The array `int current_set[items]` (its first `n` entries) after the grouping loop; `none`
when a write `current_set[n]` falls outside the array, which has `items` entries. -/
def currentSet (items depot : Nat) (cluster : List Int) (customer2node : List Nat) (s : Int) :
    Option (List Nat) :=
  if (clusterNodes items depot cluster customer2node s).length ≤ items then
    some (clusterNodes items depot cluster customer2node s)
  else none

/-- The coordinate subset `routes[i]` handed to the tour solver, or `none` where the C code
returns 1: the first test reads the norm of the instance, the second the file-static `norm`. -/
def routeDat (st : Statics) (dat : CCdatagroup) (cs : List Nat) : Option CCdatagroup :=
  if dat.normSize = NormSize.d2 then
    some ⟨dat.normSize, cs.map (fun c => dat.x.getD c 0), cs.map (fun c => dat.y.getD c 0), []⟩
  else if st.norm = NormSize.d3 then
    some ⟨dat.normSize, cs.map (fun c => dat.x.getD c 0), cs.map (fun c => dat.y.getD c 0),
      cs.map (fun c => dat.z.getD c 0)⟩
  else none

/-- The route stored for a node subset `cs` and a tour: `current_set[tour[k]]` for
`k = 1 .. n - 1`. -/
def decodeRoute (cs : List Nat) (tour : List Nat) : List Nat :=
  (forExcl 1 cs.length).map (fun k => cs.getD (tour.getD k 0) 0)

/-- The closed-tour cost of one route as an exact integer: the edges between consecutive tour
positions and the closing edge.  What the code adds to the `int total_cost`, edge by edge, is
`addTourCost`. -/
def tourCost (edgelen : Nat → Nat → Int) (cs : List Nat) (tour : List Nat) : Int :=
  ((forExcl 1 cs.length).map (fun k =>
      edgelen (cs.getD (tour.getD (k - 1) 0) 0) (cs.getD (tour.getD k 0) 0))).sum
    + edgelen (cs.getD (tour.getD (cs.length - 1) 0) 0) (cs.getD (tour.getD 0 0) 0)

/-- The updates `total_cost += edgelen(...)` of one route, in C `int` arithmetic: one for every
tour position `k = 1 .. n - 1`, then the closing edge. -/
def addTourCost (edgelen : Nat → Nat → Int) (cs : List Nat) (tour : List Nat)
    (total_cost : Int) : Int :=
  wrapInt32
    ((forExcl 1 cs.length).foldl (fun acc k =>
        wrapInt32 (acc + edgelen (cs.getD (tour.getD (k - 1) 0) 0) (cs.getD (tour.getD k 0) 0)))
      total_cost
      + edgelen (cs.getD (tour.getD (cs.length - 1) 0) 0) (cs.getD (tour.getD 0 0) 0))

/-- The route loop of `BEL_SolveVRPProblem` over the remaining vehicle indices: the result is
the return value so far (1 after a `return 1`), the solution and `total_cost`; it is `none`
when `node2customer` is read outside its extent or `current_set` is written outside its
extent. -/
def routeLoop (edgelen : Nat → Nat → Int) (tsp : Nat → CCdatagroup → List Nat) (st : Statics)
    (dat : CCdatagroup) (items depot : Nat) (cluster : List Int) (t : ClusterInput)
    (seed : List Int) : List Nat → BEL_VRPSolution → Int → Option (Int × BEL_VRPSolution × Int)
  | [], sol, total_cost => some (0, sol, total_cost)
  | i :: rest, sol, total_cost =>
    match readIdx t.node2customer (seed.getD i 0) with
    | none => none
    | some s =>
      match currentSet items depot cluster t.customer2node s with
      | none => none
      | some cs =>
        match routeDat st dat cs with
        | none => some (1, sol, total_cost)
        | some rdat =>
          let tour := tsp cs.length rdat
          let sol1 : BEL_VRPSolution :=
            { sol with routelen := sol.routelen.set i ((cs.length : Int) - 1)
                       routes := sol.routes.set i (decodeRoute cs tour) }
          routeLoop edgelen tsp st dat items depot cluster t seed rest sol1
            (addTourCost edgelen cs tour total_cost)

/-- The local arrays of `BEL_SolveVRPProblem` and the triple arrays of `BEL_CCLPSolve` hold
what the code puts in them up to the call of the solver: the variable-length arrays of `items`
entries (`demand`, `cost`, `seed_cost`, `cluster`, `customer2node`) and of `nvehicles` entries
(`seed`, `routes`) have at least one cell, the first loop fills the `items` cells of its tables
exactly (with more unflagged nodes than `items` a write falls outside them, with fewer the last
cells are read without having been written), and the triples that `BEL_CCLPSolve` writes
number at most `MAX_NONZEROES`. -/
def solveArraysFit (items : Nat) (nvehicles : Int) (t : ClusterInput) (capacity : Int) : Prop :=
  1 ≤ items ∧ 1 ≤ nvehicles ∧ t.k = items
    ∧ (cclpMatrix items t.demand capacity).length ≤ MAX_NONZEROES

instance (items : Nat) (nvehicles : Int) (t : ClusterInput) (capacity : Int) :
    Decidable (solveArraysFit items nvehicles t capacity) := by
  unfold solveArraysFit; infer_instance

/-- The read `data->depots[curr_depot]` is inside the array and gives a node of the
instance. -/
def depotValid (st : Statics) (data : BEL_VRPData) : Prop :=
  st.curr_depot < data.depots.length ∧ 0 ≤ data.depots.getD st.curr_depot 0
    ∧ (data.depots.getD st.curr_depot 0).toNat < data.dimension

instance (st : Statics) (data : BEL_VRPData) : Decidable (depotValid st data) := by
  unfold depotValid; infer_instance

/-- `BEL_SolveVRPProblem`: returns the C return value and `*sol` after the call, or `none` when
`depots` is read outside its extent (`depotValid`), the arrays do not hold what is put in them
(`solveArraysFit`), a write falls outside the local arrays `seed` and `current_set`, or
`node2customer` is read outside its extent.
`dat` is `data->dat`, `edgelen` its distance function,
`tsp` is `BEL_TSPSolve`; `cluster0` and `seed0` are what the local arrays `cluster` and `seed`
hold before anything is written to them, and `sol` is `*sol` before the call. -/
def BEL_SolveVRPProblem (edgelen : Nat → Nat → Int) (solver : MipProblem → MipResult)
    (tsp : Nat → CCdatagroup → List Nat) (st : Statics) (dat : CCdatagroup)
    (cluster0 seed0 : List Int) (data : BEL_VRPData) (sol : BEL_VRPSolution) :
    Option (Int × BEL_VRPSolution) :=
  let items := data.ncustomers
  let seeds := data.nvehicles
  let capacity := data.capacity
  let depot := (data.depots.getD st.curr_depot 0).toNat
  let t := buildClusterInput edgelen data depot
  if ¬ (depotValid st data ∧ solveArraysFit items seeds t capacity) then none
  else
    let cluster :=
      (BEL_CCLPSolve solver items t.cost t.demand seeds t.seed_cost capacity cluster0).2
    match detectSeeds items seeds cluster t.customer2node seed0 with
    | none => none
    | some seed =>
      let sol1 : BEL_VRPSolution :=
        { sol with nvehicles := data.nvehicles
                   routelen := List.replicate data.nvehicles.toNat 0
                   routes := List.replicate data.nvehicles.toNat [] }
      match routeLoop edgelen tsp st dat items depot cluster t seed
          (List.range data.nvehicles.toNat) sol1 0 with
      | none => none
      | some r => if r.1 = 1 then some (1, r.2.1) else some (0, { r.2.1 with cost := r.2.2 })

/-! ## Example data for the clustering step -/

/-- Column values for two customers in which each customer is assigned to itself and both seed
indicators are set: `y[1][1] = y[2][2] = z[1] = z[2] = 1`. -/
def ownSeedsPoint : Nat → Int := fun c => if c = 1 ∨ c = 4 ∨ c = 5 ∨ c = 6 then 1 else 0

/-- Column values for two customers in which each customer is assigned to the other one and both
seed indicators are set: `y[1][2] = y[2][1] = z[1] = z[2] = 1`. -/
def swappedSeedsPoint : Nat → Int := fun c => if c = 2 ∨ c = 3 ∨ c = 5 ∨ c = 6 then 1 else 0

/-- A solver answering `swappedSeedsPoint`, with objective value 8. -/
def swappedSeedsSolver : MipProblem → MipResult :=
  fun _ => ⟨MipStatus.I_OPT, 8, swappedSeedsPoint⟩

/-- A solver answering `ownSeedsPoint`, with objective value 8. -/
def ownSeedsSolver : MipProblem → MipResult :=
  fun _ => ⟨MipStatus.I_OPT, 8, ownSeedsPoint⟩

/-- The nodes below `n` that are not flagged as depots, in increasing order. -/
def nonDepots (data : BEL_VRPData) (n : Nat) : List Nat :=
  (List.range n).filter (fun i => data.isadepot.getD i 0 = 0)

/-- A depot (node 0) and two customers of demand 1 each, vehicles of capacity 1, two vehicles. -/
def twoCustomerData : BEL_VRPData :=
  { demand := [0, 1, 1], isadepot := [1, 0, 0], depots := [0], capacity := 1, dimension := 3,
    ndepots := 1, ncustomers := 2, nvehicles := 2 }

/-- Distances for `twoCustomerData`: both customers lie at the same place, at distance 2 from the
depot. -/
def depotDistance : Nat → Nat → Int :=
  fun i j => if i = j then 0 else if i = 0 ∨ j = 0 then 2 else 0

/-- Column values for two customers in which both seed indicators are set and both customers
are assigned to the second seed: `y[1][2] = y[2][2] = z[1] = z[2] = 1`. -/
def sharedSeedPoint : Nat → Int := fun c => if c = 2 ∨ c = 4 ∨ c = 5 ∨ c = 6 then 1 else 0

/-- A solver answering `sharedSeedPoint`, with objective value 7. -/
def sharedSeedSolver : MipProblem → MipResult :=
  fun _ => ⟨MipStatus.I_OPT, 7, sharedSeedPoint⟩

/-- A depot (node 0) and three customers of demands 2, 1 and 3; vehicles of capacity 3, and the
two vehicles that the lower bound asks for. -/
def threeCustomerData : BEL_VRPData :=
  { demand := [0, 2, 1, 3], isadepot := [1, 0, 0, 0], depots := [0], capacity := 3,
    dimension := 4, ndepots := 1, ncustomers := 3, nvehicles := 2 }

/-- Rounded Euclidean distances between the points (0, 0), (-1, 0), (-1, 2), (-2, 3). -/
def roundedDistance : Nat → Nat → Int := fun i j =>
  if i = j then 0
  else if (i = 0 ∧ j = 1) ∨ (i = 1 ∧ j = 0) then 1
  else if (i = 0 ∧ j = 2) ∨ (i = 2 ∧ j = 0) then 2
  else if (i = 0 ∧ j = 3) ∨ (i = 3 ∧ j = 0) then 4
  else if (i = 1 ∧ j = 2) ∨ (i = 2 ∧ j = 1) then 2
  else if (i = 1 ∧ j = 3) ∨ (i = 3 ∧ j = 1) then 3
  else if (i = 2 ∧ j = 3) ∨ (i = 3 ∧ j = 2) then 1
  else 0

/-- Column values for three customers: seeds 1 and 2 are selected, customers 1 and 2 are
assigned to seed 1 and customer 3 to seed 2:
`y[1][1] = y[2][1] = y[3][2] = z[1] = z[2] = 1`. -/
def borrowedSeedPoint : Nat → Int :=
  fun c => if c = 1 ∨ c = 4 ∨ c = 8 ∨ c = 10 ∨ c = 11 then 1 else 0

/-- A solver answering `borrowedSeedPoint`, with objective value 12. -/
def borrowedSeedSolver : MipProblem → MipResult :=
  fun _ => ⟨MipStatus.I_OPT, 12, borrowedSeedPoint⟩

/-- The tour that visits the local indices in their order, as `BEL_TSPSolve` returns for up to
three nodes. -/
def identityTour : Nat → CCdatagroup → List Nat := fun n _ => List.range n

/-- The defaults of the file-level settings: depot 0 and the two-dimensional Euclidean norm. -/
def planeStatics : Statics := ⟨0, NormSize.d2⟩

/-- The coordinates (0, 0), (-1, 0), (-1, 2), (-2, 3) of `threeCustomerData`. -/
def threeCustomerDat : CCdatagroup := ⟨NormSize.d2, [0, -1, -1, -2], [0, 0, 2, 3], []⟩

/-- A solution record before any route is stored. -/
def emptySolution : BEL_VRPSolution := ⟨[], [], 0, 0⟩

/-- A depot and one customer whose demand 2 exceeds the capacity 1; one vehicle. -/
def overloadedData : BEL_VRPData :=
  { demand := [0, 2], isadepot := [1, 0], depots := [0], capacity := 1, dimension := 2,
    ndepots := 1, ncustomers := 1, nvehicles := 1 }

/-- The coordinates (0, 0), (-1, 0) of `overloadedData`. -/
def overloadedDat : CCdatagroup := ⟨NormSize.d2, [0, -1], [0, 0], []⟩

/-- Distances between three points on a line, the depot 0 at one end, node 2 next to it and
node 1 far away: `d(0, 2) = 1`, `d(2, 1) = 2^30`, `d(0, 1) = 2^30 + 1`.  A symmetric distance
with the triangle inequality whose values are C `int`s. -/
def farDistance : Nat → Nat → Int := fun i j =>
  if i = j then 0
  else if (i = 0 ∧ j = 1) ∨ (i = 1 ∧ j = 0) then 1073741825
  else if (i = 1 ∧ j = 2) ∨ (i = 2 ∧ j = 1) then 1073741824
  else 1

/-- Distances for `twoCustomerData`: both customers lie at the same place, at distance `2^29`
from the depot. -/
def halfwayDistance : Nat → Nat → Int :=
  fun i j => if i = j then 0 else if i = 0 ∨ j = 0 then 536870912 else 0

/-! ## `BEL_TSPSolve` (src/beluga.c) -/

/-- The tour solvers of the Concorde library that `BEL_TSPSolve` calls: `run_hk` fills
`besttour` for 4 to 9 nodes, and for 10 nodes or more the tour-finding and branch-and-cut code
leaves a permutation `ptour` and a tour `besttour`. -/
structure TourSolvers where
  run_hk : Nat → CCdatagroup → List Nat
  branchAndCut : Nat → CCdatagroup → List Nat × List Nat

/-- The arrays `ptour` and `besttour` at the label `CLEANUP` of `BEL_TSPSolve`. -/
def tspArrays (ext : TourSolvers) (ncount : Nat) (dat : CCdatagroup) : List Nat × List Nat :=
  if ncount < 3 then (List.range ncount, List.range ncount)
  else if ncount < 10 then
    (List.range ncount, if ncount = 3 then List.range ncount else ext.run_hk ncount dat)
  else ext.branchAndCut ncount dat

/-- `BEL_TSPSolve`: the returned array `tour[k] = ptour[besttour[k]]`, `k < ncount`. -/
def BEL_TSPSolve (ext : TourSolvers) (ncount : Nat) (dat : CCdatagroup) : List Nat :=
  (List.range ncount).map (fun k =>
    (tspArrays ext ncount dat).1.getD ((tspArrays ext ncount dat).2.getD k 0) 0)

/-! ## Quantities that the claims compare the code with -/

/-- The length of the path that visits the nodes of a list in order. -/
def pathCost (edgelen : Nat → Nat → Int) : List Nat → Int
  | [] => 0
  | [_] => 0
  | a :: b :: l => edgelen a b + pathCost edgelen (b :: l)

/-- The cost of the closed tour `depot → r[0] → ... → r[last] → depot`, computed from a stored
route `r` alone. -/
def closedTourCost (edgelen : Nat → Nat → Int) (depot : Nat) (r : List Nat) : Int :=
  pathCost edgelen (depot :: r) + edgelen ((depot :: r).getLastD depot) depot

/-- The value of `nonzeroes` that `BEL_CCLPSolve` computes before it builds the problem. -/
def cclpNonzeroes (items : Nat) : Nat :=
  1 * items + items * (items + 1) + items * items + (items * items) * 2

/-! ## Example data for the route assembly -/

/-- Tour solvers that return nothing; `BEL_TSPSolve` does not consult them for up to three
nodes. -/
def idleSolvers : TourSolvers := ⟨fun _ _ => [], fun _ _ => ([], [])⟩

/-- The coordinates (0, 0), (2, 0), (2, 0) of `twoCustomerData`. -/
def twoCustomerDat : CCdatagroup := ⟨NormSize.d2, [0, 2, 2], [0, 0, 0], []⟩

/-- The local variable `depot` of `BEL_SolveVRPProblem`. -/
def solveDepot (st : Statics) (data : BEL_VRPData) : Nat :=
  (data.depots.getD st.curr_depot 0).toNat

/-- The local array `cluster` of `BEL_SolveVRPProblem` after the call of `BEL_CCLPSolve`. -/
def solveCluster (edgelen : Nat → Nat → Int) (solver : MipProblem → MipResult) (st : Statics)
    (cluster0 : List Int) (data : BEL_VRPData) : List Int :=
  (BEL_CCLPSolve solver data.ncustomers
    (buildClusterInput edgelen data (solveDepot st data)).cost
    (buildClusterInput edgelen data (solveDepot st data)).demand
    data.nvehicles
    (buildClusterInput edgelen data (solveDepot st data)).seed_cost
    data.capacity cluster0).2

/-- A depot and three customers of demand 1; one vehicle of capacity 3 serves them all. -/
def oneRouteData : BEL_VRPData :=
  { demand := [0, 1, 1, 1], isadepot := [1, 0, 0, 0], depots := [0], capacity := 3,
    dimension := 4, ndepots := 1, ncustomers := 3, nvehicles := 1 }

/-- Column values for three customers, all assigned to seed 3, the only seed selected:
`y[1][3] = y[2][3] = y[3][3] = z[3] = 1`. -/
def oneSeedPoint : Nat → Int := fun c => if c = 3 ∨ c = 6 ∨ c = 9 ∨ c = 12 then 1 else 0

/-- A solver answering `oneSeedPoint`, with objective value 7. -/
def oneSeedSolver : MipProblem → MipResult :=
  fun _ => ⟨MipStatus.I_OPT, 7, oneSeedPoint⟩

/-- Three-dimensional coordinates (0, 0, 0), (2, 0, 0), (2, 0, 0) for `twoCustomerData`, with a
norm of the 3-D size class. -/
def spaceDat : CCdatagroup := ⟨NormSize.d3, [0, 2, 2], [0, 0, 0], [0, 0, 0]⟩

/-- The file-level settings after the option `-N 3` (`CC_EUCLIDEAN_3D`). -/
def spaceStatics : Statics := ⟨0, NormSize.d3⟩

/-- Scenario D: a depot and one customer of demand 1, capacity 1, one vehicle. -/
def singleCustomerData : BEL_VRPData :=
  { demand := [0, 1], isadepot := [1, 0], depots := [0], capacity := 1, dimension := 2,
    ndepots := 1, ncustomers := 1, nvehicles := 1 }

/-- Columns 1 and 2 set: for one item, `y[1][1] = z[1] = 1` in the clustering problem and
`x[1][1] = y[1] = 1` in the bin-packing problem with one bin. -/
def singleItemPoint : Nat → Int := fun c => if c = 1 ∨ c = 2 then 1 else 0

/-- A solver answering `singleItemPoint` for the bin-packing problem, objective value 1. -/
def singlePackSolver : MipProblem → MipResult :=
  fun _ => ⟨MipStatus.I_OPT, 1, singleItemPoint⟩

/-- A solver answering `singleItemPoint` for the clustering problem, objective value 2. -/
def singleSeedSolver : MipProblem → MipResult :=
  fun _ => ⟨MipStatus.I_OPT, 2, singleItemPoint⟩

/-- Scenario A: a depot and two customers of demand 1, capacity 2, one vehicle. -/
def pairData : BEL_VRPData :=
  { demand := [0, 1, 1], isadepot := [1, 0, 0], depots := [0], capacity := 2, dimension := 3,
    ndepots := 1, ncustomers := 2, nvehicles := 1 }

/-- Two items in one bin: `x[1][1] = x[2][1] = y[1] = 1` (columns 1, 2, 3). -/
def pairPackPoint : Nat → Int := fun c => if c = 1 ∨ c = 2 ∨ c = 3 then 1 else 0

/-- A solver answering `pairPackPoint`, with objective value 1. -/
def pairPackSolver : MipProblem → MipResult :=
  fun _ => ⟨MipStatus.I_OPT, 1, pairPackPoint⟩

/-- Two customers assigned to seed 1, the only seed selected: `y[1][1] = y[2][1] = z[1] = 1`
(columns 1, 3, 5). -/
def pairSeedPoint : Nat → Int := fun c => if c = 1 ∨ c = 3 ∨ c = 5 then 1 else 0

/-- A solver answering `pairSeedPoint`, with objective value 5. -/
def pairSeedSolver : MipProblem → MipResult :=
  fun _ => ⟨MipStatus.I_OPT, 5, pairSeedPoint⟩

/-- The coordinates (0, 0), (-1, 0), (-1, 2) of `pairData`. -/
def pairDat : CCdatagroup := ⟨NormSize.d2, [0, -1, -1], [0, 0, 2], []⟩

/-- The coordinates (0, 0), (2^29, 0), (2^29, 0) that go with `halfwayDistance`. -/
def halfwayDat : CCdatagroup :=
  ⟨NormSize.d2, [0, 536870912, 536870912], [0, 0, 0], []⟩

/-! ## Row activities of the bin-packing matrix -/

theorem forIncl_one (n : Nat) : forIncl 1 n = List.range' 1 n := by
  simp [forIncl]

theorem rowActivity_nil (x : Nat → Int) (r : Nat) : rowActivity [] x r = 0 := by
  simp [rowActivity]

theorem rowActivity_append (A B : List Triple) (x : Nat → Int) (r : Nat) :
    rowActivity (A ++ B) x r = rowActivity A x r + rowActivity B x r := by
  simp [rowActivity, List.filter_append]

theorem rowActivity_cons (t : Triple) (A : List Triple) (x : Nat → Int) (r : Nat) :
    rowActivity (t :: A) x r = (if t.row = r then t.val * x t.col else 0) + rowActivity A x r := by
  by_cases h : t.row = r <;> simp [rowActivity, List.filter_cons, h]

theorem rowActivity_flatMap {α : Type} (l : List α) (F : α → List Triple) (x : Nat → Int)
    (r : Nat) :
    rowActivity (l.flatMap F) x r = (l.map (fun i => rowActivity (F i) x r)).sum := by
  induction l with
  | nil => simp [rowActivity]
  | cons a l ih => simp [List.flatMap_cons, rowActivity_append, ih]

theorem rowActivity_map {α : Type} (l : List α) (ρ : Nat) (g : α → Nat) (v : α → Int)
    (x : Nat → Int) (r : Nat) :
    rowActivity (l.map (fun j => Triple.mk ρ (g j) (v j))) x r
      = if ρ = r then (l.map (fun j => v j * x (g j))).sum else 0 := by
  induction l with
  | nil => simp [rowActivity]
  | cons a l ih =>
    rw [List.map_cons, rowActivity_cons, ih]
    by_cases h : ρ = r <;> simp [h]

theorem sum_map_ite_range' (S : Nat → Int) (c r : Nat) (n s : Nat) :
    ((List.range' s n).map (fun i => if i + c = r then S i else 0)).sum
      = if s + c ≤ r ∧ r < s + c + n then S (r - c) else 0 := by
  induction n generalizing s with
  | zero =>
    rw [if_neg (by omega)]
    simp
  | succ n ih =>
    rw [List.range'_succ, List.map_cons, List.sum_cons, ih]
    by_cases h1 : s + c = r
    · subst h1
      simp
    · rw [if_neg h1, zero_add]
      by_cases h2 : s + c ≤ r ∧ r < s + c + (n + 1)
      · rw [if_pos h2, if_pos (by omega)]
      · rw [if_neg h2, if_neg (by omega)]

theorem sum_range'_eq_sum_Icc (f : Nat → Int) (n : Nat) :
    ((List.range' 1 n).map f).sum = ∑ i ∈ Finset.Icc 1 n, f i := by
  induction n with
  | zero => simp
  | succ n ih =>
    rw [List.range'_concat, List.map_append, List.sum_append, ih,
      Finset.sum_Icc_succ_top (by omega)]
    simp [Nat.add_comm]

theorem sum_range'_step_eq_sum_Icc (f : Nat → Int) (s step n : Nat) :
    ((List.range' s n step).map f).sum = ∑ i ∈ Finset.Icc 1 n, f (s + step * (i - 1)) := by
  induction n with
  | zero => simp
  | succ n ih =>
    rw [List.range'_concat, List.map_append, List.sum_append, ih,
      Finset.sum_Icc_succ_top (by omega)]
    simp

theorem forIncl_block (bins i : Nat) (hi : 1 ≤ i) :
    forIncl ((i - 1) * bins + 1) (i * bins) = List.range' ((i - 1) * bins + 1) bins := by
  obtain ⟨k, rfl⟩ : ∃ k, i = k + 1 := ⟨i - 1, by omega⟩
  have : (k + 1) * bins + 1 - ((k + 1 - 1) * bins + 1) = bins := by
    rw [Nat.add_sub_cancel, Nat.succ_mul]; omega
  rw [forIncl, this]

theorem forStep_block (bins items j : Nat) (h1 : 1 ≤ j) (h2 : j ≤ bins) :
    forStep j (items * bins) bins = List.range' j items bins := by
  have hb : bins ≠ 0 := by omega
  have : (items * bins + bins - j) / bins = items := by
    have e : items * bins + bins - j = (bins - j) + items * bins := by omega
    rw [e, Nat.add_mul_div_right _ _ (by omega), Nat.div_eq_of_lt (by omega)]
    simp
  rw [forStep, if_neg hb, this]

theorem rowActivity_bppMatrix2 (bins items row : Nat) (x : Nat → Int) (r : Nat) :
    rowActivity (bppMatrix2 bins items row) x r
      = if 1 + row ≤ r ∧ r < 1 + row + items
        then ∑ j ∈ Finset.Icc 1 bins, x (xcol bins (r - row) j) else 0 := by
  unfold bppMatrix2
  rw [rowActivity_flatMap]
  simp only [rowActivity_map, forIncl_one]
  rw [sum_map_ite_range']
  by_cases h : 1 + row ≤ r ∧ r < 1 + row + items
  · rw [if_pos h, if_pos h, forIncl_block _ _ (by omega), sum_range'_step_eq_sum_Icc]
    apply Finset.sum_congr rfl
    intro j hj
    rw [Finset.mem_Icc] at hj
    have : (r - row - 1) * bins + 1 + 1 * (j - 1) = xcol bins (r - row) j := by
      unfold xcol; omega
    rw [this, one_mul]
  · rw [if_neg h, if_neg h]

theorem rowActivity_bppMatrix3 (bins : Nat) (capacity : Int) (items : Nat) (volume : List Int)
    (row : Nat) (x : Nat → Int) (r : Nat) :
    rowActivity (bppMatrix3 bins capacity items volume row) x r
      = if 1 + row ≤ r ∧ r < 1 + row + bins
        then (∑ i ∈ Finset.Icc 1 items, volume.getD (i - 1) 0 * x (xcol bins i (r - row)))
              + (-capacity) * x (ycol bins items (r - row))
        else 0 := by
  unfold bppMatrix3
  rw [rowActivity_flatMap]
  simp only [rowActivity_append, rowActivity_map, rowActivity_cons, rowActivity_nil, forIncl_one,
    add_zero, ← ite_add_zero]
  rw [sum_map_ite_range']
  by_cases h : 1 + row ≤ r ∧ r < 1 + row + bins
  · rw [if_pos h, if_pos h, forStep_block _ _ _ (by omega) (by omega), sum_range'_step_eq_sum_Icc]
    congr 1
    apply Finset.sum_congr rfl
    intro i hi
    rw [Finset.mem_Icc] at hi
    have hb : 0 < bins := by omega
    have e1 : r - row + bins * (i - 1) = xcol bins i (r - row) := by
      unfold xcol; rw [Nat.mul_comm]; omega
    have e2 : (xcol bins i (r - row) - 1) / bins = i - 1 := by
      unfold xcol
      have : (i - 1) * bins + (r - row) - 1 = (r - row - 1) + (i - 1) * bins := by omega
      rw [this, Nat.add_mul_div_right _ _ hb, Nat.div_eq_of_lt (by omega)]
      simp
    rw [e1, e2]
  · rw [if_neg h, if_neg h]

theorem rowActivity_bppMatrix4 (bins items row : Nat) (x : Nat → Int) (r : Nat) :
    rowActivity (bppMatrix4 bins items row) x r
      = if 1 + row ≤ r ∧ r < 1 + row + items * bins
        then x (r - row) + (-1) * x (items * bins + ((r - row - 1) % bins) + 1) else 0 := by
  unfold bppMatrix4
  rw [rowActivity_flatMap]
  simp only [rowActivity_cons, rowActivity_nil, forIncl_one, add_zero, ← ite_add_zero, one_mul]
  rw [sum_map_ite_range']

theorem rowActivity_bppMatrix5 (bins items row : Nat) (x : Nat → Int) (r : Nat) :
    rowActivity (bppMatrix5 bins items row) x r
      = if 1 + row ≤ r ∧ r < 1 + row + (bins - 1)
        then (-1) * x (items * bins + ((r - row - 1) % bins) + 1)
              + x (items * bins + ((r - row - 1) % bins) + 2) else 0 := by
  unfold bppMatrix5
  rw [rowActivity_flatMap]
  simp only [rowActivity_cons, rowActivity_nil, forExcl, add_zero, ← ite_add_zero, one_mul]
  rw [sum_map_ite_range']

theorem xcol_le (bins items i j : Nat) (hi1 : 1 ≤ i) (hi : i ≤ items) (hj : j ≤ bins) :
    xcol bins i j ≤ items * bins := by
  unfold xcol
  have h1 : (i - 1) * bins + bins = i * bins := by
    obtain ⟨k, rfl⟩ : ∃ k, i = k + 1 := ⟨i - 1, by omega⟩
    rw [Nat.add_sub_cancel, Nat.succ_mul]
  have h2 : i * bins ≤ items * bins := Nat.mul_le_mul_right _ hi
  omega

theorem rowActivity_bpp_row2 (bins : Nat) (capacity : Int) (items : Nat) (volume : List Int)
    (x : Nat → Int) (i : Nat) (h1 : 1 ≤ i) (h2 : i ≤ items) :
    rowActivity (bppMatrix bins capacity items volume) x i
      = ∑ j ∈ Finset.Icc 1 bins, x (xcol bins i j) := by
  unfold bppMatrix
  simp only [rowActivity_append, rowActivity_bppMatrix2, rowActivity_bppMatrix3,
    rowActivity_bppMatrix4, rowActivity_bppMatrix5]
  rw [if_pos (by omega), if_neg (by omega), if_neg (by omega), if_neg (by omega)]
  simp

theorem rowActivity_bpp_row3 (bins : Nat) (capacity : Int) (items : Nat) (volume : List Int)
    (x : Nat → Int) (j : Nat) (h1 : 1 ≤ j) (h2 : j ≤ bins) :
    rowActivity (bppMatrix bins capacity items volume) x (j + (0 + items))
      = (∑ i ∈ Finset.Icc 1 items, volume.getD (i - 1) 0 * x (xcol bins i j))
          - capacity * x (ycol bins items j) := by
  unfold bppMatrix
  simp only [rowActivity_append, rowActivity_bppMatrix2, rowActivity_bppMatrix3,
    rowActivity_bppMatrix4, rowActivity_bppMatrix5]
  rw [if_neg (by omega), if_pos (by omega), if_neg (by omega), if_neg (by omega)]
  have : j + (0 + items) - (0 + items) = j := by omega
  rw [this]
  ring

theorem rowActivity_bpp_row4 (bins : Nat) (capacity : Int) (items : Nat) (volume : List Int)
    (x : Nat → Int) (i j : Nat) (hi1 : 1 ≤ i) (hi2 : i ≤ items) (h1 : 1 ≤ j) (h2 : j ≤ bins) :
    rowActivity (bppMatrix bins capacity items volume) x (j + (0 + items + bins + (i - 1) * bins))
      = x (xcol bins i j) - x (ycol bins items j) := by
  have hle := xcol_le bins items i j hi1 hi2 h2
  unfold xcol at hle
  unfold bppMatrix
  simp only [rowActivity_append, rowActivity_bppMatrix2, rowActivity_bppMatrix3,
    rowActivity_bppMatrix4, rowActivity_bppMatrix5]
  rw [if_neg (by omega), if_neg (by omega), if_pos (by omega), if_neg (by omega)]
  have e1 : j + (0 + items + bins + (i - 1) * bins) - (0 + items + bins) = xcol bins i j := by
    unfold xcol; omega
  have e2 : (xcol bins i j - 1) % bins = j - 1 := by
    unfold xcol
    have : (i - 1) * bins + j - 1 = (j - 1) + (i - 1) * bins := by omega
    rw [this, Nat.add_mul_mod_self_right, Nat.mod_eq_of_lt (by omega)]
  have e3 : items * bins + (j - 1) + 1 = ycol bins items j := by unfold ycol; omega
  rw [e1, e2, e3]
  ring

theorem rowActivity_bpp_row5 (bins : Nat) (capacity : Int) (items : Nat) (volume : List Int)
    (x : Nat → Int) (j : Nat) (h1 : 1 ≤ j) (h2 : j < bins) :
    rowActivity (bppMatrix bins capacity items volume) x (j + (0 + items + bins + items * bins))
      = x (ycol bins items (j + 1)) - x (ycol bins items j) := by
  unfold bppMatrix
  simp only [rowActivity_append, rowActivity_bppMatrix2, rowActivity_bppMatrix3,
    rowActivity_bppMatrix4, rowActivity_bppMatrix5]
  rw [if_neg (by omega), if_neg (by omega), if_neg (by omega), if_pos (by omega)]
  have e1 : j + (0 + items + bins + items * bins) - (0 + items + bins + items * bins) - 1
      = j - 1 := by omega
  have e2 : (j - 1) % bins = j - 1 := Nat.mod_eq_of_lt (by omega)
  have e3 : items * bins + (j - 1) + 1 = ycol bins items j := by unfold ycol; omega
  have e4 : items * bins + (j - 1) + 2 = ycol bins items (j + 1) := by unfold ycol; omega
  rw [e1, e2, e3, e4]
  ring

theorem bpp_rows2_iff (bins : Nat) (capacity : Int) (items : Nat) (volume : List Int)
    (x : Nat → Int) :
    (∀ rb ∈ (forIncl 1 items).map (fun i => (i + 0, RowBnd.fx 1)),
        RowOk (bppProblem bins capacity items volume) x rb)
      ↔ BppAssign bins items x := by
  simp only [List.forall_mem_map, forIncl_one, List.mem_range'_1, RowOk, bppProblem,
    Int.toNat_ofNat, RowBnd.Holds, BppAssign, add_zero]
  constructor
  · intro h i h1 h2
    rw [← rowActivity_bpp_row2 bins capacity items volume x i h1 h2]
    exact h i ⟨h1, by omega⟩
  · intro h i hi
    rw [rowActivity_bpp_row2 bins capacity items volume x i hi.1 (by omega)]
    exact h i hi.1 (by omega)

theorem bpp_rows3_iff (bins : Nat) (capacity : Int) (items : Nat) (volume : List Int)
    (x : Nat → Int) :
    (∀ rb ∈ (forIncl 1 bins).map (fun j => (j + (0 + items), RowBnd.up 0)),
        RowOk (bppProblem bins capacity items volume) x rb)
      ↔ BppCapacity bins capacity items volume x := by
  simp only [List.forall_mem_map, forIncl_one, List.mem_range'_1, RowOk, bppProblem,
    Int.toNat_ofNat, RowBnd.Holds, BppCapacity]
  constructor
  · intro h j h1 h2
    have := h j ⟨h1, by omega⟩
    rw [rowActivity_bpp_row3 bins capacity items volume x j h1 h2] at this
    linarith
  · intro h j hj
    rw [rowActivity_bpp_row3 bins capacity items volume x j hj.1 (by omega)]
    have := h j hj.1 (by omega)
    linarith

theorem bpp_rows4_iff (bins : Nat) (capacity : Int) (items : Nat) (volume : List Int)
    (x : Nat → Int) :
    (∀ rb ∈ (forIncl 1 items).flatMap (fun i =>
        (forIncl 1 bins).map (fun j => (j + (0 + items + bins + (i - 1) * bins), RowBnd.up 0))),
        RowOk (bppProblem bins capacity items volume) x rb)
      ↔ BppLink bins items x := by
  simp only [List.mem_flatMap, List.mem_map, forIncl_one, List.mem_range'_1, RowOk, bppProblem,
    Int.toNat_ofNat, BppLink]
  constructor
  · intro h i j hi1 hi2 h1 h2
    have := h (j + (0 + items + bins + (i - 1) * bins), RowBnd.up 0)
      ⟨i, ⟨hi1, by omega⟩, j, ⟨h1, by omega⟩, rfl⟩
    simp only [RowBnd.Holds] at this
    rw [rowActivity_bpp_row4 bins capacity items volume x i j hi1 hi2 h1 h2] at this
    linarith
  · rintro h rb ⟨i, hi, j, hj, rfl⟩
    simp only [RowBnd.Holds]
    rw [rowActivity_bpp_row4 bins capacity items volume x i j hi.1 (by omega) hj.1 (by omega)]
    have := h i j hi.1 (by omega) hj.1 (by omega)
    linarith

theorem bpp_rows5_iff (bins : Nat) (capacity : Int) (items : Nat) (volume : List Int)
    (x : Nat → Int) :
    (∀ rb ∈ (forExcl 1 bins).map (fun j => (j + (0 + items + bins + items * bins), RowBnd.up 0)),
        RowOk (bppProblem bins capacity items volume) x rb)
      ↔ BppOrder bins items x := by
  simp only [List.forall_mem_map, forExcl, List.mem_range'_1, RowOk, bppProblem,
    Int.toNat_ofNat, RowBnd.Holds, BppOrder]
  constructor
  · intro h j h1 h2
    have := h j ⟨h1, by omega⟩
    rw [rowActivity_bpp_row5 bins capacity items volume x j h1 h2] at this
    linarith
  · intro h j hj
    rw [rowActivity_bpp_row5 bins capacity items volume x j hj.1 (by omega)]
    have := h j hj.1 (by omega)
    linarith

theorem rowsOk_bpp_iff (bins : Nat) (capacity : Int) (items : Nat) (volume : List Int)
    (x : Nat → Int) :
    RowsOk (bppProblem bins capacity items volume) x
      ↔ BppAssign bins items x ∧ BppCapacity bins capacity items volume x
          ∧ BppLink bins items x ∧ BppOrder bins items x := by
  rw [← bpp_rows2_iff bins capacity items volume x, ← bpp_rows3_iff bins capacity items volume x,
    ← bpp_rows4_iff bins capacity items volume x, ← bpp_rows5_iff bins capacity items volume x]
  unfold RowsOk
  have e : (bppProblem bins capacity items volume).rowBnds = bppRowBnds bins items := by
    simp [bppProblem]
  rw [e]
  unfold bppRowBnds
  simp only [List.mem_append]
  constructor
  · intro h
    exact ⟨fun rb hrb => h rb (Or.inl (Or.inl (Or.inl hrb))),
      fun rb hrb => h rb (Or.inl (Or.inl (Or.inr hrb))),
      fun rb hrb => h rb (Or.inl (Or.inr hrb)),
      fun rb hrb => h rb (Or.inr hrb)⟩
  · rintro ⟨h2, h3, h4, h5⟩ rb (((h | h) | h) | h)
    · exact h2 rb h
    · exact h3 rb h
    · exact h4 rb h
    · exact h5 rb h

theorem xcol_decode (bins c : Nat) (hc : 1 ≤ c) :
    xcol bins ((c - 1) / bins + 1) ((c - 1) % bins + 1) = c := by
  unfold xcol
  have := Nat.div_add_mod (c - 1) bins
  rw [Nat.add_sub_cancel, Nat.mul_comm]
  omega

theorem colsOk_bpp_iff (bins : Nat) (capacity : Int) (items : Nat) (volume : List Int)
    (x : Nat → Int) :
    ColsOk (bppProblem bins capacity items volume) x ↔ BppBinary bins items x := by
  have e : (bppProblem bins capacity items volume).colBnds = bppColBnds bins items := by
    simp [bppProblem]
  unfold ColsOk
  rw [e]
  unfold bppColBnds BppBinary
  simp only [List.mem_append, List.mem_flatMap, List.mem_map, forIncl_one, List.mem_range'_1]
  constructor
  · intro h c hc1 hc2
    by_cases hx : c ≤ items * bins
    · have hb : 0 < bins := by
        rcases Nat.eq_zero_or_pos bins with h0 | h0
        · subst h0; simp at hx; omega
        · exact h0
      have hdiv : (c - 1) / bins < items := by
        apply Nat.div_lt_of_lt_mul
        rw [Nat.mul_comm]; omega
      have hmod : (c - 1) % bins < bins := Nat.mod_lt _ hb
      have hdec : (c - 1) % bins + 1 + ((c - 1) / bins + 1 - 1) * bins = c := by
        have := Nat.div_add_mod (c - 1) bins
        rw [Nat.add_sub_cancel, Nat.mul_comm]
        omega
      have := h (c, 0, 1) (Or.inl ⟨(c - 1) / bins + 1, ⟨Nat.le_add_left 1 _, by omega⟩,
        (c - 1) % bins + 1, ⟨Nat.le_add_left 1 _, by omega⟩, by
          rw [Prod.mk.injEq]; exact ⟨hdec, rfl⟩⟩)
      simp only at this
      omega
    · have hc3 : c - items * bins ≤ bins := by
        rw [Nat.add_mul] at hc2; omega
      have := h (c, 0, 1) (Or.inr ⟨c - items * bins, ⟨by omega, by omega⟩, by
          rw [Prod.mk.injEq]; exact ⟨by omega, rfl⟩⟩)
      simp only at this
      omega
  · rintro h cb (⟨i, hi, j, hj, rfl⟩ | ⟨j, hj, rfl⟩)
    · have hle := xcol_le bins items i j hi.1 (by omega) (by omega)
      unfold xcol at hle
      have hle2 : items * bins ≤ (items + 1) * bins := Nat.mul_le_mul_right _ (by omega)
      have := h (j + (i - 1) * bins) (by omega) (by omega)
      simp only
      omega
    · have := h (j + items * bins) (by omega) (by rw [Nat.add_mul]; omega)
      simp only
      omega

theorem objective_bpp (bins : Nat) (capacity : Int) (items : Nat) (volume : List Int)
    (x : Nat → Int) :
    objective (bppProblem bins capacity items volume) x = binsUsed bins items x := by
  have e : (bppProblem bins capacity items volume).objCoef = bppObjCoef bins items := by
    simp [bppProblem]
  unfold objective
  rw [e]
  unfold bppObjCoef binsUsed
  simp only [List.map_append, List.sum_append, List.map_flatMap, List.map_map, forIncl_one]
  have h0 : (List.flatMap (List.range' 1 items) (fun i =>
      List.map ((fun c : Nat × Int => c.2 * x c.1) ∘ fun j => (j + (i - 1) * bins, (0 : Int)))
        (List.range' 1 bins))).sum = 0 := by
    apply List.sum_eq_zero
    intro v hv
    simp only [List.mem_flatMap, List.mem_map, Function.comp] at hv
    obtain ⟨i, _, j, _, rfl⟩ := hv
    simp
  rw [h0, zero_add, sum_range'_step_eq_sum_Icc]
  apply Finset.sum_congr rfl
  intro j hj
  rw [Finset.mem_Icc] at hj
  have : 1 + 1 * (j - 1) + items * bins = ycol bins items j := by unfold ycol; omega
  simp only [Function.comp, this, one_mul]
  rw [← this, Nat.one_mul]

theorem feasible_bpp_iff (bins : Nat) (capacity : Int) (items : Nat) (volume : List Int)
    (x : Nat → Int) :
    Feasible (bppProblem bins capacity items volume) x
      ↔ BppBinary bins items x ∧ BppAssign bins items x
          ∧ BppCapacity bins capacity items volume x
          ∧ BppLink bins items x ∧ BppOrder bins items x := by
  unfold Feasible
  rw [colsOk_bpp_iff, rowsOk_bpp_iff]

theorem firstRowsOk_bpp_iff (bins : Nat) (capacity : Int) (items : Nat) (volume : List Int)
    (x : Nat → Int) :
    FirstRowsOk (bppProblem bins capacity items volume) (items + bins) x
      ↔ BppAssign bins items x ∧ BppCapacity bins capacity items volume x := by
  rw [← bpp_rows2_iff bins capacity items volume x, ← bpp_rows3_iff bins capacity items volume x]
  unfold FirstRowsOk
  have e : (bppProblem bins capacity items volume).rowBnds = bppRowBnds bins items := by
    simp [bppProblem]
  rw [e]
  unfold bppRowBnds
  simp only [List.mem_append]
  constructor
  · intro h
    refine ⟨fun rb hrb => h rb (Or.inl (Or.inl (Or.inl hrb))) ?_,
      fun rb hrb => h rb (Or.inl (Or.inl (Or.inr hrb))) ?_⟩
    · simp only [List.mem_map, forIncl_one, List.mem_range'_1] at hrb
      obtain ⟨i, hi, rfl⟩ := hrb
      simp only; omega
    · simp only [List.mem_map, forIncl_one, List.mem_range'_1] at hrb
      obtain ⟨j, hj, rfl⟩ := hrb
      simp only; omega
  · rintro ⟨h2, h3⟩ rb (((h | h) | h) | h) hle
    · exact h2 rb h
    · exact h3 rb h
    · simp only [List.mem_flatMap, List.mem_map, forIncl_one, List.mem_range'_1] at h
      obtain ⟨i, hi, j, hj, rfl⟩ := h
      simp only at hle; omega
    · simp only [List.mem_map, forExcl, List.mem_range'_1] at h
      obtain ⟨j, hj, rfl⟩ := h
      simp only at hle; omega

theorem totalVolume_le (bins : Nat) (capacity : Int) (items : Nat) (volume : List Int)
    (x : Nat → Int) (ha : BppAssign bins items x) (hc : BppCapacity bins capacity items volume x) :
    totalVolume items volume ≤ capacity * binsUsed bins items x := by
  unfold totalVolume binsUsed
  have h1 : ∑ i ∈ Finset.Icc 1 items, volume.getD (i - 1) 0
      = ∑ i ∈ Finset.Icc 1 items, ∑ j ∈ Finset.Icc 1 bins,
          volume.getD (i - 1) 0 * x (xcol bins i j) := by
    apply Finset.sum_congr rfl
    intro i hi
    rw [Finset.mem_Icc] at hi
    rw [← Finset.mul_sum, ha i hi.1 hi.2, mul_one]
  rw [h1, Finset.sum_comm, Finset.mul_sum]
  apply Finset.sum_le_sum
  intro j hj
  rw [Finset.mem_Icc] at hj
  exact hc j hj.1 hj.2

theorem binsUsed_le (bins items : Nat) (x : Nat → Int) (hb : BppBinary bins items x) :
    binsUsed bins items x ≤ bins := by
  unfold binsUsed
  have : ∑ j ∈ Finset.Icc 1 bins, x (ycol bins items j) ≤ ∑ _j ∈ Finset.Icc 1 bins, (1 : Int) := by
    apply Finset.sum_le_sum
    intro j hj
    rw [Finset.mem_Icc] at hj
    have := hb (ycol bins items j) (by unfold ycol; omega) (by unfold ycol; rw [Nat.add_mul]; omega)
    omega
  simpa using this

theorem sum_list_eq_totalVolume (volume : List Int) :
    volume.sum = totalVolume volume.length volume := by
  unfold totalVolume
  induction volume using List.reverseRecOn with
  | nil => simp
  | append_singleton l a ih =>
    rw [List.sum_append, List.length_append, List.length_singleton,
      Finset.sum_Icc_succ_top (by omega), ih]
    simp only [List.sum_singleton, Nat.add_sub_cancel]
    congr 1
    · apply Finset.sum_congr rfl
      intro i hi
      rw [Finset.mem_Icc] at hi
      rw [List.getD_append _ _ _ _ (by omega)]
    · rw [List.getD_append_right _ _ _ _ (le_refl _)]
      simp

theorem ceil_le_binsUsed (bins : Nat) (capacity : Int) (items : Nat) (volume : List Int)
    (x : Nat → Int) (hcap : 0 < capacity)
    (ha : BppAssign bins items x) (hc : BppCapacity bins capacity items volume x) :
    ⌈(totalVolume items volume : ℚ) / (capacity : ℚ)⌉ ≤ binsUsed bins items x := by
  rw [Int.ceil_le, div_le_iff₀ (by exact_mod_cast hcap)]
  have := totalVolume_le bins capacity items volume x ha hc
  have h2 : ((totalVolume items volume : Int) : ℚ) ≤ ((capacity * binsUsed bins items x : Int) : ℚ) := by
    exact_mod_cast this
  rw [Int.cast_mul] at h2
  linarith

/-! ## Binary32 arithmetic of `BEL_VRPVehiclesLB` -/

theorem bitLenAux_spec (f n : Nat) (h : n ≤ f) :
    n < 2 ^ bitLenAux f n ∧ (n ≠ 0 → 2 ^ (bitLenAux f n - 1) ≤ n) := by
  induction f generalizing n with
  | zero =>
    have : n = 0 := by omega
    subst this
    simp [bitLenAux]
  | succ f ih =>
    unfold bitLenAux
    by_cases h0 : n = 0
    · subst h0; simp
    · rw [if_neg h0]
      obtain ⟨h1, h2⟩ := ih (n / 2) (by omega)
      constructor
      · rw [pow_succ]; omega
      · intro _
        rw [Nat.add_sub_cancel]
        by_cases h3 : n / 2 = 0
        · have hn1 : n = 1 := by omega
          subst hn1
          simp [bitLenAux]
          cases f <;> simp [bitLenAux]
        · have h4 := h2 h3
          have h5 : bitLenAux f (n / 2) ≠ 0 := by
            intro h6
            rw [h6] at h1
            simp at h1
            exact h3 h1
          obtain ⟨k, hk⟩ : ∃ k, bitLenAux f (n / 2) = k + 1 := ⟨bitLenAux f (n / 2) - 1, by omega⟩
          rw [hk] at h4 ⊢
          rw [Nat.add_sub_cancel] at h4
          rw [pow_succ]
          omega

theorem bitLen_lt (n : Nat) : n < 2 ^ bitLen n := (bitLenAux_spec n n (le_refl n)).1

theorem bitLen_le (n : Nat) (h : n ≠ 0) : 2 ^ (bitLen n - 1) ≤ n :=
  (bitLenAux_spec n n (le_refl n)).2 h

theorem bitLen_pos (n : Nat) (h : n ≠ 0) : 1 ≤ bitLen n := by
  by_contra hc
  have h0 : bitLen n = 0 := by omega
  have := bitLen_lt n
  rw [h0] at this
  omega

theorem roundHalfEven_le (N D M : Nat) (hD : 0 < D) (h : N ≤ M * D) : roundHalfEven N D ≤ M := by
  have hdm := Nat.div_add_mod N D
  have hml := Nat.mod_lt N hD
  have hdiv : N / D ≤ M := by
    rw [Nat.div_le_iff_le_mul_add_pred hD]
    have : M * D ≤ D * M := by rw [Nat.mul_comm]
    omega
  unfold roundHalfEven
  by_cases hlt : N / D < M
  · split_ifs <;> omega
  · have heq : N / D = M := by omega
    have hmod0 : N % D = 0 := by
      rw [heq] at hdm
      have : D * M = M * D := Nat.mul_comm _ _
      omega
    rw [if_pos (by omega)]
    omega

theorem roundHalfEven_ge (N D : Nat) (hD : 0 < D) :
    2 * N ≤ (2 * roundHalfEven N D + 1) * D := by
  have hdm := Nat.div_add_mod N D
  have hml := Nat.mod_lt N hD
  have key : ∀ m, N / D ≤ m → (2 * N < D * (2 * (N / D)) + D ∨ N / D + 1 ≤ m) →
      2 * N ≤ (2 * m + 1) * D := by
    intro m hm hcase
    rcases hcase with h1 | h1
    · have : D * (2 * (N / D)) + D ≤ (2 * m + 1) * D := by
        have : (2 * (N / D) + 1) * D ≤ (2 * m + 1) * D := Nat.mul_le_mul_right _ (by omega)
        have e : (2 * (N / D) + 1) * D = D * (2 * (N / D)) + D := by ring
        omega
      omega
    · have : (2 * (N / D + 1) + 1) * D ≤ (2 * m + 1) * D := Nat.mul_le_mul_right _ (by omega)
      have e : (2 * (N / D + 1) + 1) * D = D * (2 * (N / D)) + 3 * D := by ring
      have e2 : D * (2 * (N / D)) = 2 * (D * (N / D)) := by ring
      omega
  have e2 : D * (2 * (N / D)) = 2 * (D * (N / D)) := by ring
  unfold roundHalfEven
  split_ifs with h1 h2 h3
  · exact key _ (le_refl _) (Or.inl (by omega))
  · exact key _ (by omega) (Or.inr (le_refl _))
  · have : 2 * (N % D) = D := by omega
    have e : (2 * (N / D) + 1) * D = D * (2 * (N / D)) + D := by ring
    omega
  · exact key _ (by omega) (Or.inr (le_refl _))

theorem f32Scale_spec (a b : Nat) (s : Int) (hb : 0 < b) :
    0 < (f32Scale a b s).2 ∧
      ((f32Scale a b s).1 : ℚ) / ((f32Scale a b s).2 : ℚ) = (a : ℚ) / (b : ℚ) * (2 : ℚ) ^ s := by
  have hbq : (b : ℚ) ≠ 0 := by exact_mod_cast (Nat.pos_iff_ne_zero.mp hb)
  unfold f32Scale
  by_cases hs : 0 ≤ s
  · rw [if_pos hs]
    refine ⟨hb, ?_⟩
    have e : (2 : ℚ) ^ s = (2 : ℚ) ^ s.toNat := by
      rw [← zpow_natCast, Int.toNat_of_nonneg hs]
    simp only [Nat.cast_mul, Nat.cast_pow, Nat.cast_ofNat]
    rw [e]
    field_simp
  · rw [if_neg hs]
    refine ⟨Nat.mul_pos hb (by positivity), ?_⟩
    have e : (2 : ℚ) ^ s = ((2 : ℚ) ^ (-s).toNat)⁻¹ := by
      rw [← zpow_natCast, Int.toNat_of_nonneg (by omega), zpow_neg, inv_inv]
    simp only [Nat.cast_mul, Nat.cast_pow, Nat.cast_ofNat]
    rw [e]
    field_simp

theorem f32Round_spec (a b : Nat) (ha : 0 < a) (hb : 0 < b) :
    (2 : ℚ) ^ (23 : ℕ) ≤ (a : ℚ) / (b : ℚ) * (2 : ℚ) ^ (-(f32Round a b).2)
      ∧ (a : ℚ) / (b : ℚ) * (2 : ℚ) ^ (-(f32Round a b).2) ≤ ((f32Round a b).1 : ℚ) + 1 / 2
      ∧ ∀ M : Nat, (a : ℚ) / (b : ℚ) * (2 : ℚ) ^ (-(f32Round a b).2) ≤ (M : ℚ) →
          (f32Round a b).1 ≤ M := by
  have hbq : (0 : ℚ) < (b : ℚ) := by exact_mod_cast hb
  have haq : (0 : ℚ) < (a : ℚ) := by exact_mod_cast ha
  obtain ⟨s, hs, hA⟩ : ∃ s : Int,
      f32Round a b = (roundHalfEven (f32Scale a b s).1 (f32Scale a b s).2, -s)
        ∧ (2 : ℚ) ^ (23 : ℕ) ≤ (a : ℚ) / (b : ℚ) * (2 : ℚ) ^ s := by
    by_cases hc : (f32Scale a b (24 + (bitLen b : Int) - (bitLen a : Int))).1 /
        (f32Scale a b (24 + (bitLen b : Int) - (bitLen a : Int))).2 < 2 ^ 24
    · refine ⟨24 + (bitLen b : Int) - (bitLen a : Int), ?_, ?_⟩
      · simp only [f32Round, if_pos hc]
      · have h1 : ((2 : ℚ) ^ ((bitLen a : Int) - 1)) ≤ (a : ℚ) := by
          have := bitLen_le a (by omega)
          have hp := bitLen_pos a (by omega)
          have e : ((bitLen a : Int) - 1) = ((bitLen a - 1 : ℕ) : Int) := by omega
          rw [e, zpow_natCast]
          exact_mod_cast this
        have h2 : (b : ℚ) ≤ (2 : ℚ) ^ (bitLen b : Int) := by
          have := bitLen_lt b
          rw [zpow_natCast]
          exact_mod_cast this.le
        rw [div_mul_eq_mul_div, le_div_iff₀ hbq]
        have h3 : (2 : ℚ) ^ (23 : ℕ) * (2 : ℚ) ^ (bitLen b : Int)
            = (2 : ℚ) ^ ((bitLen a : Int) - 1)
                * (2 : ℚ) ^ (24 + (bitLen b : Int) - (bitLen a : Int)) := by
          rw [← zpow_natCast, ← zpow_add₀ (by norm_num), ← zpow_add₀ (by norm_num)]
          congr 1
          push_cast
          ring
        have hpos : (0 : ℚ) < (2 : ℚ) ^ (24 + (bitLen b : Int) - (bitLen a : Int)) :=
          zpow_pos (by norm_num) _
        calc (2 : ℚ) ^ (23 : ℕ) * (b : ℚ)
            ≤ (2 : ℚ) ^ (23 : ℕ) * (2 : ℚ) ^ (bitLen b : Int) :=
              mul_le_mul_of_nonneg_left h2 (by positivity)
          _ = (2 : ℚ) ^ ((bitLen a : Int) - 1)
                * (2 : ℚ) ^ (24 + (bitLen b : Int) - (bitLen a : Int)) := h3
          _ ≤ (a : ℚ) * (2 : ℚ) ^ (24 + (bitLen b : Int) - (bitLen a : Int)) :=
              mul_le_mul_of_nonneg_right h1 hpos.le
    · refine ⟨24 + (bitLen b : Int) - (bitLen a : Int) - 1, ?_, ?_⟩
      · simp only [f32Round, if_neg hc]
      · obtain ⟨hD, hq⟩ := f32Scale_spec a b (24 + (bitLen b : Int) - (bitLen a : Int)) hb
        have h1 : 2 ^ 24 * (f32Scale a b (24 + (bitLen b : Int) - (bitLen a : Int))).2
            ≤ (f32Scale a b (24 + (bitLen b : Int) - (bitLen a : Int))).1 := by
          have := (Nat.le_div_iff_mul_le hD).mp (not_lt.mp hc)
          exact this
        have hDq : (0 : ℚ) <
            ((f32Scale a b (24 + (bitLen b : Int) - (bitLen a : Int))).2 : ℚ) := by
          exact_mod_cast hD
        have h2 : (2 : ℚ) ^ (24 : ℕ)
            ≤ (a : ℚ) / (b : ℚ) * (2 : ℚ) ^ (24 + (bitLen b : Int) - (bitLen a : Int)) := by
          rw [← hq, le_div_iff₀ hDq]
          exact_mod_cast h1
        rw [zpow_sub_one₀ (by norm_num), ← mul_assoc]
        have : (2 : ℚ) ^ (24 : ℕ) = (2 : ℚ) ^ (23 : ℕ) * 2 := by norm_num
        rw [this] at h2
        rw [le_mul_inv_iff₀ (by norm_num)]
        exact h2
  obtain ⟨hD, hq⟩ := f32Scale_spec a b s hb
  have hDq : (0 : ℚ) < ((f32Scale a b s).2 : ℚ) := by exact_mod_cast hD
  rw [hs]
  simp only [neg_neg]
  refine ⟨hA, ?_, ?_⟩
  · rw [← hq, div_le_iff₀ hDq]
    have := roundHalfEven_ge (f32Scale a b s).1 (f32Scale a b s).2 hD
    have h2 : (2 : ℚ) * ((f32Scale a b s).1 : ℚ)
        ≤ (2 * (roundHalfEven (f32Scale a b s).1 (f32Scale a b s).2 : ℚ) + 1)
            * ((f32Scale a b s).2 : ℚ) := by
      exact_mod_cast this
    linarith
  · intro M hM
    rw [← hq, div_le_iff₀ hDq] at hM
    apply roundHalfEven_le _ _ _ hD
    exact_mod_cast hM

theorem f32OfInt_exact (t : Nat) (ht0 : 0 < t) (ht : t < 2 ^ 24) :
    ∃ s : Nat, f32OfInt (t : Int) = ⟨((t * 2 ^ s : Nat) : Int), -(s : Int)⟩ := by
  obtain ⟨hA, hB, hC⟩ := f32Round_spec t 1 ht0 (by norm_num)
  simp only [Nat.cast_one, div_one] at hA hB hC
  have htq : (t : ℚ) < (2 : ℚ) ^ (24 : ℕ) := by exact_mod_cast ht
  have htq0 : (0 : ℚ) < (t : ℚ) := by exact_mod_cast ht0
  have hS : 0 ≤ -(f32Round t 1).2 := by
    by_contra hneg
    have h1 : (2 : ℚ) ^ (-(f32Round t 1).2) ≤ (2 : ℚ) ^ (-1 : Int) :=
      zpow_le_zpow_right₀ (by norm_num) (by omega)
    have h2 : (2 : ℚ) ^ (-1 : Int) = 1 / 2 := by norm_num
    rw [h2] at h1
    have h3 : (t : ℚ) * (2 : ℚ) ^ (-(f32Round t 1).2) ≤ (t : ℚ) * (1 / 2) :=
      mul_le_mul_of_nonneg_left h1 htq0.le
    have h223 : (2 : ℚ) ^ (23 : ℕ) = 8388608 := by norm_num
    have h224 : (2 : ℚ) ^ (24 : ℕ) = 16777216 := by norm_num
    rw [h223] at hA
    rw [h224] at htq
    linarith
  obtain ⟨s, hs⟩ : ∃ s : Nat, -(f32Round t 1).2 = (s : Int) := ⟨_, (Int.toNat_of_nonneg hS).symm⟩
  rw [hs, zpow_natCast] at hA hB hC
  have hm : (f32Round t 1).1 = t * 2 ^ s := by
    apply le_antisymm
    · apply hC
      push_cast
      exact le_refl _
    · have h1 : ((t * 2 ^ s : Nat) : ℚ) ≤ ((f32Round t 1).1 : ℚ) + 1 / 2 := by
        push_cast
        exact hB
      have h2 : (2 * (t * 2 ^ s : Nat) : ℚ) ≤ ((2 * (f32Round t 1).1 + 1 : Nat) : ℚ) := by
        push_cast
        push_cast at h1
        linarith
      have h3 : 2 * (t * 2 ^ s) ≤ 2 * (f32Round t 1).1 + 1 := by exact_mod_cast h2
      omega
  refine ⟨s, ?_⟩
  have hne : (t : Int) ≠ 0 := by omega
  have hsign : (t : Int).sign = 1 := Int.sign_eq_one_of_pos (by omega)
  unfold f32OfInt
  rw [if_neg hne, hsign, Int.natAbs_ofNat, hm, one_mul]
  congr 1
  omega

theorem f32DivCeil_exact (t c : Nat) (ht0 : 0 < t) (ht : t < 2 ^ 24) (hc0 : 0 < c)
    (hc : c < 2 ^ 24) :
    (f32Div (f32OfInt (t : Int)) (f32OfInt (c : Int))).map f32Ceil
      = some ⌈(t : ℚ) / (c : ℚ)⌉ := by
  obtain ⟨s1, h1⟩ := f32OfInt_exact t ht0 ht
  obtain ⟨s2, h2⟩ := f32OfInt_exact c hc0 hc
  have ha0 : 0 < t * 2 ^ s1 := Nat.mul_pos ht0 (by positivity)
  have hb0 : 0 < c * 2 ^ s2 := Nat.mul_pos hc0 (by positivity)
  obtain ⟨hA, hB, hC⟩ := f32Round_spec (t * 2 ^ s1) (c * 2 ^ s2) ha0 hb0
  have htq : (t : ℚ) < (2 : ℚ) ^ (24 : ℕ) := by exact_mod_cast ht
  have htq0 : (0 : ℚ) < (t : ℚ) := by exact_mod_cast ht0
  have hcq0 : (0 : ℚ) < (c : ℚ) := by exact_mod_cast hc0
  have hcq1 : (1 : ℚ) ≤ (c : ℚ) := by exact_mod_cast hc0
  -- the exponent of the quotient, negated
  set e := (f32Round (t * 2 ^ s1) (c * 2 ^ s2)).2 with he
  set m := (f32Round (t * 2 ^ s1) (c * 2 ^ s2)).1 with hm
  have hq : ((t * 2 ^ s1 : Nat) : ℚ) / ((c * 2 ^ s2 : Nat) : ℚ) * (2 : ℚ) ^ (-e)
      = (t : ℚ) / (c : ℚ) * (2 : ℚ) ^ ((s1 : Int) - (s2 : Int) - e) := by
    have e1 : (2 : ℚ) ^ ((s1 : Int) - (s2 : Int) - e)
        = (2 : ℚ) ^ (s1 : ℕ) / (2 : ℚ) ^ (s2 : ℕ) * (2 : ℚ) ^ (-e) := by
      rw [sub_eq_add_neg, zpow_add₀ (by norm_num), zpow_sub₀ (by norm_num), zpow_natCast,
        zpow_natCast]
    rw [e1]
    push_cast
    field_simp
    ring
  rw [hq] at hA hB hC
  have hS : 0 ≤ (s1 : Int) - (s2 : Int) - e := by
    by_contra hneg
    have h3 : (2 : ℚ) ^ ((s1 : Int) - (s2 : Int) - e) ≤ (2 : ℚ) ^ (-1 : Int) :=
      zpow_le_zpow_right₀ (by norm_num) (by omega)
    have h4 : (2 : ℚ) ^ (-1 : Int) = 1 / 2 := by norm_num
    rw [h4] at h3
    have h5 : (t : ℚ) / (c : ℚ) ≤ (t : ℚ) := div_le_self htq0.le hcq1
    have h6 : (t : ℚ) / (c : ℚ) * (2 : ℚ) ^ ((s1 : Int) - (s2 : Int) - e)
        ≤ (t : ℚ) * (1 / 2) :=
      mul_le_mul h5 h3 (zpow_pos (by norm_num) _).le htq0.le
    have h223 : (2 : ℚ) ^ (23 : ℕ) = 8388608 := by norm_num
    have h224 : (2 : ℚ) ^ (24 : ℕ) = 16777216 := by norm_num
    rw [h223] at hA
    rw [h224] at htq
    linarith
  obtain ⟨S, hSe⟩ : ∃ S : Nat, (s1 : Int) - (s2 : Int) - e = (S : Int) :=
    ⟨_, (Int.toNat_of_nonneg hS).symm⟩
  rw [hSe, zpow_natCast] at hA hB hC
  -- the ceiling `k` of the exact quotient
  obtain ⟨k, hk⟩ : ∃ k : Nat, ⌈(t : ℚ) / (c : ℚ)⌉ = (k : Int) := by
    have : 0 ≤ ⌈(t : ℚ) / (c : ℚ)⌉ := Int.ceil_nonneg (div_nonneg htq0.le hcq0.le)
    exact ⟨_, (Int.toNat_of_nonneg this).symm⟩
  have hk1 : (t : ℚ) / (c : ℚ) ≤ (k : ℚ) := by
    have := Int.le_ceil ((t : ℚ) / (c : ℚ))
    rw [hk] at this
    exact_mod_cast this
  have hk2 : ((k : ℚ) - 1) * (c : ℚ) + 1 ≤ (t : ℚ) := by
    have h3 : ((k : Int) - 1 : Int) < ⌈(t : ℚ) / (c : ℚ)⌉ := by rw [hk]; omega
    rw [Int.lt_ceil, lt_div_iff₀ hcq0] at h3
    have h4 : (((k : Int) - 1) * (c : Int) : Int) < (t : Int) := by exact_mod_cast h3
    have h5 : (((k : Int) - 1) * (c : Int) + 1 : Int) ≤ (t : Int) := by omega
    exact_mod_cast h5
  have hP : (0 : ℚ) < (2 : ℚ) ^ S := by positivity
  -- upper bound on the significand
  have hup : m ≤ k * 2 ^ S := by
    apply hC
    push_cast
    exact mul_le_mul_of_nonneg_right hk1 hP.le
  -- lower bound on the significand
  have hlow : (k - 1 : Int) * 2 ^ S < (m : Int) := by
    have h3 : (c : ℚ) < 2 * (2 : ℚ) ^ S := by
      rw [div_mul_eq_mul_div, le_div_iff₀ hcq0] at hA
      have h223 : (2 : ℚ) ^ (23 : ℕ) = 8388608 := by norm_num
      have h224 : (2 : ℚ) ^ (24 : ℕ) = 16777216 := by norm_num
      rw [h223] at hA
      have hmul := mul_lt_mul_of_pos_right htq hP
      rw [h224] at hmul
      linarith
    have h4 : ((k : ℚ) - 1) * (2 : ℚ) ^ S + (2 : ℚ) ^ S / (c : ℚ)
        ≤ (t : ℚ) / (c : ℚ) * (2 : ℚ) ^ S := by
      rw [div_mul_eq_mul_div, le_div_iff₀ hcq0]
      have : (((k : ℚ) - 1) * (2 : ℚ) ^ S + (2 : ℚ) ^ S / (c : ℚ)) * (c : ℚ)
          = (((k : ℚ) - 1) * (c : ℚ) + 1) * (2 : ℚ) ^ S := by
        field_simp
        ring
      rw [this]
      exact mul_le_mul_of_nonneg_right hk2 hP.le
    have h5 : (1 : ℚ) / 2 < (2 : ℚ) ^ S / (c : ℚ) := by
      rw [lt_div_iff₀ hcq0]
      linarith
    have h6 : ((k : ℚ) - 1) * (2 : ℚ) ^ S < (m : ℚ) := by linarith
    have h7 : (((k - 1 : Int) * 2 ^ S : Int) : ℚ) < ((m : Int) : ℚ) := by
      push_cast
      exact h6
    exact_mod_cast h7
  have hup' : (m : Int) ≤ (k : Int) * 2 ^ S := by exact_mod_cast hup
  -- evaluate the code
  have hmant1 : ((t * 2 ^ s1 : Nat) : Int) ≠ 0 := by exact_mod_cast (Nat.pos_iff_ne_zero.mp ha0)
  have hmant2 : ((c * 2 ^ s2 : Nat) : Int) ≠ 0 := by exact_mod_cast (Nat.pos_iff_ne_zero.mp hb0)
  have hsg1 : ((t * 2 ^ s1 : Nat) : Int).sign = 1 :=
    Int.sign_eq_one_of_pos (by exact_mod_cast ha0)
  have hsg2 : ((c * 2 ^ s2 : Nat) : Int).sign = 1 :=
    Int.sign_eq_one_of_pos (by exact_mod_cast hb0)
  rw [h1, h2]
  unfold f32Div
  simp only [if_neg hmant1, if_neg hmant2, hsg1, hsg2, Int.natAbs_ofNat, Option.map_some',
    one_mul, ← hm, ← he]
  congr 1
  rw [hk]
  have hexp : e + -(s1 : Int) - -(s2 : Int) = -(S : Int) := by omega
  unfold f32Ceil
  simp only [hexp, neg_neg, Int.toNat_ofNat]
  by_cases hS0 : S = 0
  · subst hS0
    simp only [pow_zero, mul_one] at hlow hup'
    simp
    omega
  · rw [if_neg (by omega)]
    have hPz : (0 : Int) < 2 ^ S := by positivity
    have hA1 : -(k : Int) ≤ (-(m : Int)) / 2 ^ S := by
      rw [Int.le_ediv_iff_mul_le hPz]
      linarith
    have hA2 : (-(m : Int)) / 2 ^ S < -(k : Int) + 1 := by
      rw [Int.ediv_lt_iff_lt_mul hPz]
      linarith
    omega

theorem wrapInt32_of_range (z : Int) (h1 : -2147483648 ≤ z) (h2 : z < 2147483648) :
    wrapInt32 z = z := by
  unfold wrapInt32
  omega

theorem foldl_wrap_eq_sum (f : Nat → Int) (n : Nat) (hf : ∀ i, i < n → 0 ≤ f i)
    (hs : ∑ i ∈ Finset.range n, f i < 2147483648) :
    (List.range n).foldl (fun acc i => wrapInt32 (acc + f i)) 0 = ∑ i ∈ Finset.range n, f i := by
  induction n with
  | zero => simp
  | succ n ih =>
    rw [Finset.sum_range_succ] at hs ⊢
    have hfn := hf n (by omega)
    have hnn : 0 ≤ ∑ i ∈ Finset.range n, f i :=
      Finset.sum_nonneg (fun i hi => hf i (by rw [Finset.mem_range] at hi; omega))
    rw [List.range_succ, List.foldl_append, ih (fun i hi => hf i (by omega)) (by omega)]
    simp only [List.foldl_cons, List.foldl_nil]
    exact wrapInt32_of_range _ (by omega) (by omega)

theorem totalDemand_eq_sum (d : BEL_VRPData) (hdem : ∀ i, i < d.dimension → 0 ≤ d.demand.getD i 0)
    (hs : ∑ i ∈ Finset.range d.dimension, d.demand.getD i 0 < 2147483648) :
    totalDemand d = ∑ i ∈ Finset.range d.dimension, d.demand.getD i 0 :=
  foldl_wrap_eq_sum (fun i => d.demand.getD i 0) d.dimension hdem hs

theorem castInt32_lb_exact (t c : Int) (ht0 : 0 ≤ t) (ht : t < 16777216) (hc0 : 0 < c)
    (hc : c < 16777216) :
    castInt32 ((f32Div (f32OfInt t) (f32OfInt c)).map f32Ceil) = ⌈(t : ℚ) / (c : ℚ)⌉ := by
  obtain ⟨tn, rfl⟩ : ∃ n : Nat, t = (n : Int) := ⟨t.toNat, (Int.toNat_of_nonneg ht0).symm⟩
  obtain ⟨cn, rfl⟩ : ∃ n : Nat, c = (n : Int) := ⟨c.toNat, (Int.toNat_of_nonneg hc0.le).symm⟩
  have hcn0 : 0 < cn := by omega
  have hcn : cn < 2 ^ 24 := by norm_num; omega
  have hcq : (0 : ℚ) < (cn : ℚ) := by exact_mod_cast hcn0
  rcases Nat.eq_zero_or_pos tn with h0 | h0
  · subst h0
    obtain ⟨s2, h2⟩ := f32OfInt_exact cn hcn0 hcn
    have hb0 : ((cn * 2 ^ s2 : Nat) : Int) ≠ 0 := by
      have : 0 < cn * 2 ^ s2 := Nat.mul_pos hcn0 (by positivity)
      exact_mod_cast (Nat.pos_iff_ne_zero.mp this)
    have hcne : cn ≠ 0 := by omega
    rw [h2]
    simp [f32OfInt, f32Div, hb0, hcne, f32Ceil, castInt32]
  · have htn : tn < 2 ^ 24 := by norm_num; omega
    have hcast : (((tn : Int) : ℚ)) = (tn : ℚ) := by push_cast; rfl
    have hcast2 : (((cn : Int) : ℚ)) = (cn : ℚ) := by push_cast; rfl
    rw [f32DivCeil_exact tn cn h0 htn hcn0 hcn, hcast, hcast2]
    have hk0 : 0 ≤ ⌈(tn : ℚ) / (cn : ℚ)⌉ :=
      Int.ceil_nonneg (div_nonneg (by positivity) hcq.le)
    have hk1 : ⌈(tn : ℚ) / (cn : ℚ)⌉ ≤ (tn : Int) := by
      rw [Int.ceil_le]
      have : (1 : ℚ) ≤ (cn : ℚ) := by exact_mod_cast hcn0
      push_cast
      exact div_le_self (by positivity) this
    unfold castInt32
    simp only
    rw [if_pos ⟨by omega, by omega⟩]

theorem vehiclesLB_exact (d : BEL_VRPData)
    (hdem : ∀ i, i < d.dimension → 0 ≤ d.demand.getD i 0)
    (hs : ∑ i ∈ Finset.range d.dimension, d.demand.getD i 0 < 16777216)
    (hc0 : 0 < d.capacity) (hc : d.capacity < 16777216) :
    BEL_VRPVehiclesLB d
      = ⌈((∑ i ∈ Finset.range d.dimension, d.demand.getD i 0 : Int) : ℚ) / (d.capacity : ℚ)⌉ := by
  unfold BEL_VRPVehiclesLB
  rw [totalDemand_eq_sum d hdem (by omega)]
  exact castInt32_lb_exact _ _
    (Finset.sum_nonneg (fun i hi => hdem i (by rw [Finset.mem_range] at hi; omega))) hs hc0 hc
theorem mem_customerVolumes (d : BEL_VRPData) (v : Int) :
    v ∈ customerVolumes d
      ↔ ∃ i, i < d.dimension ∧ d.isadepot.getD i 0 = 0 ∧ d.demand.getD i 0 = v := by
  unfold customerVolumes
  rw [List.mem_filterMap]
  constructor
  · rintro ⟨i, hi, h⟩
    rw [List.mem_range] at hi
    by_cases hd : d.isadepot.getD i 0 = 0
    · rw [if_pos hd] at h
      exact ⟨i, hi, hd, Option.some.inj h⟩
    · rw [if_neg hd] at h
      exact absurd h (by simp)
  · rintro ⟨i, hi, hd, hv⟩
    exact ⟨i, List.mem_range.mpr hi, by rw [if_pos hd, hv]⟩

theorem exists_index_of_mem (volume : List Int) (v : Int) (h : v ∈ volume) :
    ∃ i, 1 ≤ i ∧ i ≤ volume.length ∧ volume.getD (i - 1) 0 = v := by
  obtain ⟨k, hk, hv⟩ := List.getElem_of_mem h
  refine ⟨k + 1, by omega, by omega, ?_⟩
  rw [Nat.add_sub_cancel, List.getD_eq_getElem _ _ hk, hv]

theorem getD_nonneg_of_forall (volume : List Int) (h : ∀ v ∈ volume, 0 ≤ v) (k : Nat) :
    0 ≤ volume.getD k 0 := by
  by_cases hk : k < volume.length
  · rw [List.getD_eq_getElem _ _ hk]
    exact h _ (List.getElem_mem hk)
  · rw [List.getD_eq_default _ _ (by omega)]

theorem xcol_binary (bins items : Nat) (x : Nat → Int) (hb : BppBinary bins items x)
    (i j : Nat) (hi1 : 1 ≤ i) (hi : i ≤ items) (hj1 : 1 ≤ j) (hj : j ≤ bins) :
    x (xcol bins i j) = 0 ∨ x (xcol bins i j) = 1 := by
  have hle := xcol_le bins items i j hi1 hi hj
  have hle2 : items * bins ≤ (items + 1) * bins := Nat.mul_le_mul_right _ (by omega)
  exact hb _ (by unfold xcol; omega) (by omega)

theorem ycol_binary (bins items : Nat) (x : Nat → Int) (hb : BppBinary bins items x)
    (j : Nat) (hj1 : 1 ≤ j) (hj : j ≤ bins) :
    x (ycol bins items j) = 0 ∨ x (ycol bins items j) = 1 :=
  hb _ (by unfold ycol; omega) (by unfold ycol; rw [Nat.add_mul]; omega)

/-- An item assigned somewhere: some `x[i][j]` is 1. -/
theorem exists_bin_of_assign (bins items : Nat) (x : Nat → Int) (hb : BppBinary bins items x)
    (ha : BppAssign bins items x) (i : Nat) (hi1 : 1 ≤ i) (hi : i ≤ items) :
    ∃ j, 1 ≤ j ∧ j ≤ bins ∧ x (xcol bins i j) = 1 := by
  by_contra hne
  have hz : ∑ j ∈ Finset.Icc 1 bins, x (xcol bins i j) = 0 := by
    apply Finset.sum_eq_zero
    intro j hj
    rw [Finset.mem_Icc] at hj
    rcases xcol_binary bins items x hb i j hi1 hi hj.1 hj.2 with h0 | h1
    · exact h0
    · exact absurd ⟨j, hj.1, hj.2, h1⟩ hne
  have := ha i hi1 hi
  omega

/-- The load of a bin is at least the volume of any item assigned to it. -/
theorem volume_le_load (bins : Nat) (items : Nat) (volume : List Int) (x : Nat → Int)
    (hb : BppBinary bins items x) (hnn : ∀ k, 1 ≤ k → k ≤ items → 0 ≤ volume.getD (k - 1) 0)
    (i j : Nat) (hi1 : 1 ≤ i) (hi : i ≤ items) (hj1 : 1 ≤ j) (hj : j ≤ bins)
    (hx : x (xcol bins i j) = 1) :
    volume.getD (i - 1) 0
      ≤ ∑ k ∈ Finset.Icc 1 items, volume.getD (k - 1) 0 * x (xcol bins k j) := by
  have hterm : ∀ k ∈ Finset.Icc 1 items, 0 ≤ volume.getD (k - 1) 0 * x (xcol bins k j) := by
    intro k hk
    rw [Finset.mem_Icc] at hk
    have h1 := hnn k hk.1 hk.2
    rcases xcol_binary bins items x hb k j hk.1 hk.2 hj1 hj with h0 | h0
    · rw [h0, mul_zero]
    · rw [h0, mul_one]
      exact h1
  have := Finset.single_le_sum hterm (Finset.mem_Icc.mpr ⟨hi1, hi⟩)
  rw [hx, mul_one] at this
  exact this

theorem no_packing_of_oversized (bins : Nat) (capacity : Int) (items : Nat) (volume : List Int)
    (x : Nat → Int) (hcap : 0 ≤ capacity) (hnn : ∀ v ∈ volume, 0 ≤ v)
    (hbig : ∃ i, 1 ≤ i ∧ i ≤ items ∧ capacity < volume.getD (i - 1) 0)
    (hb : BppBinary bins items x) (ha : BppAssign bins items x)
    (hc : BppCapacity bins capacity items volume x) : False := by
  obtain ⟨i, hi1, hi, hv⟩ := hbig
  obtain ⟨j, hj1, hj, hx⟩ := exists_bin_of_assign bins items x hb ha i hi1 hi
  have h1 := volume_le_load bins items volume x hb
    (fun k _ _ => getD_nonneg_of_forall volume hnn (k - 1)) i j hi1 hi hj1 hj hx
  have h2 := hc j hj1 hj
  rcases ycol_binary bins items x hb j hj1 hj with h0 | h0 <;> rw [h0] at h2 <;> omega

/-! ## The calls that are defined executions -/

theorem length_flatMap_const (l : List Nat) (f : Nat → List Triple) (c : Nat)
    (h : ∀ i ∈ l, (f i).length = c) : (l.flatMap f).length = l.length * c := by
  induction l with
  | nil => simp
  | cons a l ih =>
    rw [List.flatMap_cons, List.length_append, h a (List.mem_cons_self _ _),
      ih (fun i hi => h i (List.mem_cons_of_mem _ hi)), List.length_cons, Nat.succ_mul,
      Nat.add_comm]

theorem length_forIncl_one (n : Nat) : (forIncl 1 n).length = n := by
  rw [forIncl_one, List.length_range']

theorem feasible_bpp_toNat (bins capacity : Int) (items : Nat) (volume : List Int)
    (x : Nat → Int) :
    Feasible (bppProblem bins capacity items volume) x
      ↔ Feasible (bppProblem (bins.toNat : Int) capacity items volume) x := by
  simp only [Feasible, ColsOk, RowsOk, RowOk, bppProblem, Int.toNat_ofNat]

theorem firstRowsOk_bpp_toNat (bins capacity : Int) (items n : Nat) (volume : List Int)
    (x : Nat → Int) :
    FirstRowsOk (bppProblem bins capacity items volume) n x
      ↔ FirstRowsOk (bppProblem (bins.toNat : Int) capacity items volume) n x := by
  simp only [FirstRowsOk, RowOk, bppProblem, Int.toNat_ofNat]

theorem colsOk_bpp_toNat (bins capacity : Int) (items : Nat) (volume : List Int)
    (x : Nat → Int) :
    ColsOk (bppProblem bins capacity items volume) x
      ↔ ColsOk (bppProblem (bins.toNat : Int) capacity items volume) x := by
  simp only [ColsOk, bppProblem, Int.toNat_ofNat]

theorem objective_bpp_toNat (bins capacity : Int) (items : Nat) (volume : List Int)
    (x : Nat → Int) :
    objective (bppProblem bins capacity items volume) x = binsUsed bins.toNat items x := by
  rw [← objective_bpp bins.toNat capacity items volume x]
  simp only [objective, bppProblem, Int.toNat_ofNat]

/-- What `BEL_VRPProblemIsFeasible` does with a non-null instance, in terms of the solver's
answer. -/
theorem feasible_call_eq (solver : MipProblem → MipResult) (s : NamePointer) (d : BEL_VRPData)
    (e : Int) :
    BEL_VRPProblemIsFeasible solver s (some d) e
      = if feasibilityCallDefined s d then
          some (if (solver (bppProblem (BEL_VRPVehiclesLB d) d.capacity d.ncustomers
                  (customerVolumes d))).status = MipStatus.I_OPT
                ∨ (solver (bppProblem (BEL_VRPVehiclesLB d) d.capacity d.ncustomers
                  (customerVolumes d))).status = MipStatus.I_FEAS
            then ⟨true, some { d with nvehicles := (solver (bppProblem (BEL_VRPVehiclesLB d)
                  d.capacity d.ncustomers (customerVolumes d))).objVal }, e⟩
            else ⟨false, some d, BEL_VRP_NOT_ENOUGH_VEHICLES⟩)
        else none := by
  by_cases hst : (solver (bppProblem (BEL_VRPVehiclesLB d) d.capacity d.ncustomers
        (customerVolumes d))).status = MipStatus.I_OPT
      ∨ (solver (bppProblem (BEL_VRPVehiclesLB d) d.capacity d.ncustomers
        (customerVolumes d))).status = MipStatus.I_FEAS
  · by_cases h : feasibilityCallDefined s d
    · rw [if_pos h, if_pos hst]
      simp [BEL_VRPProblemIsFeasible, BEL_BPPSolve, h.1, h.2.1, h.2.2, hst]
    · rw [if_neg h]
      unfold feasibilityCallDefined at h
      unfold BEL_VRPProblemIsFeasible
      simp only
      split_ifs <;> first | rfl | (exfalso; apply h; refine ⟨by tauto, by tauto, by tauto⟩)
  · by_cases h : feasibilityCallDefined s d
    · rw [if_pos h, if_neg hst]
      simp [BEL_VRPProblemIsFeasible, BEL_BPPSolve, h.1, h.2.1, h.2.2, hst]
    · rw [if_neg h]
      unfold feasibilityCallDefined at h
      unfold BEL_VRPProblemIsFeasible
      simp only
      split_ifs <;> first | rfl | (exfalso; apply h; refine ⟨by tauto, by tauto, by tauto⟩)

/-- A call that has a result is a defined execution, and the result is read off the solver's
answer. -/
theorem feasible_call_some (solver : MipProblem → MipResult) (s : NamePointer) (d : BEL_VRPData)
    (e : Int) (r : FeasResult) (hr : BEL_VRPProblemIsFeasible solver s (some d) e = some r) :
    feasibilityCallDefined s d
      ∧ r = if (solver (bppProblem (BEL_VRPVehiclesLB d) d.capacity d.ncustomers
                (customerVolumes d))).status = MipStatus.I_OPT
              ∨ (solver (bppProblem (BEL_VRPVehiclesLB d) d.capacity d.ncustomers
                (customerVolumes d))).status = MipStatus.I_FEAS
          then ⟨true, some { d with nvehicles := (solver (bppProblem (BEL_VRPVehiclesLB d)
                d.capacity d.ncustomers (customerVolumes d))).objVal }, e⟩
          else ⟨false, some d, BEL_VRP_NOT_ENOUGH_VEHICLES⟩ := by
  rw [feasible_call_eq] at hr
  by_cases h : feasibilityCallDefined s d
  · rw [if_pos h, Option.some.injEq] at hr
    exact ⟨h, hr.symm⟩
  · rw [if_neg h] at hr
    exact absurd hr (by simp)

/-- With a divisor 0 the quotient of `BEL_VRPVehiclesLB` is not a finite value and the cast
`(int)` is undefined. -/
theorem vehiclesLB_undefined_of_zero_capacity (d : BEL_VRPData) (h : d.capacity = 0) :
    ¬ vehiclesLBDefined d := by
  unfold vehiclesLBDefined
  rw [h]
  have : f32Div (f32OfInt (totalDemand d)) (f32OfInt 0) = none := by
    unfold f32Div
    rw [if_pos (by decide)]
  rw [this]
  exact fun h => h

/-- C8. With `x[i][j]` in column `(i-1)*bins + j` and `y[j]` in column `items*bins + j`, a 0/1
column vector satisfies the first `items + bins` rows that `BEL_BPPSolve` builds (the triples
together with the bounds set on those rows) exactly when every item is in one bin and every bin
holds at most `capacity * y[j]`. -/
theorem bpp_first_rows_iff_assignment_and_capacity (items bins : Nat) (capacity : Int)
    (volume : List Int) (x : Nat → Int)
    (_hitems : 1 ≤ items) (_hbins : 1 ≤ bins) (_hvol : volume.length = items)
    (_hx : BppBinary bins items x) :
    FirstRowsOk (bppProblem bins capacity items volume) (items + bins) x
      ↔ (∀ i, 1 ≤ i → i ≤ items → ∑ j ∈ Finset.Icc 1 bins, x ((i - 1) * bins + j) = 1)
        ∧ (∀ j, 1 ≤ j → j ≤ bins →
            ∑ i ∈ Finset.Icc 1 items, volume.getD (i - 1) 0 * x ((i - 1) * bins + j)
              ≤ capacity * x (items * bins + j)) := by
  rw [firstRowsOk_bpp_iff]
  rfl

theorem bpp_first_rows_iff_witness :
    1 ≤ 2 ∧ 1 ≤ 2 ∧ [(6 : Int), 6].length = 2 ∧ BppBinary 2 2 twoBinsPacking
      ∧ (FirstRowsOk (bppProblem (2 : Nat) 10 2 [6, 6]) (2 + 2) twoBinsPacking
          ↔ (∀ i, 1 ≤ i → i ≤ 2 → ∑ j ∈ Finset.Icc 1 2, twoBinsPacking ((i - 1) * 2 + j) = 1)
            ∧ (∀ j, 1 ≤ j → j ≤ 2 →
                ∑ i ∈ Finset.Icc 1 2, [(6 : Int), 6].getD (i - 1) 0 * twoBinsPacking ((i - 1) * 2 + j)
                  ≤ 10 * twoBinsPacking (2 * 2 + j))) :=
  have hx : BppBinary 2 2 twoBinsPacking := by
    intro c _ _
    unfold twoBinsPacking
    split_ifs <;> simp
  ⟨by decide, by decide, by decide, hx,
    bpp_first_rows_iff_assignment_and_capacity 2 2 10 [6, 6] twoBinsPacking
      (by decide) (by decide) (by decide) hx⟩

/-- C1 (the code at the failing input). On `roundedUpData` (three customers of demand
16777217, capacity 16777217, so that three vehicles are needed) the binary32 evaluation of
`BEL_VRPVehiclesLB` gives 4, the bin-packing problem with 4 bins has the solution
`roundedUpSolver` reports, and `BEL_VRPProblemIsFeasible` returns TRUE with a vehicle count 3
that is below `BEL_VRPVehiclesLB(data)`. -/
theorem vehicles_below_computed_bound :
    SolverSound roundedUpSolver
        (bppProblem (BEL_VRPVehiclesLB roundedUpData) roundedUpData.capacity
          roundedUpData.ncustomers (customerVolumes roundedUpData))
      ∧ BEL_VRPProblemIsFeasible roundedUpSolver NamePointer.writable (some roundedUpData) 0
          = some ⟨true, some { roundedUpData with nvehicles := 3 }, 0⟩
      ∧ BEL_VRPVehiclesLB roundedUpData = 4
      ∧ ¬ (BEL_VRPVehiclesLB roundedUpData ≤ 3)
      ∧ 0 < roundedUpData.capacity
      ∧ (∀ v ∈ customerVolumes roundedUpData, 0 ≤ v)
      ∧ (customerVolumes roundedUpData).length = roundedUpData.ncustomers
      ∧ totalDemand roundedUpData = (customerVolumes roundedUpData).sum := by
  refine ⟨by decide, by decide, by decide, by decide, by decide, by decide, by decide,
    by decide⟩

/-- The closed-form bound against the exact ceiling. For non-negative volumes and
`capacity > 0`, every 0/1 vector satisfying the rows built by `BEL_BPPSolve` uses at least
`ceil(sum of volumes / capacity)` bins; hence whenever `BEL_VRPProblemIsFeasible` returns TRUE
on the answer of a sound solver, the vehicle count it stores is at least
`ceil(sum of customer demands / capacity)`. -/
theorem bins_used_ge_ceil_of_volume (bins capacity : Int) (items : Nat) (volume : List Int)
    (x : Nat → Int) (solver : MipProblem → MipResult) (d : BEL_VRPData) (e : Int)
    (hcap : 0 < capacity) (hlen : volume.length = items) (_hnn : ∀ v ∈ volume, 0 ≤ v)
    (hfeas : Feasible (bppProblem bins capacity items volume) x)
    (hdcap : 0 < d.capacity) (hdlen : (customerVolumes d).length = d.ncustomers)
    (_hdnn : ∀ v ∈ customerVolumes d, 0 ≤ v)
    (hsound : SolverSound solver
      (bppProblem (BEL_VRPVehiclesLB d) d.capacity d.ncustomers (customerVolumes d)))
    (s : NamePointer) (r : FeasResult)
    (hcall : BEL_VRPProblemIsFeasible solver s (some d) e = some r) (hret : r.ret = true) :
    ⌈((volume.sum : Int) : ℚ) / (capacity : ℚ)⌉ ≤ binsUsed bins.toNat items x
      ∧ ∃ d', r.data = some d'
          ∧ ⌈(((customerVolumes d).sum : Int) : ℚ) / (d.capacity : ℚ)⌉ ≤ d'.nvehicles := by
  have key : ∀ (b c : Int) (n : Nat) (vol : List Int) (y : Nat → Int), 0 < c → vol.length = n →
      Feasible (bppProblem b c n vol) y →
      ⌈((vol.sum : Int) : ℚ) / (c : ℚ)⌉ ≤ binsUsed b.toNat n y := by
    intro b c n vol y hc hl hf
    rw [feasible_bpp_toNat, feasible_bpp_iff] at hf
    rw [sum_list_eq_totalVolume, hl]
    exact ceil_le_binsUsed b.toNat c n vol y hc hf.2.1 hf.2.2.1
  refine ⟨key bins capacity items volume x hcap hlen hfeas, ?_⟩
  obtain ⟨-, hr⟩ := feasible_call_some solver s d e r hcall
  by_cases hst : (solver (bppProblem (BEL_VRPVehiclesLB d) d.capacity d.ncustomers
        (customerVolumes d))).status = MipStatus.I_OPT
      ∨ (solver (bppProblem (BEL_VRPVehiclesLB d) d.capacity d.ncustomers
        (customerVolumes d))).status = MipStatus.I_FEAS
  · rw [if_pos hst] at hr
    obtain ⟨hf, hobj⟩ := hsound hst
    rw [hr]
    refine ⟨_, rfl, ?_⟩
    simp only
    rw [hobj, objective_bpp_toNat]
    exact key _ _ _ _ _ hdcap hdlen hf
  · rw [if_neg hst] at hr
    rw [hr] at hret
    simp at hret

theorem bins_used_ge_ceil_of_volume_witness :
    (0 : Int) < 10 ∧ [(6 : Int), 6].length = 2 ∧ (∀ v ∈ [(6 : Int), 6], 0 ≤ v)
      ∧ Feasible (bppProblem 2 10 2 [6, 6]) twoBinsPacking
      ∧ 0 < roundedUpData.capacity
      ∧ (customerVolumes roundedUpData).length = roundedUpData.ncustomers
      ∧ (∀ v ∈ customerVolumes roundedUpData, 0 ≤ v)
      ∧ SolverSound roundedUpSolver
          (bppProblem (BEL_VRPVehiclesLB roundedUpData) roundedUpData.capacity
            roundedUpData.ncustomers (customerVolumes roundedUpData))
      ∧ BEL_VRPProblemIsFeasible roundedUpSolver NamePointer.writable (some roundedUpData) 0
          = some ⟨true, some { roundedUpData with nvehicles := 3 }, 0⟩
      ∧ (⌈(([(6 : Int), 6].sum : Int) : ℚ) / ((10 : Int) : ℚ)⌉ ≤ binsUsed (2 : Int).toNat 2 twoBinsPacking
          ∧ ∃ d', (some { roundedUpData with nvehicles := 3 } : Option BEL_VRPData) = some d'
              ∧ ⌈(((customerVolumes roundedUpData).sum : Int) : ℚ)
                    / (roundedUpData.capacity : ℚ)⌉ ≤ d'.nvehicles) :=
  ⟨by decide, by decide, by decide, by decide, by decide, by decide, by decide, by decide,
    by decide,
    bins_used_ge_ceil_of_volume 2 10 2 [6, 6] twoBinsPacking roundedUpSolver roundedUpData 0
      (by decide) (by decide) (by decide) (by decide) (by decide) (by decide) (by decide)
      (by decide) NamePointer.writable ⟨true, some { roundedUpData with nvehicles := 3 }, 0⟩
      (by decide) rfl⟩

/-- C4 (the code at the failing input, and in general). Scenario C: when some customer's
demand exceeds the capacity (demands non-negative, capacity `>= 0`), no 0/1 vector satisfies
the assignment and capacity rows for any number of bins, and a call of
`BEL_VRPProblemIsFeasible` that is a defined execution, run with a sound solver, returns FALSE
with `BEL_VRP_NOT_ENOUGH_VEHICLES` and leaves the instance as it was.  But with capacity 0,
which the claim admits, `BEL_VRPVehiclesLB` divides by `(float) 0` and casts a value that is
not finite to `int`: on `zeroCapacityData` (one customer of demand 1) the call has no defined
result, whatever the solver. -/
theorem oversized_customer_zero_capacity :
    (∀ d : BEL_VRPData, 0 ≤ d.capacity →
        (∀ i, i < d.dimension → 0 ≤ d.demand.getD i 0) →
        (customerVolumes d).length = d.ncustomers →
        (∃ i, i < d.dimension ∧ d.isadepot.getD i 0 = 0 ∧ d.capacity < d.demand.getD i 0) →
        ∀ (bins : Int) (x : Nat → Int),
          ColsOk (bppProblem bins d.capacity d.ncustomers (customerVolumes d)) x →
          ¬ FirstRowsOk (bppProblem bins d.capacity d.ncustomers (customerVolumes d))
              (d.ncustomers + bins.toNat) x)
      ∧ (∀ (solver : MipProblem → MipResult) (s : NamePointer) (d : BEL_VRPData) (e : Int),
          0 ≤ d.capacity →
          (∀ i, i < d.dimension → 0 ≤ d.demand.getD i 0) →
          (customerVolumes d).length = d.ncustomers →
          (∃ i, i < d.dimension ∧ d.isadepot.getD i 0 = 0 ∧ d.capacity < d.demand.getD i 0) →
          SolverSound solver
            (bppProblem (BEL_VRPVehiclesLB d) d.capacity d.ncustomers (customerVolumes d)) →
          feasibilityCallDefined s d →
          BEL_VRPProblemIsFeasible solver s (some d) e
            = some ⟨false, some d, BEL_VRP_NOT_ENOUGH_VEHICLES⟩)
      ∧ (∀ d : BEL_VRPData, d.capacity = 0 → ¬ vehiclesLBDefined d)
      ∧ (∀ (solver : MipProblem → MipResult) (s : NamePointer) (d : BEL_VRPData) (e : Int),
          d.capacity = 0 → BEL_VRPProblemIsFeasible solver s (some d) e = none)
      ∧ 0 ≤ zeroCapacityData.capacity
      ∧ (∀ i, i < zeroCapacityData.dimension → 0 ≤ zeroCapacityData.demand.getD i 0)
      ∧ (customerVolumes zeroCapacityData).length = zeroCapacityData.ncustomers
      ∧ (zeroCapacityData.isadepot.getD 1 0 = 0
          ∧ zeroCapacityData.capacity < zeroCapacityData.demand.getD 1 0)
      ∧ f32Div (f32OfInt (totalDemand zeroCapacityData)) (f32OfInt zeroCapacityData.capacity)
          = none
      ∧ (∀ (solver : MipProblem → MipResult) (s : NamePointer) (e : Int),
          BEL_VRPProblemIsFeasible solver s (some zeroCapacityData) e = none)
      ∧ feasibilityCallDefined NamePointer.writable oversizedData
      ∧ BEL_VRPProblemIsFeasible rejectingSolver NamePointer.writable (some oversizedData) 0
          = some ⟨false, some oversizedData, BEL_VRP_NOT_ENOUGH_VEHICLES⟩ := by
  have hrows : ∀ d : BEL_VRPData, 0 ≤ d.capacity →
      (∀ i, i < d.dimension → 0 ≤ d.demand.getD i 0) →
      (customerVolumes d).length = d.ncustomers →
      (∃ i, i < d.dimension ∧ d.isadepot.getD i 0 = 0 ∧ d.capacity < d.demand.getD i 0) →
      ∀ (bins : Int) (x : Nat → Int),
        ColsOk (bppProblem bins d.capacity d.ncustomers (customerVolumes d)) x →
        ¬ FirstRowsOk (bppProblem bins d.capacity d.ncustomers (customerVolumes d))
            (d.ncustomers + bins.toNat) x := by
    intro d hcap hnn hlen hbig bins x hcols hrows
    have hvnn : ∀ v ∈ customerVolumes d, 0 ≤ v := by
      intro v hv
      obtain ⟨i, hi, _, rfl⟩ := (mem_customerVolumes d v).mp hv
      exact hnn i hi
    have hvbig : ∃ i, 1 ≤ i ∧ i ≤ d.ncustomers
        ∧ d.capacity < (customerVolumes d).getD (i - 1) 0 := by
      obtain ⟨i, hi, hdep, hlt⟩ := hbig
      have hmem : d.demand.getD i 0 ∈ customerVolumes d :=
        (mem_customerVolumes d _).mpr ⟨i, hi, hdep, rfl⟩
      obtain ⟨k, hk1, hk2, hk3⟩ := exists_index_of_mem _ _ hmem
      exact ⟨k, hk1, by omega, by rw [hk3]; exact hlt⟩
    rw [colsOk_bpp_toNat, colsOk_bpp_iff] at hcols
    rw [firstRowsOk_bpp_toNat, firstRowsOk_bpp_iff] at hrows
    exact no_packing_of_oversized bins.toNat d.capacity d.ncustomers (customerVolumes d) x hcap
      hvnn hvbig hcols hrows.1 hrows.2
  have hzero : ∀ (solver : MipProblem → MipResult) (s : NamePointer) (d : BEL_VRPData)
      (e : Int), d.capacity = 0 → BEL_VRPProblemIsFeasible solver s (some d) e = none := by
    intro solver s d e h
    rw [feasible_call_eq, if_neg (fun hd => vehiclesLB_undefined_of_zero_capacity d h hd.1)]
  refine ⟨hrows, ?_, vehiclesLB_undefined_of_zero_capacity, hzero, by decide, by decide,
    by decide, by decide, by decide, fun solver s e => hzero solver s _ e rfl, by decide,
    by decide⟩
  intro solver s d e hcap hnn hlen hbig hsound hdef
  have hst : ¬ ((solver (bppProblem (BEL_VRPVehiclesLB d) d.capacity d.ncustomers
        (customerVolumes d))).status = MipStatus.I_OPT
      ∨ (solver (bppProblem (BEL_VRPVehiclesLB d) d.capacity d.ncustomers
        (customerVolumes d))).status = MipStatus.I_FEAS) := by
    intro h
    obtain ⟨⟨hcols, hr⟩, _⟩ := hsound h
    exact hrows d hcap hnn hlen hbig _ _ hcols (fun rb hrb _ => hr rb hrb)
  rw [feasible_call_eq, if_pos hdef, if_neg hst]

/-- C7 (the code at the failing input, and in general). A call of `BEL_VRPProblemIsFeasible`
on a non-null instance that is a defined execution changes nothing in the instance but the
vehicle count: on TRUE `nvehicles` is the bin count read back from the solver and `errorCode`
is untouched; on FALSE `nvehicles` is unchanged and `errorCode` is
`BEL_VRP_NOT_ENOUGH_VEHICLES`.  But `volume` has `ncustomers` cells and receives the demand of
every node that is not flagged in `isadepot`: on `strayNodeData`, which the reader produces
for a node of demand 0 outside the `DEPOT_SECTION`, two values are written to the one cell
allocated, and the call has no defined result, whatever the solver. -/
theorem feasibility_check_overruns_volume :
    (∀ (solver : MipProblem → MipResult) (s : NamePointer) (d : BEL_VRPData) (e : Int)
        (r : FeasResult), BEL_VRPProblemIsFeasible solver s (some d) e = some r →
        ∃ d', r.data = some d'
          ∧ d'.dimension = d.dimension ∧ d'.ncustomers = d.ncustomers ∧ d'.demand = d.demand
          ∧ d'.isadepot = d.isadepot ∧ d'.depots = d.depots ∧ d'.capacity = d.capacity
          ∧ d'.ndepots = d.ndepots
          ∧ (r.ret = true →
              d'.nvehicles = (BEL_BPPSolve solver (BEL_VRPVehiclesLB d) d.capacity d.ncustomers
                  (customerVolumes d)).2
                ∧ d'.nvehicles = (solver (bppProblem (BEL_VRPVehiclesLB d) d.capacity
                    d.ncustomers (customerVolumes d))).objVal
                ∧ r.errorCode = e)
          ∧ (r.ret = false →
              d'.nvehicles = d.nvehicles ∧ r.errorCode = BEL_VRP_NOT_ENOUGH_VEHICLES))
      ∧ (∀ (solver : MipProblem → MipResult) (s : NamePointer) (d : BEL_VRPData) (e : Int),
          d.ncustomers < (customerVolumes d).length →
          BEL_VRPProblemIsFeasible solver s (some d) e = none)
      ∧ customerVolumes strayNodeData = [1, 0]
      ∧ strayNodeData.ncustomers = 1
      ∧ vehiclesLBDefined strayNodeData
      ∧ (∀ (solver : MipProblem → MipResult) (s : NamePointer) (e : Int),
          BEL_VRPProblemIsFeasible solver s (some strayNodeData) e = none)
      ∧ BEL_VRPProblemIsFeasible twoBinsSolver NamePointer.writable (some suppliedFleetData) 0
          = some ⟨true, some { suppliedFleetData with nvehicles := 2 }, 0⟩
      ∧ BEL_VRPProblemIsFeasible rejectingSolver NamePointer.writable (some oversizedData) 7
          = some ⟨false, some oversizedData, BEL_VRP_NOT_ENOUGH_VEHICLES⟩ := by
  have hover : ∀ (solver : MipProblem → MipResult) (s : NamePointer) (d : BEL_VRPData)
      (e : Int), d.ncustomers < (customerVolumes d).length →
      BEL_VRPProblemIsFeasible solver s (some d) e = none := by
    intro solver s d e h
    rw [feasible_call_eq, if_neg (fun hd => absurd hd.2.1 (by omega))]
  refine ⟨?_, hover, by decide, by decide, by decide,
    fun solver s e => hover solver s _ e (by decide), by decide, by decide⟩
  intro solver s d e r hr
  obtain ⟨-, hr2⟩ := feasible_call_some solver s d e r hr
  by_cases hst : (solver (bppProblem (BEL_VRPVehiclesLB d) d.capacity d.ncustomers
        (customerVolumes d))).status = MipStatus.I_OPT
      ∨ (solver (bppProblem (BEL_VRPVehiclesLB d) d.capacity d.ncustomers
        (customerVolumes d))).status = MipStatus.I_FEAS
  · rw [if_pos hst] at hr2
    rw [hr2]
    refine ⟨_, rfl, rfl, rfl, rfl, rfl, rfl, rfl, rfl, ?_, ?_⟩
    · intro _
      exact ⟨rfl, rfl, rfl⟩
    · intro h
      simp at h
  · rw [if_neg hst] at hr2
    rw [hr2]
    refine ⟨_, rfl, rfl, rfl, rfl, rfl, rfl, rfl, rfl, ?_, ?_⟩
    · intro h
      simp at h
    · intro _
      exact ⟨rfl, rfl⟩

/-- C10 (the code at the failing input, and in general). `BEL_BPPSolve` returns 1 exactly when
the solver reports an integer-optimal or integer-feasible solution and 0 otherwise, the
opposite of the documented `1 on failure, 0 otherwise`; on the answer `rejectingSolver` for one
item of volume 2 and one bin of capacity 1 it returns 0. -/
theorem bppSolve_returns_one_on_success (solver : MipProblem → MipResult) (bins capacity : Int)
    (items : Nat) (volume : List Int) :
    (((solver (bppProblem bins capacity items volume)).status = MipStatus.I_OPT
        ∨ (solver (bppProblem bins capacity items volume)).status = MipStatus.I_FEAS) →
      (BEL_BPPSolve solver bins capacity items volume).1 = 1)
    ∧ (¬ ((solver (bppProblem bins capacity items volume)).status = MipStatus.I_OPT
        ∨ (solver (bppProblem bins capacity items volume)).status = MipStatus.I_FEAS) →
      (BEL_BPPSolve solver bins capacity items volume).1 = 0)
    ∧ (BEL_BPPSolve rejectingSolver 1 1 1 [2]).1 = 0
    ∧ (∀ x, ¬ Feasible (bppProblem 1 1 1 [2]) x) := by
  refine ⟨?_, ?_, by decide, ?_⟩
  · intro h
    unfold BEL_BPPSolve
    simp only
    rw [if_pos h]
  · intro h
    unfold BEL_BPPSolve
    simp only
    rw [if_neg h]
  · intro x hx
    have h1 : Feasible (bppProblem ((1 : Nat) : Int) 1 1 [2]) x := hx
    rw [feasible_bpp_iff] at h1
    exact no_packing_of_oversized 1 1 1 [2] x (by decide) (by decide) ⟨1, by decide⟩
      h1.1 h1.2.1 h1.2.2.1

/-- C3 (the code at the failing input). With total demand 16777217 and capacity 16777216 the
conversion to `float` rounds the total to 16777216, the quotient is 1 and
`BEL_VRPVehiclesLB` returns 1, while `ceil(16777217 / 16777216)` is 2. -/
theorem vehiclesLB_rounds_down :
    totalDemand roundedDownData = 16777217
      ∧ roundedDownData.capacity = 16777216
      ∧ f32OfInt 16777217 = f32OfInt 16777216
      ∧ BEL_VRPVehiclesLB roundedDownData = 1
      ∧ ⌈((totalDemand roundedDownData : Int) : ℚ) / (roundedDownData.capacity : ℚ)⌉ = 2 := by
  refine ⟨by decide, by decide, by decide, by decide, ?_⟩
  have h1 : totalDemand roundedDownData = 16777217 := by decide
  have h2 : roundedDownData.capacity = 16777216 := by decide
  rw [h1, h2, Int.ceil_eq_iff]
  constructor <;> norm_num

theorem Icc_one_two : Finset.Icc 1 2 = ({1, 2} : Finset Nat) := by decide

theorem Icc_one_three : Finset.Icc 1 3 = ({1, 2, 3} : Finset Nat) := by decide

theorem Icc_one_one : Finset.Icc 1 1 = ({1} : Finset Nat) := by decide

theorem no_packing_three_sixes (x : Nat → Int) :
    ¬ Feasible (bppProblem 2 10 3 [6, 6, 6]) x := by
  intro hx
  have h1 : Feasible (bppProblem ((2 : Nat) : Int) 10 3 [6, 6, 6]) x := hx
  rw [feasible_bpp_iff] at h1
  obtain ⟨hb, ha, hc, _, _⟩ := h1
  have a1 := ha 1 (by decide) (by decide)
  have a2 := ha 2 (by decide) (by decide)
  have a3 := ha 3 (by decide) (by decide)
  have c1 := hc 1 (by decide) (by decide)
  have c2 := hc 2 (by decide) (by decide)
  have b1 := hb 1 (by decide) (by decide)
  have b2 := hb 2 (by decide) (by decide)
  have b3 := hb 3 (by decide) (by decide)
  have b4 := hb 4 (by decide) (by decide)
  have b5 := hb 5 (by decide) (by decide)
  have b6 := hb 6 (by decide) (by decide)
  have b7 := hb 7 (by decide) (by decide)
  have b8 := hb 8 (by decide) (by decide)
  simp [Icc_one_two, Icc_one_three, xcol, ycol] at a1 a2 a3 c1 c2
  omega

theorem no_packing_two_sixes_one_bin (x : Nat → Int) :
    ¬ Feasible (bppProblem 1 10 2 [6, 6]) x := by
  intro hx
  have h1 : Feasible (bppProblem ((1 : Nat) : Int) 10 2 [6, 6]) x := hx
  rw [feasible_bpp_iff] at h1
  obtain ⟨hb, ha, hc, _, _⟩ := h1
  have a1 := ha 1 (by decide) (by decide)
  have a2 := ha 2 (by decide) (by decide)
  have c1 := hc 1 (by decide) (by decide)
  have b3 := hb 3 (by decide) (by decide)
  simp [Icc_one_two, Icc_one_one, xcol, ycol] at a1 a2 c1
  omega

/-- C2 (the code at the failing input). Three customers of demand 6 and capacity 10 can be
served by three vehicles and by no fewer, but `BEL_VRPProblemIsFeasible` offers only
`BEL_VRPVehiclesLB(data) = 2` bins: the rows are unsatisfiable and, with a sound solver, it
returns FALSE with `BEL_VRP_NOT_ENOUGH_VEHICLES` instead of TRUE with 3 vehicles. -/
theorem three_sixes_rejected (solver : MipProblem → MipResult) (e : Int)
    (hsound : SolverSound solver
      (bppProblem (BEL_VRPVehiclesLB threeSixesData) threeSixesData.capacity
        threeSixesData.ncustomers (customerVolumes threeSixesData))) :
    (∀ v ∈ customerVolumes threeSixesData, 0 < v ∧ v ≤ threeSixesData.capacity)
      ∧ BEL_VRPVehiclesLB threeSixesData = 2
      ∧ Feasible (bppProblem 3 10 3 [6, 6, 6]) threeBinsPacking
      ∧ binsUsed 3 3 threeBinsPacking = 3
      ∧ (∀ x, ¬ Feasible (bppProblem 2 10 3 [6, 6, 6]) x)
      ∧ BEL_VRPProblemIsFeasible solver NamePointer.writable (some threeSixesData) e
          = some ⟨false, some threeSixesData, BEL_VRP_NOT_ENOUGH_VEHICLES⟩ := by
  have hlb : BEL_VRPVehiclesLB threeSixesData = 2 := by decide
  have hst : ¬ ((solver (bppProblem (BEL_VRPVehiclesLB threeSixesData) threeSixesData.capacity
        threeSixesData.ncustomers (customerVolumes threeSixesData))).status = MipStatus.I_OPT
      ∨ (solver (bppProblem (BEL_VRPVehiclesLB threeSixesData) threeSixesData.capacity
        threeSixesData.ncustomers (customerVolumes threeSixesData))).status
          = MipStatus.I_FEAS) := by
    intro h
    obtain ⟨hf, _⟩ := hsound h
    rw [hlb] at hf
    exact no_packing_three_sixes _ hf
  rw [feasible_call_eq, if_pos (by decide), if_neg hst]
  exact ⟨by decide, hlb, by decide, by decide, no_packing_three_sixes, rfl⟩

theorem three_sixes_rejected_witness :
    SolverSound rejectingSolver
        (bppProblem (BEL_VRPVehiclesLB threeSixesData) threeSixesData.capacity
          threeSixesData.ncustomers (customerVolumes threeSixesData))
      ∧ ((∀ v ∈ customerVolumes threeSixesData, 0 < v ∧ v ≤ threeSixesData.capacity)
          ∧ BEL_VRPVehiclesLB threeSixesData = 2
          ∧ Feasible (bppProblem 3 10 3 [6, 6, 6]) threeBinsPacking
          ∧ binsUsed 3 3 threeBinsPacking = 3
          ∧ (∀ x, ¬ Feasible (bppProblem 2 10 3 [6, 6, 6]) x)
          ∧ BEL_VRPProblemIsFeasible rejectingSolver NamePointer.writable
                (some threeSixesData) 0
              = some ⟨false, some threeSixesData, BEL_VRP_NOT_ENOUGH_VEHICLES⟩) :=
  ⟨by decide, three_sixes_rejected rejectingSolver 0 (by decide)⟩

/-- C6 (the code at the failing input, and in general). The supplied fleet size is never read:
the returned value does not depend on `data->nvehicles`, and on `suppliedFleetData` (fleet
size 1, two bins required) the call returns TRUE and overwrites the fleet size with 2. -/
theorem supplied_fleet_size_ignored :
    (∀ (solver : MipProblem → MipResult) (s : NamePointer) (d : BEL_VRPData) (n e : Int),
        (BEL_VRPProblemIsFeasible solver s (some { d with nvehicles := n }) e).map
            FeasResult.ret
          = (BEL_VRPProblemIsFeasible solver s (some d) e).map FeasResult.ret)
      ∧ suppliedFleetData.nvehicles = 1
      ∧ (∀ x, ¬ Feasible (bppProblem 1 10 2 [6, 6]) x)
      ∧ SolverSound twoBinsSolver
          (bppProblem (BEL_VRPVehiclesLB suppliedFleetData) suppliedFleetData.capacity
            suppliedFleetData.ncustomers (customerVolumes suppliedFleetData))
      ∧ BEL_VRPProblemIsFeasible twoBinsSolver NamePointer.writable (some suppliedFleetData) 0
          = some ⟨true, some { suppliedFleetData with nvehicles := 2 }, 0⟩ := by
  refine ⟨?_, by decide, no_packing_two_sixes_one_bin, by decide, by decide⟩
  intro solver s d n e
  rw [feasible_call_eq, feasible_call_eq]
  have h1 : BEL_VRPVehiclesLB { d with nvehicles := n } = BEL_VRPVehiclesLB d := rfl
  have h2 : customerVolumes { d with nvehicles := n } = customerVolumes d := rfl
  have h3 : feasibilityCallDefined s { d with nvehicles := n } ↔ feasibilityCallDefined s d :=
    Iff.rfl
  simp only [h1, h2, h3]
  split_ifs <;> rfl

theorem xcol_div (bins i j : Nat) (hi : 1 ≤ i) (hj1 : 1 ≤ j) (hj : j ≤ bins) :
    (xcol bins i j - 1) / bins + 1 = i := by
  unfold xcol
  have hb : 0 < bins := by omega
  have : (i - 1) * bins + j - 1 = (j - 1) + (i - 1) * bins := by omega
  rw [this, Nat.add_mul_div_right _ _ hb, Nat.div_eq_of_lt (by omega)]
  omega

theorem xcol_mod (bins i j : Nat) (hj1 : 1 ≤ j) (hj : j ≤ bins) :
    (xcol bins i j - 1) % bins + 1 = j := by
  unfold xcol
  have : (i - 1) * bins + j - 1 = (j - 1) + (i - 1) * bins := by omega
  rw [this, Nat.add_mul_mod_self_right, Nat.mod_eq_of_lt (by omega)]
  omega

theorem renumberBins_xcol (bins items : Nat) (τ : Nat → Nat) (x : Nat → Int) (i j : Nat)
    (hi1 : 1 ≤ i) (hi : i ≤ items) (hj1 : 1 ≤ j) (hj : j ≤ bins) :
    renumberBins bins items τ x (xcol bins i j) = x (xcol bins i (τ j)) := by
  unfold renumberBins
  rw [if_pos (xcol_le bins items i j hi1 hi hj), xcol_div bins i j hi1 hj1 hj,
    xcol_mod bins i j hj1 hj]

theorem renumberBins_ycol (bins items : Nat) (τ : Nat → Nat) (x : Nat → Int) (j : Nat)
    (hj1 : 1 ≤ j) (hj : j ≤ bins) :
    renumberBins bins items τ x (ycol bins items j) = x (ycol bins items (τ j)) := by
  unfold renumberBins
  have h1 : ¬ ycol bins items j ≤ items * bins := by unfold ycol; omega
  have h2 : ycol bins items j ≤ (items + 1) * bins := by unfold ycol; rw [Nat.add_mul]; omega
  have h3 : ycol bins items j - items * bins = j := by unfold ycol; omega
  rw [if_neg h1, if_pos h2, h3]

theorem sum_Icc_eq_sum_fin (n : Nat) (h : Nat → Int) :
    ∑ j ∈ Finset.Icc 1 n, h j = ∑ a : Fin n, h (a.val + 1) := by
  rw [← Finset.sum_range (fun i => h (i + 1))]
  induction n with
  | zero => simp
  | succ n ih => rw [Finset.sum_Icc_succ_top (by omega), Finset.sum_range_succ, ih]

/-- A renumbering of the bins `1 .. n` that puts the used bins first. -/
theorem exists_sorting_renumbering (n : Nat) (y : Nat → Int) :
    ∃ τ : Nat → Nat,
      (∀ j, 1 ≤ j → j ≤ n → 1 ≤ τ j ∧ τ j ≤ n)
      ∧ (∀ g : Nat → Int, ∑ j ∈ Finset.Icc 1 n, g (τ j) = ∑ j ∈ Finset.Icc 1 n, g j)
      ∧ (∀ j, 1 ≤ j → j < n → y (τ (j + 1)) ≤ y (τ j)) := by
  let f : Fin n → Int := fun a => - y (a.val + 1)
  let σ : Equiv.Perm (Fin n) := Tuple.sort f
  have hmono : Monotone (f ∘ σ) := Tuple.monotone_sort f
  let τ : Nat → Nat := fun j => if h : 1 ≤ j ∧ j ≤ n then (σ ⟨j - 1, by omega⟩).val + 1 else j
  have hτ : ∀ a : Fin n, τ (a.val + 1) = (σ a).val + 1 := by
    intro a
    have h : 1 ≤ a.val + 1 ∧ a.val + 1 ≤ n := ⟨by omega, a.isLt⟩
    simp only [τ, dif_pos h, Nat.add_sub_cancel]
  refine ⟨τ, ?_, ?_, ?_⟩
  · intro j h1 h2
    have := hτ ⟨j - 1, by omega⟩
    simp only at this
    rw [show j - 1 + 1 = j by omega] at this
    rw [this]
    exact ⟨by omega, (σ ⟨j - 1, by omega⟩).isLt⟩
  · intro g
    rw [sum_Icc_eq_sum_fin, sum_Icc_eq_sum_fin]
    simp only [hτ]
    exact Equiv.sum_comp σ (fun b : Fin n => g (b.val + 1))
  · intro j h1 h2
    have ha := hτ ⟨j - 1, by omega⟩
    have hb := hτ ⟨j, by omega⟩
    simp only at ha hb
    rw [show j - 1 + 1 = j by omega] at ha
    rw [ha, hb]
    have hle : (⟨j - 1, by omega⟩ : Fin n) ≤ ⟨j, by omega⟩ := by
      rw [Fin.mk_le_mk]; omega
    have := hmono hle
    simp only [Function.comp, f] at this
    omega

/-- Positive volumes force constraint (4): an item can only sit in a used bin. -/
theorem link_of_positive_volumes (bins : Nat) (capacity : Int) (items : Nat)
    (volume : List Int) (x : Nat → Int)
    (hpos : ∀ i, 1 ≤ i → i ≤ items → 0 < volume.getD (i - 1) 0)
    (hb : BppBinary bins items x) (hc : BppCapacity bins capacity items volume x) :
    BppLink bins items x := by
  intro i j hi1 hi hj1 hj
  rcases xcol_binary bins items x hb i j hi1 hi hj1 hj with h0 | h1
  · rcases ycol_binary bins items x hb j hj1 hj with h2 | h2 <;> omega
  · have hl := volume_le_load bins items volume x hb (fun k hk1 hk => (hpos k hk1 hk).le)
      i j hi1 hi hj1 hj h1
    have hcj := hc j hj1 hj
    have hp := hpos i hi1 hi
    rcases ycol_binary bins items x hb j hj1 hj with h2 | h2
    · rw [h2] at hcj
      omega
    · omega

/-- A point of the assignment and capacity rows can be renumbered into a point of all rows
that uses the same number of bins, when all volumes are positive. -/
theorem full_rows_of_first_rows (bins : Nat) (capacity : Int) (items : Nat)
    (volume : List Int) (x : Nat → Int)
    (hpos : ∀ i, 1 ≤ i → i ≤ items → 0 < volume.getD (i - 1) 0)
    (hb : BppBinary bins items x) (ha : BppAssign bins items x)
    (hc : BppCapacity bins capacity items volume x) :
    ∃ x', Feasible (bppProblem bins capacity items volume) x'
      ∧ binsUsed bins items x' = binsUsed bins items x := by
  obtain ⟨τ, hrange, hsum, hsorted⟩ :=
    exists_sorting_renumbering bins (fun j => x (ycol bins items j))
  refine ⟨renumberBins bins items τ x, ?_, ?_⟩
  · have hb' : BppBinary bins items (renumberBins bins items τ x) := by
      intro c hc1 hc2
      unfold renumberBins
      by_cases h1 : c ≤ items * bins
      · rw [if_pos h1]
        have hbins : 0 < bins := by
          rcases Nat.eq_zero_or_pos bins with h0 | h0
          · subst h0; simp at h1; omega
          · exact h0
        have hdiv : (c - 1) / bins < items := by
          apply Nat.div_lt_of_lt_mul
          rw [Nat.mul_comm]; omega
        have hmod : (c - 1) % bins < bins := Nat.mod_lt _ hbins
        have hr := hrange ((c - 1) % bins + 1) (by omega) (by omega)
        exact xcol_binary bins items x hb _ _ (Nat.le_add_left 1 _) (by omega) hr.1 hr.2
      · rw [if_neg h1, if_pos hc2]
        have h3 : c - items * bins ≤ bins := by rw [Nat.add_mul] at hc2; omega
        have hr := hrange (c - items * bins) (by omega) h3
        exact ycol_binary bins items x hb _ hr.1 hr.2
    have ha' : BppAssign bins items (renumberBins bins items τ x) := by
      intro i hi1 hi
      rw [← ha i hi1 hi, ← hsum (fun j => x (xcol bins i j))]
      apply Finset.sum_congr rfl
      intro j hj
      rw [Finset.mem_Icc] at hj
      exact renumberBins_xcol bins items τ x i j hi1 hi hj.1 hj.2
    have hc' : BppCapacity bins capacity items volume (renumberBins bins items τ x) := by
      intro j hj1 hj
      have hr := hrange j hj1 hj
      rw [renumberBins_ycol bins items τ x j hj1 hj]
      have := hc (τ j) hr.1 hr.2
      have e : ∑ i ∈ Finset.Icc 1 items,
            volume.getD (i - 1) 0 * renumberBins bins items τ x (xcol bins i j)
          = ∑ i ∈ Finset.Icc 1 items, volume.getD (i - 1) 0 * x (xcol bins i (τ j)) := by
        apply Finset.sum_congr rfl
        intro i hi
        rw [Finset.mem_Icc] at hi
        rw [renumberBins_xcol bins items τ x i j hi.1 hi.2 hj1 hj]
      rw [e]
      exact this
    have ho' : BppOrder bins items (renumberBins bins items τ x) := by
      intro j hj1 hj
      rw [renumberBins_ycol bins items τ x j hj1 (by omega),
        renumberBins_ycol bins items τ x (j + 1) (by omega) (by omega)]
      exact hsorted j hj1 hj
    rw [feasible_bpp_iff]
    exact ⟨hb', ha', hc', link_of_positive_volumes bins capacity items volume _ hpos hb' hc', ho'⟩
  · unfold binsUsed
    rw [← hsum (fun j => x (ycol bins items j))]
    apply Finset.sum_congr rfl
    intro j hj
    rw [Finset.mem_Icc] at hj
    exact renumberBins_ycol bins items τ x j hj.1 hj.2

theorem binsUsed_nonneg (bins items : Nat) (x : Nat → Int) (hb : BppBinary bins items x) :
    0 ≤ binsUsed bins items x := by
  unfold binsUsed
  apply Finset.sum_nonneg
  intro j hj
  rw [Finset.mem_Icc] at hj
  rcases ycol_binary bins items x hb j hj.1 hj.2 with h | h <;> omega

/-- The objective values attainable under all rows and under the assignment and capacity rows
alone coincide when all volumes are positive. -/
theorem attainable_bins_iff (bins : Nat) (capacity : Int) (items : Nat) (volume : List Int)
    (hpos : ∀ i, 1 ≤ i → i ≤ items → 0 < volume.getD (i - 1) 0) (k : Int) :
    (∃ x, Feasible (bppProblem bins capacity items volume) x ∧ binsUsed bins items x = k)
      ↔ (∃ x, ColsOk (bppProblem bins capacity items volume) x
            ∧ FirstRowsOk (bppProblem bins capacity items volume) (items + bins) x
            ∧ binsUsed bins items x = k) := by
  constructor
  · rintro ⟨x, hx, hk⟩
    refine ⟨x, hx.1, ?_, hk⟩
    rw [feasible_bpp_iff] at hx
    rw [firstRowsOk_bpp_iff]
    exact ⟨hx.2.1, hx.2.2.1⟩
  · rintro ⟨x, hcols, hrows, hk⟩
    rw [colsOk_bpp_iff] at hcols
    rw [firstRowsOk_bpp_iff] at hrows
    obtain ⟨x', hx', hu⟩ :=
      full_rows_of_first_rows bins capacity items volume x hpos hcols hrows.1 hrows.2
    exact ⟨x', hx', by rw [hu, hk]⟩

/-- C9 (as stated, refuted). One item of volume 0, one bin of capacity 5: the assignment and
capacity rows alone admit `zeroVolumePoint`, which uses 0 bins, while every 0/1 solution of
the full row set uses 1 bin; the two minima are 0 and 1. -/
theorem symmetry_rows_change_minimum :
    ColsOk (bppProblem 1 5 1 [0]) zeroVolumePoint
      ∧ FirstRowsOk (bppProblem 1 5 1 [0]) (1 + 1) zeroVolumePoint
      ∧ binsUsed 1 1 zeroVolumePoint = 0
      ∧ Feasible (bppProblem 1 5 1 [0]) oneBinPoint
      ∧ (∀ x, Feasible (bppProblem 1 5 1 [0]) x → binsUsed 1 1 x = 1)
      ∧ IsLeast {k | ∃ x, Feasible (bppProblem 1 5 1 [0]) x ∧ binsUsed 1 1 x = k} 1
      ∧ IsLeast {k | ∃ x, ColsOk (bppProblem 1 5 1 [0]) x
            ∧ FirstRowsOk (bppProblem 1 5 1 [0]) (1 + 1) x ∧ binsUsed 1 1 x = k} 0 := by
  have hall : ∀ x, Feasible (bppProblem 1 5 1 [0]) x → binsUsed 1 1 x = 1 := by
    intro x hx
    have h1 : Feasible (bppProblem ((1 : Nat) : Int) 5 1 [0]) x := hx
    rw [feasible_bpp_iff] at h1
    obtain ⟨hb, ha, _, hl, _⟩ := h1
    have a1 := ha 1 (by decide) (by decide)
    have l1 := hl 1 1 (by decide) (by decide) (by decide) (by decide)
    have b2 := hb 2 (by decide) (by decide)
    simp [Icc_one_one, xcol, ycol] at a1 l1
    simp [binsUsed, Icc_one_one, ycol]
    omega
  refine ⟨by decide, by decide, by decide, by decide, hall, ⟨⟨oneBinPoint, by decide, by decide⟩, ?_⟩,
    ⟨⟨zeroVolumePoint, by decide, by decide, by decide⟩, ?_⟩⟩
  · rintro k ⟨x, hx, rfl⟩
    rw [hall x hx]
  · rintro k ⟨x, hcols, _, rfl⟩
    have h1 : ColsOk (bppProblem ((1 : Nat) : Int) 5 1 [0]) x := hcols
    rw [colsOk_bpp_iff] at h1
    exact binsUsed_nonneg 1 1 x h1

/-- C9 (amended). When every item has positive volume, the full row set built by
`BEL_BPPSolve` admits a 0/1 solution exactly when the assignment and capacity rows alone do,
and the minimum of `sum_j y[j]` over the 0/1 solutions is the same for both row sets. -/
theorem symmetry_rows_keep_minimum (bins : Nat) (capacity : Int) (items : Nat)
    (volume : List Int) (hpos : ∀ i, 1 ≤ i → i ≤ items → 0 < volume.getD (i - 1) 0) :
    ((∃ x, Feasible (bppProblem bins capacity items volume) x)
        ↔ (∃ x, ColsOk (bppProblem bins capacity items volume) x
              ∧ FirstRowsOk (bppProblem bins capacity items volume) (items + bins) x))
      ∧ (∀ m, IsLeast {k | ∃ x, Feasible (bppProblem bins capacity items volume) x
                  ∧ binsUsed bins items x = k} m
            ↔ IsLeast {k | ∃ x, ColsOk (bppProblem bins capacity items volume) x
                  ∧ FirstRowsOk (bppProblem bins capacity items volume) (items + bins) x
                  ∧ binsUsed bins items x = k} m) := by
  constructor
  · constructor
    · rintro ⟨x, hx⟩
      obtain ⟨y, hy1, hy2, _⟩ :=
        (attainable_bins_iff bins capacity items volume hpos _).mp ⟨x, hx, rfl⟩
      exact ⟨y, hy1, hy2⟩
    · rintro ⟨x, hx1, hx2⟩
      obtain ⟨y, hy, _⟩ :=
        (attainable_bins_iff bins capacity items volume hpos _).mpr ⟨x, hx1, hx2, rfl⟩
      exact ⟨y, hy⟩
  · intro m
    have hset : {k | ∃ x, Feasible (bppProblem bins capacity items volume) x
          ∧ binsUsed bins items x = k}
        = {k | ∃ x, ColsOk (bppProblem bins capacity items volume) x
          ∧ FirstRowsOk (bppProblem bins capacity items volume) (items + bins) x
          ∧ binsUsed bins items x = k} := by
      ext k
      exact attainable_bins_iff bins capacity items volume hpos k
    rw [hset]

theorem symmetry_rows_keep_minimum_witness :
    (∀ i, 1 ≤ i → i ≤ 2 → 0 < [(6 : Int), 6].getD (i - 1) 0)
      ∧ (((∃ x, Feasible (bppProblem (2 : Nat) 10 2 [6, 6]) x)
            ↔ (∃ x, ColsOk (bppProblem (2 : Nat) 10 2 [6, 6]) x
                  ∧ FirstRowsOk (bppProblem (2 : Nat) 10 2 [6, 6]) (2 + 2) x))
          ∧ (∀ m, IsLeast {k | ∃ x, Feasible (bppProblem (2 : Nat) 10 2 [6, 6]) x
                      ∧ binsUsed 2 2 x = k} m
                ↔ IsLeast {k | ∃ x, ColsOk (bppProblem (2 : Nat) 10 2 [6, 6]) x
                      ∧ FirstRowsOk (bppProblem (2 : Nat) 10 2 [6, 6]) (2 + 2) x
                      ∧ binsUsed 2 2 x = k} m)) :=
  have hpos : ∀ i, 1 ≤ i → i ≤ 2 → 0 < [(6 : Int), 6].getD (i - 1) 0 := by
    intro i h1 h2
    interval_cases i <;> decide
  ⟨hpos, symmetry_rows_keep_minimum 2 10 2 [6, 6] hpos⟩

theorem sum_customerVolumes (d : BEL_VRPData) :
    (customerVolumes d).sum
      = ∑ i ∈ Finset.range d.dimension,
          if d.isadepot.getD i 0 = 0 then d.demand.getD i 0 else 0 := by
  unfold customerVolumes
  induction d.dimension with
  | zero => simp
  | succ n ih =>
    rw [List.range_succ, List.filterMap_append, List.sum_append, ih, Finset.sum_range_succ]
    congr 1
    by_cases h : d.isadepot.getD n 0 = 0
    · rw [List.filterMap_cons, if_pos h, if_pos h]
      simp
    · rw [List.filterMap_cons, if_neg h, if_neg h]
      simp

theorem forStep_cclp (items i : Nat) (h1 : 1 ≤ i) (h2 : i ≤ items) :
    forStep i (i + items * (items - 1)) items = List.range' i items items := by
  have hb : items ≠ 0 := by omega
  have e : i + items * (items - 1) + items - i = items * items := by
    obtain ⟨k, rfl⟩ : ∃ k, items = k + 1 := ⟨items - 1, by omega⟩
    rw [Nat.add_sub_cancel, Nat.mul_succ]
    omega
  rw [forStep, if_neg hb, e, Nat.mul_div_cancel _ (by omega)]

theorem cclpMatrixCapacity_eq (items : Nat) (weight : List Int) (capacity : Int) (row : Nat) :
    cclpMatrixCapacity items weight capacity row = bppMatrix3 items capacity items weight row := by
  unfold cclpMatrixCapacity bppMatrix3
  apply List.flatMap_congr
  intro i hi
  rw [forIncl_one, List.mem_range'_1] at hi
  rw [forStep_cclp items i hi.1 (by omega), forStep_block items items i hi.1 (by omega),
    Nat.add_comm i (items * items)]

theorem cclpMatrixAssign_eq (items row : Nat) :
    cclpMatrixAssign items row = bppMatrix2 items items row := rfl

theorem cclpMatrixLink_eq (items row : Nat) :
    cclpMatrixLink items row = bppMatrix4 items items row := rfl

theorem rowActivity_cclpMatrixSeeds (items : Nat) (x : Nat → Int) (r : Nat) :
    rowActivity (cclpMatrixSeeds items 0) x r
      = if 1 = r then ∑ j ∈ Finset.Icc 1 items, x (ycol items items j) else 0 := by
  unfold cclpMatrixSeeds
  rw [rowActivity_map, forIncl_one, sum_range'_step_eq_sum_Icc]
  by_cases h : 1 = r
  · rw [if_pos h, if_pos h]
    apply Finset.sum_congr rfl
    intro j hj
    rw [Finset.mem_Icc] at hj
    have : 1 + 1 * (j - 1) + items * items + 0 = ycol items items j := by unfold ycol; omega
    rw [this, one_mul]
  · rw [if_neg h, if_neg h]

theorem rowActivity_cclpMatrix (items : Nat) (weight : List Int) (capacity : Int)
    (x : Nat → Int) (r : Nat) :
    rowActivity (cclpMatrix items weight capacity) x r
      = rowActivity (cclpMatrixSeeds items 0) x r
        + rowActivity (bppMatrix3 items capacity items weight (0 + 1)) x r
        + rowActivity (bppMatrix2 items items (0 + 1 + items)) x r
        + rowActivity (bppMatrix4 items items (0 + 1 + items + items)) x r := by
  unfold cclpMatrix
  simp only [rowActivity_append, cclpMatrixCapacity_eq, cclpMatrixAssign_eq, cclpMatrixLink_eq]

theorem rowActivity_cclp_seeds (items : Nat) (weight : List Int) (capacity : Int)
    (x : Nat → Int) :
    rowActivity (cclpMatrix items weight capacity) x 1
      = ∑ j ∈ Finset.Icc 1 items, x (ycol items items j) := by
  rw [rowActivity_cclpMatrix, rowActivity_cclpMatrixSeeds, rowActivity_bppMatrix3,
    rowActivity_bppMatrix2, rowActivity_bppMatrix4]
  rw [if_pos rfl, if_neg (by omega), if_neg (by omega), if_neg (by omega)]
  simp

theorem rowActivity_cclp_capacity (items : Nat) (weight : List Int) (capacity : Int)
    (x : Nat → Int) (j : Nat) (h1 : 1 ≤ j) (h2 : j ≤ items) :
    rowActivity (cclpMatrix items weight capacity) x (j + 1)
      = (∑ i ∈ Finset.Icc 1 items, weight.getD (i - 1) 0 * x (xcol items i j))
          - capacity * x (ycol items items j) := by
  rw [rowActivity_cclpMatrix, rowActivity_cclpMatrixSeeds, rowActivity_bppMatrix3,
    rowActivity_bppMatrix2, rowActivity_bppMatrix4]
  rw [if_neg (by omega), if_pos (by omega), if_neg (by omega), if_neg (by omega)]
  have : j + 1 - (0 + 1) = j := by omega
  rw [this]
  ring

theorem rowActivity_cclp_assign (items : Nat) (weight : List Int) (capacity : Int)
    (x : Nat → Int) (i : Nat) (h1 : 1 ≤ i) (h2 : i ≤ items) :
    rowActivity (cclpMatrix items weight capacity) x (i + (1 + items))
      = ∑ j ∈ Finset.Icc 1 items, x (xcol items i j) := by
  rw [rowActivity_cclpMatrix, rowActivity_cclpMatrixSeeds, rowActivity_bppMatrix3,
    rowActivity_bppMatrix2, rowActivity_bppMatrix4]
  rw [if_neg (by omega), if_neg (by omega), if_pos (by omega), if_neg (by omega)]
  have : i + (1 + items) - (0 + 1 + items) = i := by omega
  rw [this]
  simp

theorem rowActivity_cclp_link (items : Nat) (weight : List Int) (capacity : Int)
    (x : Nat → Int) (i j : Nat) (hi1 : 1 ≤ i) (hi2 : i ≤ items) (h1 : 1 ≤ j) (h2 : j ≤ items) :
    rowActivity (cclpMatrix items weight capacity) x (j + (1 + items + items + (i - 1) * items))
      = x (xcol items i j) - x (ycol items items j) := by
  have hle := xcol_le items items i j hi1 hi2 h2
  unfold xcol at hle
  rw [rowActivity_cclpMatrix, rowActivity_cclpMatrixSeeds, rowActivity_bppMatrix3,
    rowActivity_bppMatrix2, rowActivity_bppMatrix4]
  rw [if_neg (by omega), if_neg (by omega), if_neg (by omega), if_pos (by omega)]
  have e1 : j + (1 + items + items + (i - 1) * items) - (0 + 1 + items + items)
      = xcol items i j := by unfold xcol; omega
  have e2 : (xcol items i j - 1) % items = j - 1 := by
    have := xcol_mod items i j h1 h2
    omega
  have e3 : items * items + (j - 1) + 1 = ycol items items j := by unfold ycol; omega
  rw [e1, e2, e3]
  ring
theorem f32IntValue_exact (z : Int) (h0 : 0 ≤ z) (h : z < 16777216) : f32IntValue z = z := by
  unfold f32IntValue
  rcases eq_or_lt_of_le h0 with hz | hz
  · subst hz
    decide
  · obtain ⟨t, rfl⟩ : ∃ t : Nat, z = (t : Int) := ⟨z.toNat, (Int.toNat_of_nonneg h0).symm⟩
    obtain ⟨s, hs⟩ := f32OfInt_exact t (by omega) (by norm_num; omega)
    rw [hs]
    unfold f32Ceil
    simp only
    by_cases hs0 : (0 : Int) ≤ -(s : Int)
    · have : s = 0 := by omega
      subst this
      rw [if_pos hs0]
      simp
    · rw [if_neg hs0]
      have e1 : (-(-(s : Int))).toNat = s := by omega
      rw [e1]
      have e2 : -(((t * 2 ^ s : Nat)) : Int) = (-(t : Int)) * (2 : Int) ^ s := by
        push_cast
        ring
      rw [e2, Int.mul_ediv_cancel _ (by positivity)]
      omega

theorem f32IntValue_neg (z : Int) (h : z < 0) : f32IntValue z < 0 := by
  have hab : 0 < z.natAbs := by omega
  obtain ⟨hA, hB, -⟩ := f32Round_spec z.natAbs 1 hab (by norm_num)
  simp only [Nat.cast_one, div_one] at hA hB
  have h223 : (2 : ℚ) ^ (23 : ℕ) = 8388608 := by norm_num
  rw [h223] at hA
  have hm : 1 ≤ (f32Round z.natAbs 1).1 := by
    have : (1 : ℚ) ≤ (((f32Round z.natAbs 1).1 : Nat) : ℚ) + 1 / 2 := by linarith
    have h2 : ((1 : Nat) : ℚ) < (((f32Round z.natAbs 1).1 + 1 : Nat) : ℚ) := by
      push_cast
      linarith
    have h3 : 1 < (f32Round z.natAbs 1).1 + 1 := by exact_mod_cast h2
    omega
  have hne : z ≠ 0 := by omega
  have hsign : z.sign = -1 := Int.sign_eq_neg_one_of_neg h
  unfold f32IntValue f32OfInt f32Ceil
  rw [if_neg hne, hsign]
  simp only
  by_cases he : 0 ≤ (f32Round z.natAbs 1).2
  · rw [if_pos he]
    have hp : (0 : Int) < 2 ^ (f32Round z.natAbs 1).2.toNat := by positivity
    have hm2 : (0 : Int) < ((f32Round z.natAbs 1).1 : Int) := by omega
    nlinarith
  · rw [if_neg he]
    obtain ⟨k, hk⟩ : ∃ k : Nat, -(f32Round z.natAbs 1).2 = (k : Int) :=
      ⟨_, (Int.toNat_of_nonneg (by omega)).symm⟩
    rw [hk, zpow_natCast] at hB
    rw [hk, Int.toNat_ofNat]
    have haq : (1 : ℚ) ≤ (z.natAbs : ℚ) := by exact_mod_cast hab
    have hkq : (0 : ℚ) < (2 : ℚ) ^ k := by positivity
    have h1 : (2 : ℚ) ^ k ≤ ((f32Round z.natAbs 1).1 : ℚ) + 1 / 2 := by nlinarith
    have h2 : ((2 * 2 ^ k : Nat) : ℚ) ≤ ((2 * (f32Round z.natAbs 1).1 + 1 : Nat) : ℚ) := by
      push_cast
      linarith
    have h3 : 2 * 2 ^ k ≤ 2 * (f32Round z.natAbs 1).1 + 1 := by exact_mod_cast h2
    have h4 : 2 ^ k ≤ (f32Round z.natAbs 1).1 := by omega
    have h5 : 1 ≤ (f32Round z.natAbs 1).1 / 2 ^ k :=
      (Nat.one_le_div_iff (by positivity)).mpr h4
    have h6 : ((1 : Nat) : Int) ≤ (((f32Round z.natAbs 1).1 / 2 ^ k : Nat) : Int) := by
      exact_mod_cast h5
    push_cast at h6
    simp only [neg_mul, one_mul, neg_neg]
    omega

theorem sum_binary_eq_card (s : Finset Nat) (f : Nat → Int) (h : ∀ j ∈ s, f j = 0 ∨ f j = 1) :
    ∑ j ∈ s, f j = ((s.filter (fun j => f j = 1)).card : Int) := by
  rw [Finset.card_filter]
  push_cast
  apply Finset.sum_congr rfl
  intro j hj
  rcases h j hj with h0 | h1
  · rw [h0]; simp
  · rw [h1]; simp

theorem sum_mul_binary (s : Finset Nat) (w f : Nat → Int) (h : ∀ j ∈ s, f j = 0 ∨ f j = 1) :
    ∑ i ∈ s, w i * f i = ∑ i ∈ s.filter (fun i => f i = 1), w i := by
  rw [Finset.sum_filter]
  apply Finset.sum_congr rfl
  intro j hj
  rcases h j hj with h0 | h1
  · rw [h0]; simp
  · rw [h1]; simp

theorem sum_binary_eq_one_iff (n : Nat) (f : Nat → Int)
    (h : ∀ j ∈ Finset.Icc 1 n, f j = 0 ∨ f j = 1) :
    ∑ j ∈ Finset.Icc 1 n, f j = 1 ↔ ∃! j, (1 ≤ j ∧ j ≤ n) ∧ f j = 1 := by
  rw [sum_binary_eq_card _ _ h]
  have : (((Finset.Icc 1 n).filter (fun j => f j = 1)).card : Int) = 1
      ↔ ((Finset.Icc 1 n).filter (fun j => f j = 1)).card = 1 := by omega
  rw [this, Finset.card_eq_one]
  constructor
  · rintro ⟨a, ha⟩
    refine ⟨a, ?_, ?_⟩
    · have : a ∈ (Finset.Icc 1 n).filter (fun j => f j = 1) := by rw [ha]; simp
      rw [Finset.mem_filter, Finset.mem_Icc] at this
      exact this
    · intro b hb
      have : b ∈ (Finset.Icc 1 n).filter (fun j => f j = 1) := by
        rw [Finset.mem_filter, Finset.mem_Icc]; exact hb
      rw [ha] at this
      simpa using this
  · rintro ⟨a, ha, huniq⟩
    refine ⟨a, ?_⟩
    ext b
    rw [Finset.mem_filter, Finset.mem_Icc, Finset.mem_singleton]
    constructor
    · intro hb
      exact huniq b hb
    · rintro rfl
      exact ha
theorem cclp_rows_seeds_iff (items : Nat) (cost : List (List Int)) (weight : List Int)
    (seeds : Int) (seed_cost : List Int) (capacity : Int) (x : Nat → Int) :
    (∀ rb ∈ [(1, RowBnd.fx (f32IntValue (MIN seeds items)))],
        RowOk (cclpProblem items cost weight seeds seed_cost capacity) x rb)
      ↔ binsUsed items items x = f32IntValue (MIN seeds items) := by
  simp only [List.mem_singleton, forall_eq, RowOk, cclpProblem, RowBnd.Holds,
    rowActivity_cclp_seeds, binsUsed]

theorem cclp_rows_capacity_iff (items : Nat) (cost : List (List Int)) (weight : List Int)
    (seeds : Int) (seed_cost : List Int) (capacity : Int) (x : Nat → Int) :
    (∀ rb ∈ (forIncl 1 items).map (fun i => (i + 1, RowBnd.up 0)),
        RowOk (cclpProblem items cost weight seeds seed_cost capacity) x rb)
      ↔ BppCapacity items capacity items weight x := by
  simp only [List.forall_mem_map, forIncl_one, List.mem_range'_1, RowOk, cclpProblem,
    RowBnd.Holds, BppCapacity]
  constructor
  · intro h j h1 h2
    have := h j ⟨h1, by omega⟩
    rw [rowActivity_cclp_capacity items weight capacity x j h1 h2] at this
    linarith
  · intro h j hj
    rw [rowActivity_cclp_capacity items weight capacity x j hj.1 (by omega)]
    have := h j hj.1 (by omega)
    linarith

theorem cclp_rows_assign_iff (items : Nat) (cost : List (List Int)) (weight : List Int)
    (seeds : Int) (seed_cost : List Int) (capacity : Int) (x : Nat → Int) :
    (∀ rb ∈ (forIncl 1 items).map (fun i => (i + (1 + items), RowBnd.fx 1)),
        RowOk (cclpProblem items cost weight seeds seed_cost capacity) x rb)
      ↔ BppAssign items items x := by
  simp only [List.forall_mem_map, forIncl_one, List.mem_range'_1, RowOk, cclpProblem,
    RowBnd.Holds, BppAssign]
  constructor
  · intro h i h1 h2
    rw [← rowActivity_cclp_assign items weight capacity x i h1 h2]
    exact h i ⟨h1, by omega⟩
  · intro h i hi
    rw [rowActivity_cclp_assign items weight capacity x i hi.1 (by omega)]
    exact h i hi.1 (by omega)

theorem cclp_rows_link_iff (items : Nat) (cost : List (List Int)) (weight : List Int)
    (seeds : Int) (seed_cost : List Int) (capacity : Int) (x : Nat → Int) :
    (∀ rb ∈ (forIncl 1 items).flatMap (fun i =>
          (forIncl 1 items).map (fun j => (j + (1 + items + items + (i - 1) * items), RowBnd.up 0))),
        RowOk (cclpProblem items cost weight seeds seed_cost capacity) x rb)
      ↔ BppLink items items x := by
  simp only [List.mem_flatMap, List.mem_map, forIncl_one, List.mem_range'_1, RowOk, cclpProblem,
    BppLink]
  constructor
  · intro h i j hi1 hi2 hj1 hj2
    have := h _ ⟨i, ⟨hi1, by omega⟩, j, ⟨hj1, by omega⟩, rfl⟩
    simp only [RowBnd.Holds] at this
    rw [rowActivity_cclp_link items weight capacity x i j hi1 hi2 hj1 hj2] at this
    linarith
  · rintro h rb ⟨i, hi, j, hj, rfl⟩
    simp only [RowBnd.Holds]
    rw [rowActivity_cclp_link items weight capacity x i j hi.1 (by omega) hj.1 (by omega)]
    have := h i j hi.1 (by omega) hj.1 (by omega)
    linarith

theorem rowsOk_cclp_iff (items : Nat) (cost : List (List Int)) (weight : List Int)
    (seeds : Int) (seed_cost : List Int) (capacity : Int) (x : Nat → Int) :
    RowsOk (cclpProblem items cost weight seeds seed_cost capacity) x
      ↔ binsUsed items items x = f32IntValue (MIN seeds items)
          ∧ BppCapacity items capacity items weight x
          ∧ BppAssign items items x ∧ BppLink items items x := by
  rw [← cclp_rows_seeds_iff items cost weight seeds seed_cost capacity x,
    ← cclp_rows_capacity_iff items cost weight seeds seed_cost capacity x,
    ← cclp_rows_assign_iff items cost weight seeds seed_cost capacity x,
    ← cclp_rows_link_iff items cost weight seeds seed_cost capacity x]
  unfold RowsOk
  have e : (cclpProblem items cost weight seeds seed_cost capacity).rowBnds
      = cclpRowBnds items seeds := by
    simp [cclpProblem]
  rw [e]
  unfold cclpRowBnds
  simp only [List.mem_append]
  constructor
  · intro h
    exact ⟨fun rb hrb => h rb (Or.inl (Or.inl (Or.inl hrb))),
      fun rb hrb => h rb (Or.inl (Or.inl (Or.inr hrb))),
      fun rb hrb => h rb (Or.inl (Or.inr hrb)),
      fun rb hrb => h rb (Or.inr hrb)⟩
  · rintro ⟨h2, h3, h4, h5⟩ rb (((h | h) | h) | h)
    · exact h2 rb h
    · exact h3 rb h
    · exact h4 rb h
    · exact h5 rb h

theorem colsOk_cclp_iff (items : Nat) (cost : List (List Int)) (weight : List Int)
    (seeds : Int) (seed_cost : List Int) (capacity : Int) (x : Nat → Int) :
    ColsOk (cclpProblem items cost weight seeds seed_cost capacity) x ↔ BppBinary items items x := by
  rw [← colsOk_bpp_iff items capacity items weight x]
  exact Iff.rfl

theorem rowsOkIn_cclp_assign_iff (items : Nat) (cost : List (List Int)) (weight : List Int)
    (seeds : Int) (seed_cost : List Int) (capacity : Int) (x : Nat → Int) :
    RowsOkIn (cclpProblem items cost weight seeds seed_cost capacity) (items + 2) (2 * items + 1) x
      ↔ BppAssign items items x := by
  rw [← cclp_rows_assign_iff items cost weight seeds seed_cost capacity x]
  unfold RowsOkIn
  have e : (cclpProblem items cost weight seeds seed_cost capacity).rowBnds
      = cclpRowBnds items seeds := by
    simp [cclpProblem]
  rw [e]
  unfold cclpRowBnds
  simp only [List.mem_append]
  constructor
  · intro h rb hrb
    have hrb2 := hrb
    simp only [List.mem_map, forIncl_one, List.mem_range'_1] at hrb2
    obtain ⟨i, hi, rfl⟩ := hrb2
    exact h _ (Or.inl (Or.inr hrb)) (by simp only; omega) (by simp only; omega)
  · rintro h rb (((hm | hm) | hm) | hm) hlo hhi
    · simp only [List.mem_singleton] at hm
      subst hm
      simp only at hlo
      omega
    · simp only [List.mem_map, forIncl_one, List.mem_range'_1] at hm
      obtain ⟨i, hi, rfl⟩ := hm
      simp only at hlo
      omega
    · exact h rb hm
    · simp only [List.mem_flatMap, List.mem_map, forIncl_one, List.mem_range'_1] at hm
      obtain ⟨i, hi, j, hj, rfl⟩ := hm
      simp only at hhi
      omega

/-- C11: for fewer than 2^24 items, a 0/1 column vector (one within the column bounds set by
`BEL_CCLPSolve`) satisfies every row of the formulation exactly when: the number of seed
indicators `z[j]` (column `items * items + j`) equal to 1 is `MIN seeds items`; every customer `i`
has exactly one `j` with `y[i][j] = 1` (column `(i - 1) * items + j`); for every `j` the weight of
the customers assigned to `j` is at most `capacity * z[j]`; and `y[i][j] ≤ z[j]` for all `i`, `j`. -/
theorem cclp_rows_iff_clustering (items : Nat) (cost : List (List Int)) (weight : List Int)
    (seeds : Int) (seed_cost : List Int) (capacity : Int) (x : Nat → Int)
    (hitems : items < 16777216)
    (hbin : ColsOk (cclpProblem items cost weight seeds seed_cost capacity) x) :
    RowsOk (cclpProblem items cost weight seeds seed_cost capacity) x
      ↔ ((((Finset.Icc 1 items).filter (fun j => x (items * items + j) = 1)).card : Int)
            = MIN seeds items)
        ∧ (∀ i, 1 ≤ i → i ≤ items → ∃! j, (1 ≤ j ∧ j ≤ items) ∧ x ((i - 1) * items + j) = 1)
        ∧ (∀ j, 1 ≤ j → j ≤ items →
            ∑ i ∈ (Finset.Icc 1 items).filter (fun i => x ((i - 1) * items + j) = 1),
                weight.getD (i - 1) 0
              ≤ capacity * x (items * items + j))
        ∧ (∀ i j, 1 ≤ i → i ≤ items → 1 ≤ j → j ≤ items →
            x ((i - 1) * items + j) ≤ x (items * items + j)) := by
  have hb := (colsOk_cclp_iff items cost weight seeds seed_cost capacity x).mp hbin
  have hy : ∀ j ∈ Finset.Icc 1 items, x (ycol items items j) = 0 ∨ x (ycol items items j) = 1 := by
    intro j hj
    rw [Finset.mem_Icc] at hj
    exact ycol_binary items items x hb j hj.1 hj.2
  have hx : ∀ i, 1 ≤ i → i ≤ items → ∀ j ∈ Finset.Icc 1 items,
      x (xcol items i j) = 0 ∨ x (xcol items i j) = 1 := by
    intro i hi1 hi2 j hj
    rw [Finset.mem_Icc] at hj
    exact xcol_binary items items x hb i j hi1 hi2 hj.1 hj.2
  have hx2 : ∀ j, 1 ≤ j → j ≤ items → ∀ i ∈ Finset.Icc 1 items,
      x (xcol items i j) = 0 ∨ x (xcol items i j) = 1 := by
    intro j hj1 hj2 i hi
    rw [Finset.mem_Icc] at hi
    exact xcol_binary items items x hb i j hi.1 hi.2 hj1 hj2
  have hcard : binsUsed items items x
      = (((Finset.Icc 1 items).filter (fun j => x (items * items + j) = 1)).card : Int) :=
    sum_binary_eq_card (Finset.Icc 1 items) (fun j => x (ycol items items j)) hy
  have hseed : binsUsed items items x = f32IntValue (MIN seeds items)
      ↔ (((Finset.Icc 1 items).filter (fun j => x (items * items + j) = 1)).card : Int)
          = MIN seeds items := by
    rw [hcard]
    have hmin : MIN seeds items ≤ (items : Int) := by
      unfold MIN
      split_ifs <;> omega
    by_cases hneg : MIN seeds items < 0
    · have := f32IntValue_neg _ hneg
      constructor <;> intro h <;> omega
    · rw [f32IntValue_exact _ (by omega) (by omega)]
  have hassign : BppAssign items items x
      ↔ ∀ i, 1 ≤ i → i ≤ items → ∃! j, (1 ≤ j ∧ j ≤ items) ∧ x ((i - 1) * items + j) = 1 := by
    unfold BppAssign
    apply forall_congr'
    intro i
    apply imp_congr_right
    intro hi1
    apply imp_congr_right
    intro hi2
    exact sum_binary_eq_one_iff items (fun j => x (xcol items i j)) (hx i hi1 hi2)
  have hcap : BppCapacity items capacity items weight x
      ↔ ∀ j, 1 ≤ j → j ≤ items →
          ∑ i ∈ (Finset.Icc 1 items).filter (fun i => x ((i - 1) * items + j) = 1),
              weight.getD (i - 1) 0
            ≤ capacity * x (items * items + j) := by
    unfold BppCapacity
    apply forall_congr'
    intro j
    apply imp_congr_right
    intro hj1
    apply imp_congr_right
    intro hj2
    rw [sum_mul_binary (Finset.Icc 1 items) (fun i => weight.getD (i - 1) 0)
      (fun i => x (xcol items i j)) (hx2 j hj1 hj2)]
    exact Iff.rfl
  rw [rowsOk_cclp_iff, hseed, hassign, hcap]
  constructor
  · rintro ⟨h1, h2, h3, h4⟩
    exact ⟨h1, h3, h2, h4⟩
  · rintro ⟨h1, h3, h2, h4⟩
    exact ⟨h1, h2, h3, h4⟩

theorem cclp_rows_iff_clustering_witness :
    (2 : Nat) < 16777216
      ∧ ColsOk (cclpProblem 2 [[0, 0], [0, 0]] [1, 1] 2 [4, 4] 1) ownSeedsPoint
      ∧ (RowsOk (cclpProblem 2 [[0, 0], [0, 0]] [1, 1] 2 [4, 4] 1) ownSeedsPoint
          ↔ ((((Finset.Icc 1 2).filter (fun j => ownSeedsPoint (2 * 2 + j) = 1)).card : Int)
                = MIN 2 (2 : Nat))
            ∧ (∀ i, 1 ≤ i → i ≤ 2 → ∃! j, (1 ≤ j ∧ j ≤ 2) ∧ ownSeedsPoint ((i - 1) * 2 + j) = 1)
            ∧ (∀ j, 1 ≤ j → j ≤ 2 →
                ∑ i ∈ (Finset.Icc 1 2).filter (fun i => ownSeedsPoint ((i - 1) * 2 + j) = 1),
                    [(1 : Int), 1].getD (i - 1) 0
                  ≤ 1 * ownSeedsPoint (2 * 2 + j))
            ∧ (∀ i j, 1 ≤ i → i ≤ 2 → 1 ≤ j → j ≤ 2 →
                ownSeedsPoint ((i - 1) * 2 + j) ≤ ownSeedsPoint (2 * 2 + j))) :=
  ⟨by decide, by decide,
    cclp_rows_iff_clustering 2 [[0, 0], [0, 0]] [1, 1] 2 [4, 4] 1 ownSeedsPoint (by decide)
      (by decide)⟩

theorem getD_set_eq (a : List Int) (i : Nat) (v : Int) (h : i < a.length) :
    (a.set i v).getD i 0 = v := by
  rw [List.getD_eq_getElem?_getD, List.getElem?_set_self h]
  rfl

theorem getD_set_ne (a : List Int) (i k : Nat) (v : Int) (h : i ≠ k) :
    (a.set i v).getD k 0 = a.getD k 0 := by
  rw [List.getD_eq_getElem?_getD, List.getD_eq_getElem?_getD, List.getElem?_set_ne h]

theorem readRow_fold_succ (items : Nat) (colVal : Nat → Int) (i : Nat) (a : List Int) (n : Nat) :
    (List.range (n + 1)).foldl
        (fun a j => if colVal (i * items + j + 1) ≠ 0 then a.set i (j : Int) else a) a
      = (fun b : List Int => if colVal (i * items + n + 1) ≠ 0 then b.set i (n : Int) else b)
          ((List.range n).foldl
            (fun a j => if colVal (i * items + j + 1) ≠ 0 then a.set i (j : Int) else a) a) := by
  rw [List.range_succ, List.foldl_append]
  rfl

theorem readRow_fold_frame (items : Nat) (colVal : Nat → Int) (i : Nat) (a : List Int) (n : Nat) :
    ((List.range n).foldl
        (fun a j => if colVal (i * items + j + 1) ≠ 0 then a.set i (j : Int) else a) a).length
        = a.length
      ∧ ∀ k, k ≠ i →
          ((List.range n).foldl
            (fun a j => if colVal (i * items + j + 1) ≠ 0 then a.set i (j : Int) else a) a).getD k 0
            = a.getD k 0 := by
  induction n with
  | zero => exact ⟨rfl, fun _ _ => rfl⟩
  | succ n ih =>
    rw [readRow_fold_succ]
    simp only
    split_ifs with h
    · refine ⟨by rw [List.length_set]; exact ih.1, fun k hk => ?_⟩
      rw [getD_set_ne _ _ _ _ (Ne.symm hk)]
      exact ih.2 k hk
    · exact ih

theorem readRow_fold_zeros (items : Nat) (colVal : Nat → Int) (i : Nat) (a : List Int) (n : Nat)
    (hz : ∀ j, j < n → colVal (i * items + j + 1) = 0) :
    (List.range n).foldl
        (fun a j => if colVal (i * items + j + 1) ≠ 0 then a.set i (j : Int) else a) a = a := by
  induction n with
  | zero => rfl
  | succ n ih =>
    rw [readRow_fold_succ, ih (fun j hj => hz j (by omega))]
    simp only
    rw [if_neg (by rw [ne_eq, not_not]; exact hz n (by omega))]

theorem readRow_fold_unique (items : Nat) (colVal : Nat → Int) (i : Nat) (a : List Int) (n : Nat)
    (j : Nat) (hj : j < n) (hne : colVal (i * items + j + 1) ≠ 0)
    (hz : ∀ k, k < n → k ≠ j → colVal (i * items + k + 1) = 0) :
    (List.range n).foldl
        (fun a j => if colVal (i * items + j + 1) ≠ 0 then a.set i (j : Int) else a) a
      = a.set i (j : Int) := by
  induction n with
  | zero => omega
  | succ n ih =>
    rw [readRow_fold_succ]
    simp only
    by_cases hjn : j = n
    · subst hjn
      rw [readRow_fold_zeros items colVal i a j (fun k hk => hz k (by omega) (by omega)),
        if_pos hne]
    · rw [ih (by omega) (fun k hk hkj => hz k (by omega) hkj),
        if_neg (by rw [ne_eq, not_not]; exact hz n (by omega) (fun h => hjn h.symm))]

theorem cclpReadRow_frame (items : Nat) (colVal : Nat → Int) (i : Nat) (a : List Int) :
    (cclpReadRow items colVal i a).length = a.length
      ∧ ∀ k, k ≠ i → (cclpReadRow items colVal i a).getD k 0 = a.getD k 0 :=
  readRow_fold_frame items colVal i a items

theorem cclpReadRow_unique (items : Nat) (colVal : Nat → Int) (i : Nat) (a : List Int)
    (j : Nat) (hj : j < items) (hne : colVal (i * items + j + 1) ≠ 0)
    (hz : ∀ k, k < items → k ≠ j → colVal (i * items + k + 1) = 0) :
    cclpReadRow items colVal i a = a.set i (j : Int) :=
  readRow_fold_unique items colVal i a items j hj hne hz

theorem readBack_fold_frame (items : Nat) (colVal : Nat → Int) (a : List Int) (n : Nat) :
    ((List.range n).foldl (fun a i => cclpReadRow items colVal i a) a).length = a.length
      ∧ ∀ k, n ≤ k →
          ((List.range n).foldl (fun a i => cclpReadRow items colVal i a) a).getD k 0
            = a.getD k 0 := by
  induction n with
  | zero => exact ⟨rfl, fun _ _ => rfl⟩
  | succ n ih =>
    rw [List.range_succ, List.foldl_append]
    simp only [List.foldl_cons, List.foldl_nil]
    refine ⟨by rw [(cclpReadRow_frame items colVal n _).1]; exact ih.1, fun k hk => ?_⟩
    rw [(cclpReadRow_frame items colVal n _).2 k (by omega)]
    exact ih.2 k (by omega)

theorem readBack_fold_unique (items : Nat) (colVal : Nat → Int) (a : List Int) (n : Nat)
    (hn : n ≤ a.length) (i : Nat) (hi : i < n) (j : Nat) (hj : j < items)
    (hne : colVal (i * items + j + 1) ≠ 0)
    (hz : ∀ k, k < items → k ≠ j → colVal (i * items + k + 1) = 0) :
    ((List.range n).foldl (fun a i => cclpReadRow items colVal i a) a).getD i 0 = (j : Int) := by
  induction n with
  | zero => omega
  | succ n ih =>
    rw [List.range_succ, List.foldl_append]
    simp only [List.foldl_cons, List.foldl_nil]
    by_cases hin : i = n
    · subst hin
      rw [cclpReadRow_unique items colVal i _ j hj hne hz, getD_set_eq]
      rw [(readBack_fold_frame items colVal a i).1]
      omega
    · rw [(cclpReadRow_frame items colVal n _).2 i hin]
      exact ih (by omega) (by omega)

/-- Row `i` of the read-back array is the index of the only non-zero `y[i][·]`. -/
theorem cclpReadBack_unique (items : Nat) (colVal : Nat → Int) (a : List Int)
    (hlen : items ≤ a.length) (i : Nat) (hi : i < items) (j : Nat) (hj : j < items)
    (hne : colVal (i * items + j + 1) ≠ 0)
    (hz : ∀ k, k < items → k ≠ j → colVal (i * items + k + 1) = 0) :
    (cclpReadBack items colVal a).getD i 0 = (j : Int) :=
  readBack_fold_unique items colVal a items hlen i hi j hj hne hz

theorem cclpReadBack_length (items : Nat) (colVal : Nat → Int) (a : List Int) :
    (cclpReadBack items colVal a).length = a.length :=
  (readBack_fold_frame items colVal a items).1
/-- With 0/1 values on the `y` columns, an assignment row that holds singles out one `j`. -/
theorem assign_row_unique (items : Nat) (x : Nat → Int)
    (hbin : ∀ i, i < items → ∀ j, j < items →
      x (i * items + j + 1) = 0 ∨ x (i * items + j + 1) = 1)
    (ha : BppAssign items items x) (i : Nat) (hi : i < items) :
    ∃ j, j < items ∧ x (i * items + j + 1) = 1
      ∧ ∀ k, k < items → k ≠ j → x (i * items + k + 1) = 0 := by
  have hcol : ∀ j, 1 ≤ j → xcol items (i + 1) j = i * items + (j - 1) + 1 := by
    intro j hj
    unfold xcol
    rw [Nat.add_sub_cancel]
    omega
  have hb : ∀ j ∈ Finset.Icc 1 items,
      (fun j => x (xcol items (i + 1) j)) j = 0 ∨ (fun j => x (xcol items (i + 1) j)) j = 1 := by
    intro j hj
    rw [Finset.mem_Icc] at hj
    simp only
    rw [hcol j hj.1]
    exact hbin i hi (j - 1) (by omega)
  obtain ⟨j, ⟨⟨hj1, hj2⟩, hj3⟩, huniq⟩ :=
    (sum_binary_eq_one_iff items (fun j => x (xcol items (i + 1) j)) hb).mp
      (ha (i + 1) (by omega) (by omega))
  simp only at hj3 huniq
  refine ⟨j - 1, by omega, by rw [← hcol j hj1]; exact hj3, fun k hk hkj => ?_⟩
  rcases hbin i hi k hk with h0 | h1
  · exact h0
  · exfalso
    have := huniq (k + 1) ⟨⟨by omega, by omega⟩, by rw [hcol (k + 1) (by omega)]; exact h1⟩
    omega
theorem sum_range_eq_sum_Icc (n : Nat) (f : Nat → Int) :
    ∑ i ∈ Finset.range n, f i = ∑ i ∈ Finset.Icc 1 n, f (i - 1) := by
  induction n with
  | zero => simp
  | succ n ih =>
    rw [Finset.sum_range_succ, Finset.sum_Icc_succ_top (by omega), ih, Nat.add_sub_cancel]

theorem ycells_binary (items : Nat) (x : Nat → Int) (hb : BppBinary items items x) :
    ∀ i, i < items → ∀ j, j < items →
      x (i * items + j + 1) = 0 ∨ x (i * items + j + 1) = 1 := by
  intro i hi j hj
  have := xcol_binary items items x hb (i + 1) (j + 1) (by omega) (by omega) (by omega) (by omega)
  unfold xcol at this
  rw [Nat.add_sub_cancel, ← Nat.add_assoc] at this
  exact this

/-- The read-back array holds `j` at `i` exactly when `y[i][j] = 1`. -/
theorem cclpReadBack_eq_iff (items : Nat) (x : Nat → Int) (a : List Int)
    (hlen : items ≤ a.length)
    (hbin : ∀ i, i < items → ∀ j, j < items →
      x (i * items + j + 1) = 0 ∨ x (i * items + j + 1) = 1)
    (ha : BppAssign items items x) (i j : Nat) (hi : i < items) (hj : j < items) :
    (cclpReadBack items x a).getD i 0 = (j : Int) ↔ x (i * items + j + 1) = 1 := by
  obtain ⟨j0, hj0, hone, hz⟩ := assign_row_unique items x hbin ha i hi
  rw [cclpReadBack_unique items x a hlen i hi j0 hj0 (by rw [hone]; decide) hz]
  constructor
  · intro h
    have : j0 = j := by exact_mod_cast h
    rw [← this]
    exact hone
  · intro h
    by_cases hjj : j = j0
    · rw [hjj]
    · have := hz j hj hjj
      omega

/-- The weight of the cluster read back for `j` is the left-hand side of capacity row `j`. -/
theorem cluster_weight_eq (items : Nat) (weight : List Int) (x : Nat → Int) (a : List Int)
    (hlen : items ≤ a.length)
    (hbin : ∀ i, i < items → ∀ j, j < items →
      x (i * items + j + 1) = 0 ∨ x (i * items + j + 1) = 1)
    (ha : BppAssign items items x) (j : Nat) (hj : j < items) :
    ∑ i ∈ (Finset.range items).filter (fun i => (cclpReadBack items x a).getD i 0 = (j : Int)),
        weight.getD i 0
      = ∑ i ∈ Finset.Icc 1 items, weight.getD (i - 1) 0 * x (xcol items i (j + 1)) := by
  rw [Finset.sum_filter, sum_range_eq_sum_Icc]
  apply Finset.sum_congr rfl
  intro i hi
  rw [Finset.mem_Icc] at hi
  have hcol : xcol items i (j + 1) = (i - 1) * items + j + 1 := by
    unfold xcol
    omega
  rw [hcol]
  by_cases h : x ((i - 1) * items + j + 1) = 1
  · rw [if_pos ((cclpReadBack_eq_iff items x a hlen hbin ha (i - 1) j (by omega) hj).mpr h), h,
      mul_one]
  · rw [if_neg (fun hh => h ((cclpReadBack_eq_iff items x a hlen hbin ha (i - 1) j (by omega)
      hj).mp hh))]
    rcases hbin (i - 1) (by omega) j hj with h0 | h1
    · rw [h0, mul_zero]
    · exact absurd h1 h

/-- C13: when the solver's `y` columns hold 0 or 1 and satisfy the assignment rows
`items + 2 .. 2 * items + 1` of the CCLP formulation, `BEL_CCLPSolve` leaves in `assignments[i]`,
for every customer `i < items`, the one `j < items` with `y[i][j] = 1` (column
`i * items + j + 1`): each customer has exactly one cluster. -/
theorem cclp_readback_partition (solver : MipProblem → MipResult) (items : Nat)
    (cost : List (List Int)) (weight : List Int) (seeds : Int) (seed_cost : List Int)
    (capacity : Int) (assignments : List Int)
    (hlen : assignments.length = items)
    (hbin : ∀ i, i < items → ∀ j, j < items →
      (solver (cclpProblem items cost weight seeds seed_cost capacity)).colVal (i * items + j + 1) = 0
        ∨ (solver (cclpProblem items cost weight seeds seed_cost capacity)).colVal
            (i * items + j + 1) = 1)
    (hrows : RowsOkIn (cclpProblem items cost weight seeds seed_cost capacity) (items + 2)
      (2 * items + 1) (solver (cclpProblem items cost weight seeds seed_cost capacity)).colVal) :
    ∀ i, i < items → ∃ j, j < items
      ∧ (BEL_CCLPSolve solver items cost weight seeds seed_cost capacity assignments).2.getD i 0
          = (j : Int)
      ∧ (solver (cclpProblem items cost weight seeds seed_cost capacity)).colVal
          (i * items + j + 1) = 1
      ∧ ∀ k, k < items →
          (solver (cclpProblem items cost weight seeds seed_cost capacity)).colVal
            (i * items + k + 1) = 1 → k = j := by
  intro i hi
  have ha := (rowsOkIn_cclp_assign_iff items cost weight seeds seed_cost capacity _).mp hrows
  obtain ⟨j, hj, hone, hz⟩ := assign_row_unique items _ hbin ha i hi
  refine ⟨j, hj, ?_, hone, fun k hk hk1 => ?_⟩
  · unfold BEL_CCLPSolve
    simp only
    exact cclpReadBack_unique items _ assignments (by omega) i hi j hj (by rw [hone]; decide) hz
  · by_contra hkj
    have := hz k hk hkj
    omega

theorem cclp_readback_partition_witness :
    ([0, 0] : List Int).length = 2
      ∧ (∀ i : Nat, i < 2 → ∀ j : Nat, j < 2 →
          (swappedSeedsSolver (cclpProblem 2 [[0, 0], [0, 0]] [1, 1] 2 [4, 4] 1)).colVal
              (i * 2 + j + 1) = 0
            ∨ (swappedSeedsSolver (cclpProblem 2 [[0, 0], [0, 0]] [1, 1] 2 [4, 4] 1)).colVal
              (i * 2 + j + 1) = 1)
      ∧ RowsOkIn (cclpProblem 2 [[0, 0], [0, 0]] [1, 1] 2 [4, 4] 1) (2 + 2) (2 * 2 + 1)
          (swappedSeedsSolver (cclpProblem 2 [[0, 0], [0, 0]] [1, 1] 2 [4, 4] 1)).colVal
      ∧ ∀ i : Nat, i < 2 → ∃ j : Nat, j < 2
          ∧ (BEL_CCLPSolve swappedSeedsSolver 2 [[0, 0], [0, 0]] [1, 1] 2 [4, 4] 1 [0, 0]).2.getD i 0
              = (j : Int)
          ∧ (swappedSeedsSolver (cclpProblem 2 [[0, 0], [0, 0]] [1, 1] 2 [4, 4] 1)).colVal
              (i * 2 + j + 1) = 1
          ∧ ∀ k : Nat, k < 2 →
              (swappedSeedsSolver (cclpProblem 2 [[0, 0], [0, 0]] [1, 1] 2 [4, 4] 1)).colVal
                (i * 2 + k + 1) = 1 → k = j :=
  ⟨by decide, by decide, by decide,
    cclp_readback_partition swappedSeedsSolver 2 [[0, 0], [0, 0]] [1, 1] 2 [4, 4] 1 [0, 0]
      (by decide) (by decide) (by decide)⟩

/-- C14: when the solver's answer is within the column bounds and satisfies the rows of the CCLP
formulation, the weights are non-negative and the array has `items` entries, the clusters read
back by `BEL_CCLPSolve` respect the capacity: for every `j < items` the weights of the customers
`i` with `assignments[i] = j` sum to at most `capacity`. -/
theorem cclp_readback_capacity (solver : MipProblem → MipResult) (items : Nat)
    (cost : List (List Int)) (weight : List Int) (seeds : Int) (seed_cost : List Int)
    (capacity : Int) (assignments : List Int)
    (hlen : assignments.length = items)
    (hw : ∀ i, i < items → 0 ≤ weight.getD i 0)
    (hfeas : Feasible (cclpProblem items cost weight seeds seed_cost capacity)
      (solver (cclpProblem items cost weight seeds seed_cost capacity)).colVal) :
    ∀ j : Nat, j < items →
      ∑ i ∈ (Finset.range items).filter (fun i =>
          (BEL_CCLPSolve solver items cost weight seeds seed_cost capacity assignments).2.getD i 0
            = (j : Int)),
        weight.getD i 0 ≤ capacity := by
  intro j hj
  obtain ⟨hcols, hrows⟩ := hfeas
  have hb := (colsOk_cclp_iff items cost weight seeds seed_cost capacity _).mp hcols
  obtain ⟨-, hcap, hassign, hlink⟩ :=
    (rowsOk_cclp_iff items cost weight seeds seed_cost capacity _).mp hrows
  have hbin := ycells_binary items _ hb
  have hnn : ∀ j', 1 ≤ j' → j' ≤ items →
      0 ≤ ∑ i ∈ Finset.Icc 1 items, weight.getD (i - 1) 0
        * (solver (cclpProblem items cost weight seeds seed_cost capacity)).colVal
            (xcol items i j') := by
    intro j' h1 h2
    apply Finset.sum_nonneg
    intro i hi
    rw [Finset.mem_Icc] at hi
    have := hw (i - 1) (by omega)
    rcases xcol_binary items items _ hb i j' hi.1 hi.2 h1 h2 with h0 | h1
    · rw [h0, mul_zero]
    · rw [h1, mul_one]; exact this
  have hcap0 : 0 ≤ capacity := by
    obtain ⟨j0, hj01, hj02, hj03⟩ := exists_bin_of_assign items items _ hb hassign 1 (by omega)
      (by omega)
    have hl := hlink 1 j0 (by omega) (by omega) hj01 hj02
    have hc := hcap j0 hj01 hj02
    have hn := hnn j0 hj01 hj02
    rcases ycol_binary items items _ hb j0 hj01 hj02 with h0 | h1
    · omega
    · rw [h1, mul_one] at hc
      omega
  unfold BEL_CCLPSolve
  simp only
  rw [cluster_weight_eq items weight _ assignments (by omega) hbin hassign j hj]
  have hc := hcap (j + 1) (by omega) (by omega)
  rcases ycol_binary items items _ hb (j + 1) (by omega) (by omega) with h0 | h1
  · rw [h0, mul_zero] at hc
    omega
  · rw [h1, mul_one] at hc
    exact hc

theorem cclp_readback_capacity_witness :
    ([0, 0] : List Int).length = 2
      ∧ (∀ i : Nat, i < 2 → 0 ≤ ([1, 1] : List Int).getD i 0)
      ∧ Feasible (cclpProblem 2 [[0, 0], [0, 0]] [1, 1] 2 [4, 4] 1)
          (ownSeedsSolver (cclpProblem 2 [[0, 0], [0, 0]] [1, 1] 2 [4, 4] 1)).colVal
      ∧ ∀ j : Nat, j < 2 →
          ∑ i ∈ (Finset.range 2).filter (fun i =>
              (BEL_CCLPSolve ownSeedsSolver 2 [[0, 0], [0, 0]] [1, 1] 2 [4, 4] 1 [0, 0]).2.getD i 0
                = (j : Int)),
            ([1, 1] : List Int).getD i 0 ≤ 1 :=
  ⟨by decide, by decide, by decide,
    cclp_readback_capacity ownSeedsSolver 2 [[0, 0], [0, 0]] [1, 1] 2 [4, 4] 1 [0, 0]
      (by decide) (by decide) (by decide)⟩

theorem nonDepots_succ (data : BEL_VRPData) (n : Nat) :
    nonDepots data (n + 1)
      = nonDepots data n ++ (if data.isadepot.getD n 0 = 0 then [n] else []) := by
  unfold nonDepots
  rw [List.range_succ, List.filter_append]
  congr 1
  by_cases h : data.isadepot.getD n 0 = 0
  · rw [if_pos h, List.filter_cons_of_pos (by simpa using h), List.filter_nil]
  · rw [if_neg h, List.filter_cons_of_neg (by simpa using h), List.filter_nil]

theorem filterMap_ite_eq_map_filter (l : List Nat) (p : Nat → Prop) [DecidablePred p]
    (f : Nat → Int) :
    l.filterMap (fun j => if p j then some (f j) else none) = (l.filter (fun j => p j)).map f := by
  induction l with
  | nil => rfl
  | cons a l ih =>
    by_cases h : p a
    · rw [List.filterMap_cons_some (by rw [if_pos h]), List.filter_cons_of_pos (by simpa using h),
        List.map_cons, ih]
    · rw [List.filterMap_cons_none (by rw [if_neg h]), List.filter_cons_of_neg (by simpa using h),
        ih]

theorem costRow_eq (edgelen : Nat → Nat → Int) (data : BEL_VRPData) (depot i : Nat) :
    costRow edgelen data depot i
      = (nonDepots data data.dimension).map
          (fun j => wrapInt32 (wrapInt32 (edgelen i depot + edgelen i j) - edgelen depot j)) := by
  unfold costRow nonDepots
  exact filterMap_ite_eq_map_filter _ (fun j => data.isadepot.getD j 0 = 0) _

/-- Closed form of the tables after the nodes `0 .. n - 1` have been visited. -/
theorem tables_fold (edgelen : Nat → Nat → Int) (data : BEL_VRPData) (depot n : Nat) :
    (List.range n).foldl (tablesStep edgelen data depot) ⟨[], [], [], [], [], 0⟩
      = { demand := (nonDepots data n).map (fun i => data.demand.getD i 0)
          cost := (nonDepots data n).map (costRow edgelen data depot)
          seed_cost := (nonDepots data n).map (fun i => wrapInt32 (2 * edgelen i depot))
          customer2node := nonDepots data n
          node2customer := (List.range n).map (fun i =>
            if data.isadepot.getD i 0 = 0 then ((nonDepots data i).length : Int) else -1)
          k := (nonDepots data n).length } := by
  induction n with
  | zero => rfl
  | succ n ih =>
    rw [List.range_succ, List.foldl_append, ih, nonDepots_succ]
    simp only [List.foldl_cons, List.foldl_nil, tablesStep]
    by_cases h : data.isadepot.getD n 0 = 0
    · simp only [if_pos h, List.map_append, List.map_cons, List.map_nil, List.length_append,
        List.length_singleton]
    · simp only [if_neg h, List.map_append, List.map_cons, List.map_nil, List.append_nil]

theorem buildClusterInput_eq (edgelen : Nat → Nat → Int) (data : BEL_VRPData) (depot : Nat) :
    buildClusterInput edgelen data depot
      = { demand := (nonDepots data data.dimension).map (fun i => data.demand.getD i 0)
          cost := (nonDepots data data.dimension).map (costRow edgelen data depot)
          seed_cost := (nonDepots data data.dimension).map (fun i => wrapInt32 (2 * edgelen i depot))
          customer2node := nonDepots data data.dimension
          node2customer := (List.range data.dimension).map (fun i =>
            if data.isadepot.getD i 0 = 0 then ((nonDepots data i).length : Int) else -1)
          k := (nonDepots data data.dimension).length } :=
  tables_fold edgelen data depot data.dimension

theorem getD_map_int (l : List Nat) (f : Nat → Int) (a : Nat) (h : a < l.length) :
    (l.map f).getD a 0 = f (l.getD a 0) := by
  rw [List.getD_eq_getElem _ _ (by rw [List.length_map]; exact h), List.getD_eq_getElem _ _ h,
    List.getElem_map]

theorem getD2_map_map (l m : List Nat) (f : Nat → Nat → Int) (a b : Nat) (ha : a < l.length)
    (hb : b < m.length) :
    getD2 (l.map (fun i => m.map (f i))) a b = f (l.getD a 0) (m.getD b 0) := by
  unfold getD2
  have h1 : (l.map (fun i => m.map (f i))).getD a [] = m.map (f (l.getD a 0)) := by
    rw [List.getD_eq_getElem _ _ (by rw [List.length_map]; exact ha), List.getElem_map,
      List.getD_eq_getElem _ _ ha]
  rw [h1, getD_map_int m _ b hb]
theorem mem_nonDepots (data : BEL_VRPData) (n i : Nat) :
    i ∈ nonDepots data n ↔ i < n ∧ data.isadepot.getD i 0 = 0 := by
  unfold nonDepots
  rw [List.mem_filter, List.mem_range]
  simp

theorem nonDepots_sorted (data : BEL_VRPData) (n : Nat) :
    (nonDepots data n).Pairwise (fun a b => a < b) :=
  List.Pairwise.filter _ (List.pairwise_lt_range n)

theorem nonDepots_prefix (data : BEL_VRPData) (i : Nat) (hp : data.isadepot.getD i 0 = 0)
    (n : Nat) (hn : i < n) :
    ∃ rest, nonDepots data n = nonDepots data i ++ i :: rest := by
  induction n with
  | zero => omega
  | succ n ih =>
    rw [nonDepots_succ]
    by_cases hin : i = n
    · subst hin
      exact ⟨[], by rw [if_pos hp]⟩
    · obtain ⟨rest, hrest⟩ := ih (by omega)
      exact ⟨rest ++ (if data.isadepot.getD n 0 = 0 then [n] else []), by
        rw [hrest, List.append_assoc, List.cons_append]⟩

/-- The rank of a non-depot node `i` (the number of non-depot nodes before it) is where it
stands in the list of non-depot nodes. -/
theorem nonDepots_getD_rank (data : BEL_VRPData) (i n : Nat)
    (hp : data.isadepot.getD i 0 = 0) (hn : i < n) :
    (nonDepots data i).length < (nonDepots data n).length
      ∧ (nonDepots data n).getD (nonDepots data i).length 0 = i := by
  obtain ⟨rest, hrest⟩ := nonDepots_prefix data i hp n hn
  rw [hrest]
  refine ⟨by rw [List.length_append, List.length_cons]; omega, ?_⟩
  rw [List.getD_eq_getElem?_getD, List.getElem?_append_right (le_refl _), Nat.sub_self]
  simp

theorem nonDepots_getD_lt (data : BEL_VRPData) (n a b : Nat) (hab : a < b)
    (hb : b < (nonDepots data n).length) :
    (nonDepots data n).getD a 0 < (nonDepots data n).getD b 0 := by
  rw [List.getD_eq_getElem _ _ (by omega), List.getD_eq_getElem _ _ hb]
  exact List.pairwise_iff_getElem.mp (nonDepots_sorted data n) a b (by omega) hb hab

theorem nonDepots_rank_getD (data : BEL_VRPData) (n k : Nat)
    (hk : k < (nonDepots data n).length) :
    (nonDepots data n).getD k 0 < n ∧ data.isadepot.getD ((nonDepots data n).getD k 0) 0 = 0
      ∧ (nonDepots data ((nonDepots data n).getD k 0)).length = k := by
  have hmem : (nonDepots data n).getD k 0 ∈ nonDepots data n := by
    rw [List.getD_eq_getElem _ _ hk]
    exact List.getElem_mem _
  rw [mem_nonDepots] at hmem
  refine ⟨hmem.1, hmem.2, ?_⟩
  obtain ⟨hlt, hget⟩ := nonDepots_getD_rank data _ n hmem.2 hmem.1
  by_contra hne
  rcases Nat.lt_or_gt_of_ne hne with h | h
  · have := nonDepots_getD_lt data n _ k h hk
    omega
  · have := nonDepots_getD_lt data n k _ h hlt
    omega

theorem node2customer_getD (edgelen : Nat → Nat → Int) (data : BEL_VRPData) (depot i : Nat)
    (hi : i < data.dimension) :
    (buildClusterInput edgelen data depot).node2customer.getD i 0
      = if data.isadepot.getD i 0 = 0 then ((nonDepots data i).length : Int) else -1 := by
  rw [buildClusterInput_eq]
  simp only
  rw [List.getD_eq_getElem _ _ (by rw [List.length_map, List.length_range]; exact hi),
    List.getElem_map, List.getElem_range]

/-- C12 (as stated, refuted). The table entries are C `int`s.  On `twoCustomerData` with the
distances `farDistance` (all of them `int` values) the customer at node 1 has
`2 * dist(1, depot) = 2^31 + 2` and `dist(1, depot) + dist(1, 2) - dist(depot, 2) = 2^31`,
neither of which is an `int`: the code stores `seed_cost[0] = -2147483646` and
`cost[0][1] = -2147483648`. -/
theorem cluster_tables_overflow :
    (nonDepots twoCustomerData twoCustomerData.dimension).length = twoCustomerData.ncustomers
      ∧ (buildClusterInput farDistance twoCustomerData 0).customer2node = [1, 2]
      ∧ (∀ i, i < twoCustomerData.dimension → ∀ j, j < twoCustomerData.dimension →
          0 ≤ farDistance i j ∧ farDistance i j < 2147483648)
      ∧ (buildClusterInput farDistance twoCustomerData 0).seed_cost.getD 0 0 = -2147483646
      ∧ 2 * farDistance 1 0 = 2147483650
      ∧ getD2 (buildClusterInput farDistance twoCustomerData 0).cost 0 1 = -2147483648
      ∧ farDistance 1 0 + farDistance 1 2 - farDistance 0 2 = 2147483648 := by
  decide

/-- C12 (amended): when the number of nodes not flagged as depots is `ncustomers`, the depot is
one of the nodes and the distances between nodes are non-negative and below `2^30`, the tables
that `BEL_SolveVRPProblem` builds for `BEL_CCLPSolve` hold, for customer indices `a`, `b` below
`ncustomers` with nodes `i = customer2node[a]`, `j = customer2node[b]`:
`seed_cost[a] = 2 * dist(i, depot)`, `cost[a][b] = dist(i, depot) + dist(i, j) - dist(depot, j)`
as an integer of either sign, and `demand[a] = data->demand[i]`. -/
theorem cluster_tables_values (edgelen : Nat → Nat → Int) (data : BEL_VRPData) (depot : Nat)
    (hcount : (nonDepots data data.dimension).length = data.ncustomers)
    (hdepot : depot < data.dimension)
    (hrange : ∀ i, i < data.dimension → ∀ j, j < data.dimension →
      0 ≤ edgelen i j ∧ edgelen i j < 1073741824) :
    ∀ a b, a < data.ncustomers → b < data.ncustomers →
      (buildClusterInput edgelen data depot).seed_cost.getD a 0
          = 2 * edgelen ((buildClusterInput edgelen data depot).customer2node.getD a 0) depot
        ∧ getD2 (buildClusterInput edgelen data depot).cost a b
          = edgelen ((buildClusterInput edgelen data depot).customer2node.getD a 0) depot
            + edgelen ((buildClusterInput edgelen data depot).customer2node.getD a 0)
                ((buildClusterInput edgelen data depot).customer2node.getD b 0)
            - edgelen depot ((buildClusterInput edgelen data depot).customer2node.getD b 0)
        ∧ (buildClusterInput edgelen data depot).demand.getD a 0
          = data.demand.getD ((buildClusterInput edgelen data depot).customer2node.getD a 0) 0 := by
  intro a b ha hb
  rw [buildClusterInput_eq]
  simp only
  obtain ⟨hia, -, -⟩ := nonDepots_rank_getD data data.dimension a (by omega)
  obtain ⟨hib, -, -⟩ := nonDepots_rank_getD data data.dimension b (by omega)
  have r1 := hrange _ hia depot hdepot
  have r2 := hrange _ hia _ hib
  have r3 := hrange depot hdepot _ hib
  refine ⟨?_, ?_, getD_map_int _ _ a (by omega)⟩
  · rw [getD_map_int _ (fun i => wrapInt32 (2 * edgelen i depot)) a (by omega)]
    exact wrapInt32_of_range _ (by omega) (by omega)
  · have : costRow edgelen data depot
        = fun i => (nonDepots data data.dimension).map
            (fun j => wrapInt32 (wrapInt32 (edgelen i depot + edgelen i j) - edgelen depot j)) := by
      funext i
      exact costRow_eq edgelen data depot i
    rw [this, getD2_map_map _ _
      (fun i j => wrapInt32 (wrapInt32 (edgelen i depot + edgelen i j) - edgelen depot j)) a b
      (by omega) (by omega)]
    rw [wrapInt32_of_range (_ + _) (by omega) (by omega)]
    exact wrapInt32_of_range _ (by omega) (by omega)

theorem cluster_tables_values_witness :
    (nonDepots threeCustomerData threeCustomerData.dimension).length = threeCustomerData.ncustomers
      ∧ 0 < threeCustomerData.dimension
      ∧ (∀ i, i < threeCustomerData.dimension → ∀ j, j < threeCustomerData.dimension →
          0 ≤ roundedDistance i j ∧ roundedDistance i j < 1073741824)
      ∧ ∀ a b, a < threeCustomerData.ncustomers → b < threeCustomerData.ncustomers →
        (buildClusterInput roundedDistance threeCustomerData 0).seed_cost.getD a 0
            = 2 * roundedDistance
                ((buildClusterInput roundedDistance threeCustomerData 0).customer2node.getD a 0) 0
          ∧ getD2 (buildClusterInput roundedDistance threeCustomerData 0).cost a b
            = roundedDistance
                  ((buildClusterInput roundedDistance threeCustomerData 0).customer2node.getD a 0) 0
              + roundedDistance
                  ((buildClusterInput roundedDistance threeCustomerData 0).customer2node.getD a 0)
                  ((buildClusterInput roundedDistance threeCustomerData 0).customer2node.getD b 0)
              - roundedDistance 0
                  ((buildClusterInput roundedDistance threeCustomerData 0).customer2node.getD b 0)
          ∧ (buildClusterInput roundedDistance threeCustomerData 0).demand.getD a 0
            = threeCustomerData.demand.getD
                ((buildClusterInput roundedDistance threeCustomerData 0).customer2node.getD a 0) 0 :=
  ⟨by decide, by decide, by decide,
    cluster_tables_values roundedDistance threeCustomerData 0 (by decide) (by decide)
      (by decide)⟩

/-- C19: when the number of nodes not flagged as depots is `ncustomers`, the index tables built
by `BEL_SolveVRPProblem` are inverse to each other: `node2customer[customer2node[k]] = k` for
`k < ncustomers`; for a non-depot node `i`, `node2customer[i]` is a customer index and
`customer2node[node2customer[i]] = i`; `node2customer[i] = -1` exactly for the depots;
`customer2node` is strictly increasing, and its values are exactly the non-depot nodes. -/
theorem cluster_index_bijection (edgelen : Nat → Nat → Int) (data : BEL_VRPData) (depot : Nat)
    (hcount : (nonDepots data data.dimension).length = data.ncustomers) :
    (∀ k, k < data.ncustomers →
        (buildClusterInput edgelen data depot).node2customer.getD
          ((buildClusterInput edgelen data depot).customer2node.getD k 0) 0 = (k : Int))
      ∧ (∀ i, i < data.dimension → data.isadepot.getD i 0 = 0 →
          0 ≤ (buildClusterInput edgelen data depot).node2customer.getD i 0
            ∧ (buildClusterInput edgelen data depot).node2customer.getD i 0 < data.ncustomers
            ∧ (buildClusterInput edgelen data depot).customer2node.getD
                ((buildClusterInput edgelen data depot).node2customer.getD i 0).toNat 0 = i)
      ∧ (∀ i, i < data.dimension →
          ((buildClusterInput edgelen data depot).node2customer.getD i 0 = -1
            ↔ data.isadepot.getD i 0 ≠ 0))
      ∧ (∀ a b, a < b → b < data.ncustomers →
          (buildClusterInput edgelen data depot).customer2node.getD a 0
            < (buildClusterInput edgelen data depot).customer2node.getD b 0)
      ∧ (∀ i, (i < data.dimension ∧ data.isadepot.getD i 0 = 0)
          ↔ ∃ k, k < data.ncustomers
              ∧ (buildClusterInput edgelen data depot).customer2node.getD k 0 = i) := by
  have hc2n : (buildClusterInput edgelen data depot).customer2node
      = nonDepots data data.dimension := by
    rw [buildClusterInput_eq]
  rw [hc2n]
  refine ⟨?_, ?_, ?_, ?_, ?_⟩
  · intro k hk
    obtain ⟨h1, h2, h3⟩ := nonDepots_rank_getD data data.dimension k (by omega)
    rw [node2customer_getD edgelen data depot _ h1, if_pos h2, h3]
  · intro i hi hp
    obtain ⟨h1, h2⟩ := nonDepots_getD_rank data i data.dimension hp hi
    rw [node2customer_getD edgelen data depot i hi, if_pos hp, Int.toNat_ofNat]
    exact ⟨by omega, by omega, h2⟩
  · intro i hi
    rw [node2customer_getD edgelen data depot i hi]
    by_cases hp : data.isadepot.getD i 0 = 0
    · rw [if_pos hp]
      constructor
      · intro h
        omega
      · intro h
        exact absurd hp h
    · rw [if_neg hp]
      exact ⟨fun _ => hp, fun _ => rfl⟩
  · intro a b hab hb
    exact nonDepots_getD_lt data data.dimension a b hab (by omega)
  · intro i
    constructor
    · rintro ⟨hi, hp⟩
      obtain ⟨h1, h2⟩ := nonDepots_getD_rank data i data.dimension hp hi
      exact ⟨_, by omega, h2⟩
    · rintro ⟨k, hk, rfl⟩
      obtain ⟨h1, h2, -⟩ := nonDepots_rank_getD data data.dimension k (by omega)
      exact ⟨h1, h2⟩

theorem cluster_index_bijection_witness :
    (nonDepots twoCustomerData twoCustomerData.dimension).length = twoCustomerData.ncustomers
      ∧ ((∀ k, k < twoCustomerData.ncustomers →
          (buildClusterInput depotDistance twoCustomerData 0).node2customer.getD
            ((buildClusterInput depotDistance twoCustomerData 0).customer2node.getD k 0) 0
              = (k : Int))
        ∧ (∀ i, i < twoCustomerData.dimension → twoCustomerData.isadepot.getD i 0 = 0 →
            0 ≤ (buildClusterInput depotDistance twoCustomerData 0).node2customer.getD i 0
              ∧ (buildClusterInput depotDistance twoCustomerData 0).node2customer.getD i 0
                  < twoCustomerData.ncustomers
              ∧ (buildClusterInput depotDistance twoCustomerData 0).customer2node.getD
                  ((buildClusterInput depotDistance twoCustomerData 0).node2customer.getD i
                    0).toNat 0 = i)
        ∧ (∀ i, i < twoCustomerData.dimension →
            ((buildClusterInput depotDistance twoCustomerData 0).node2customer.getD i 0 = -1
              ↔ twoCustomerData.isadepot.getD i 0 ≠ 0))
        ∧ (∀ a b, a < b → b < twoCustomerData.ncustomers →
            (buildClusterInput depotDistance twoCustomerData 0).customer2node.getD a 0
              < (buildClusterInput depotDistance twoCustomerData 0).customer2node.getD b 0)
        ∧ (∀ i, (i < twoCustomerData.dimension ∧ twoCustomerData.isadepot.getD i 0 = 0)
            ↔ ∃ k, k < twoCustomerData.ncustomers
                ∧ (buildClusterInput depotDistance twoCustomerData 0).customer2node.getD k 0
                    = i)) :=
  ⟨by decide, cluster_index_bijection depotDistance twoCustomerData 0 (by decide)⟩

theorem feasible_cclp_iff (items : Nat) (cost : List (List Int)) (weight : List Int)
    (seeds : Int) (seed_cost : List Int) (capacity : Int) (x : Nat → Int) :
    Feasible (cclpProblem items cost weight seeds seed_cost capacity) x
      ↔ BppBinary items items x
          ∧ binsUsed items items x = f32IntValue (MIN seeds items)
          ∧ BppCapacity items capacity items weight x
          ∧ BppAssign items items x ∧ BppLink items items x := by
  unfold Feasible
  rw [colsOk_cclp_iff, rowsOk_cclp_iff]

/-- With two customers, costs `[[0, -1], [3, 0]]`, seed costs `[2, 6]`, unit weights, capacity 2
and two seeds, `sharedSeedPoint` is the only 0/1 point of least cost. -/
theorem sharedSeed_optimal (seeds : Int) (hs : 2 ≤ seeds) (x : Nat → Int)
    (hx : Feasible (cclpProblem 2 [[0, -1], [3, 0]] [1, 1] seeds [2, 6] 2) x) :
    objective (cclpProblem 2 [[0, -1], [3, 0]] [1, 1] seeds [2, 6] 2) x ≥ 7
      ∧ (objective (cclpProblem 2 [[0, -1], [3, 0]] [1, 1] seeds [2, 6] 2) x = 7 →
          ∀ c, 1 ≤ c → c ≤ 6 → x c = sharedSeedPoint c) := by
  have hobj : objective (cclpProblem 2 [[0, -1], [3, 0]] [1, 1] seeds [2, 6] 2) x
      = 0 * x 1 + (-1 * x 2 + (3 * x 3 + (0 * x 4 + (2 * x 5 + (6 * x 6 + 0))))) := rfl
  rw [feasible_cclp_iff] at hx
  obtain ⟨hb, hs2, hc, ha, _⟩ := hx
  have hmin : MIN seeds (2 : Nat) = 2 := by
    unfold MIN
    split_ifs <;> omega
  have hval : f32IntValue 2 = 2 := by decide
  rw [hmin, hval] at hs2
  have a1 := ha 1 (by decide) (by decide)
  have a2 := ha 2 (by decide) (by decide)
  have b1 := hb 1 (by decide) (by decide)
  have b2 := hb 2 (by decide) (by decide)
  have b3 := hb 3 (by decide) (by decide)
  have b4 := hb 4 (by decide) (by decide)
  have b5 := hb 5 (by decide) (by decide)
  have b6 := hb 6 (by decide) (by decide)
  simp [binsUsed, Icc_one_two, xcol, ycol] at a1 a2 hs2
  rw [hobj]
  refine ⟨by omega, fun h c hc1 hc6 => ?_⟩
  have hc' : c = 1 ∨ c = 2 ∨ c = 3 ∨ c = 4 ∨ c = 5 ∨ c = 6 := by omega
  rcases hc' with rfl | rfl | rfl | rfl | rfl | rfl <;> simp [sharedSeedPoint] <;> omega
theorem binary_bounds (v : Int) (h : v = 0 ∨ v = 1) : 0 ≤ v ∧ v ≤ 1 := by omega

theorem two_of_three (a b c : Int) (ha : a = 0 ∨ a = 1) (hb : b = 0 ∨ b = 1)
    (hc : c = 0 ∨ c = 1) (h : a + b + c = 2) :
    (a = 1 ∧ b = 1 ∧ c = 0) ∨ (a = 1 ∧ b = 0 ∧ c = 1) ∨ (a = 0 ∧ b = 1 ∧ c = 1) := by omega

theorem one_of_three (a b c : Int) (ha : a = 0 ∨ a = 1) (hb : b = 0 ∨ b = 1)
    (hc : c = 0 ∨ c = 1) (h : a + b + c = 1) :
    (a = 1 ∧ b = 0 ∧ c = 0) ∨ (a = 0 ∧ b = 1 ∧ c = 0) ∨ (a = 0 ∧ b = 0 ∧ c = 1) := by omega

/-- The integer programme behind `borrowedSeed_optimal`, on twelve 0/1 unknowns. -/
theorem borrowedSeed_arith (y1 y2 y3 y4 y5 y6 y7 y8 y9 z1 z2 z3 : Int)
    (b1 : y1 = 0 ∨ y1 = 1) (b2 : y2 = 0 ∨ y2 = 1) (b3 : y3 = 0 ∨ y3 = 1)
    (b4 : y4 = 0 ∨ y4 = 1) (b5 : y5 = 0 ∨ y5 = 1) (b6 : y6 = 0 ∨ y6 = 1)
    (b7 : y7 = 0 ∨ y7 = 1) (b8 : y8 = 0 ∨ y8 = 1) (b9 : y9 = 0 ∨ y9 = 1)
    (b10 : z1 = 0 ∨ z1 = 1) (b11 : z2 = 0 ∨ z2 = 1) (b12 : z3 = 0 ∨ z3 = 1)
    (hs : z1 + z2 + z3 = 2)
    (a1 : y1 + y2 + y3 = 1) (a2 : y4 + y5 + y6 = 1) (a3 : y7 + y8 + y9 = 1)
    (c1 : 2 * y1 + y4 + 3 * y7 ≤ 3 * z1) (c2 : 2 * y2 + y5 + 3 * y8 ≤ 3 * z2)
    (c3 : 2 * y3 + y6 + 3 * y9 ≤ 3 * z3) :
    12 ≤ y2 + 3 * y4 - y6 + 6 * y7 + 3 * y8 + 2 * z1 + 4 * z2 + 8 * z3
      ∧ (y2 + 3 * y4 - y6 + 6 * y7 + 3 * y8 + 2 * z1 + 4 * z2 + 8 * z3 = 12 →
          y1 = 1 ∧ y2 = 0 ∧ y3 = 0 ∧ y4 = 1 ∧ y5 = 0 ∧ y6 = 0 ∧ y7 = 0 ∧ y8 = 1 ∧ y9 = 0
            ∧ z1 = 1 ∧ z2 = 1 ∧ z3 = 0) := by
  have d1 := binary_bounds _ b1
  have d2 := binary_bounds _ b2
  have d3 := binary_bounds _ b3
  have d4 := binary_bounds _ b4
  have d5 := binary_bounds _ b5
  have d6 := binary_bounds _ b6
  clear b1 b2 b3 b4 b5 b6
  rcases two_of_three z1 z2 z3 b10 b11 b12 hs with ⟨rfl, rfl, rfl⟩ | ⟨rfl, rfl, rfl⟩ | ⟨rfl, rfl, rfl⟩ <;>
    rcases one_of_three y7 y8 y9 b7 b8 b9 a3 with
      ⟨rfl, rfl, rfl⟩ | ⟨rfl, rfl, rfl⟩ | ⟨rfl, rfl, rfl⟩ <;>
    clear b7 b8 b9 b10 b11 b12 hs a3 <;>
    omega

/-- For `threeCustomerData` with `roundedDistance` (costs `[[0, 1, 0], [3, 0, -1], [6, 3, 0]]`,
seed costs `[2, 4, 8]`, weights `[2, 1, 3]`, capacity 3, two seeds), `borrowedSeedPoint` is the
only 0/1 point of least cost. -/
theorem borrowedSeed_optimal (x : Nat → Int)
    (hx : Feasible (cclpProblem 3 [[0, 1, 0], [3, 0, -1], [6, 3, 0]] [2, 1, 3] 2 [2, 4, 8] 3) x) :
    objective (cclpProblem 3 [[0, 1, 0], [3, 0, -1], [6, 3, 0]] [2, 1, 3] 2 [2, 4, 8] 3) x ≥ 12
      ∧ (objective (cclpProblem 3 [[0, 1, 0], [3, 0, -1], [6, 3, 0]] [2, 1, 3] 2 [2, 4, 8] 3) x
            = 12 →
          ∀ c, 1 ≤ c → c ≤ 12 → x c = borrowedSeedPoint c) := by
  have hobj : objective (cclpProblem 3 [[0, 1, 0], [3, 0, -1], [6, 3, 0]] [2, 1, 3] 2 [2, 4, 8] 3) x
      = x 2 + 3 * x 4 - x 6 + 6 * x 7 + 3 * x 8 + 2 * x 10 + 4 * x 11 + 8 * x 12 := by
    have : objective (cclpProblem 3 [[0, 1, 0], [3, 0, -1], [6, 3, 0]] [2, 1, 3] 2 [2, 4, 8] 3) x
        = 0 * x 1 + (1 * x 2 + (0 * x 3 + (3 * x 4 + (0 * x 5 + (-1 * x 6 + (6 * x 7 + (3 * x 8
            + (0 * x 9 + (2 * x 10 + (4 * x 11 + (8 * x 12 + 0))))))))))) := rfl
    rw [this]
    ring
  rw [feasible_cclp_iff] at hx
  obtain ⟨hb, hs2, hc, ha, -⟩ := hx
  have hval : f32IntValue (MIN 2 (3 : Nat)) = 2 := by decide
  rw [hval] at hs2
  have a1 := ha 1 (by decide) (by decide)
  have a2 := ha 2 (by decide) (by decide)
  have a3 := ha 3 (by decide) (by decide)
  have c1 := hc 1 (by decide) (by decide)
  have c2 := hc 2 (by decide) (by decide)
  have c3 := hc 3 (by decide) (by decide)
  simp [binsUsed, Icc_one_three, xcol, ycol] at a1 a2 a3 c1 c2 c3 hs2
  have key := borrowedSeed_arith (x 1) (x 2) (x 3) (x 4) (x 5) (x 6) (x 7) (x 8) (x 9) (x 10)
    (x 11) (x 12) (hb 1 (by decide) (by decide)) (hb 2 (by decide) (by decide))
    (hb 3 (by decide) (by decide)) (hb 4 (by decide) (by decide))
    (hb 5 (by decide) (by decide)) (hb 6 (by decide) (by decide))
    (hb 7 (by decide) (by decide)) (hb 8 (by decide) (by decide))
    (hb 9 (by decide) (by decide)) (hb 10 (by decide) (by decide))
    (hb 11 (by decide) (by decide)) (hb 12 (by decide) (by decide))
    (by linarith) (by linarith) (by linarith) (by linarith) (by linarith) (by linarith)
    (by linarith)
  rw [hobj]
  refine ⟨key.1, fun h c hc1 hc12 => ?_⟩
  obtain ⟨e1, e2, e3, e4, e5, e6, e7, e8, e9, e10, e11, e12⟩ := key.2 h
  have hc' : c = 1 ∨ c = 2 ∨ c = 3 ∨ c = 4 ∨ c = 5 ∨ c = 6 ∨ c = 7 ∨ c = 8 ∨ c = 9 ∨ c = 10
      ∨ c = 11 ∨ c = 12 := by omega
  rcases hc' with rfl | rfl | rfl | rfl | rfl | rfl | rfl | rfl | rfl | rfl | rfl | rfl <;>
    simp [borrowedSeedPoint] <;> assumption
theorem routeLoop_d2 (edgelen : Nat → Nat → Int) (tsp : Nat → CCdatagroup → List Nat)
    (st : Statics) (dat : CCdatagroup) (hd : dat.normSize = NormSize.d2) (items depot : Nat)
    (cluster : List Int) (t : ClusterInput) (seed : List Int) (l : List Nat)
    (sol : BEL_VRPSolution) (c : Int) (r : Int × BEL_VRPSolution × Int)
    (hr : routeLoop edgelen tsp st dat items depot cluster t seed l sol c = some r) :
    r.1 = 0 := by
  induction l generalizing sol c with
  | nil =>
    unfold routeLoop at hr
    rw [Option.some.injEq] at hr
    rw [← hr]
  | cons i rest ih =>
    unfold routeLoop at hr
    split at hr
    · exact absurd hr (by simp)
    · split at hr
      · exact absurd hr (by simp)
      · simp only [routeDat, if_pos hd] at hr
        exact ih _ _ hr

/-- With two-dimensional coordinates a call of `BEL_SolveVRPProblem` that stays within its
arrays returns 0, whatever the clustering step did. -/
theorem solveVRP_d2_returns_zero (edgelen : Nat → Nat → Int) (solver : MipProblem → MipResult)
    (tsp : Nat → CCdatagroup → List Nat) (st : Statics) (dat : CCdatagroup)
    (hd : dat.normSize = NormSize.d2) (cluster0 seed0 : List Int) (data : BEL_VRPData)
    (sol : BEL_VRPSolution) (r : Int × BEL_VRPSolution)
    (hr : BEL_SolveVRPProblem edgelen solver tsp st dat cluster0 seed0 data sol = some r) :
    r.1 = 0 := by
  unfold BEL_SolveVRPProblem at hr
  simp only at hr
  split at hr
  · exact absurd hr (by simp)
  · split at hr
    · exact absurd hr (by simp)
    · split at hr
      · exact absurd hr (by simp)
      · rename_i r' hloop
        have h0 := routeLoop_d2 _ _ _ _ hd _ _ _ _ _ _ _ _ r' hloop
        rw [if_neg (by rw [h0]; decide), Option.some.injEq] at hr
        rw [← hr]

theorem no_cluster_of_overloaded (x : Nat → Int) :
    ¬ Feasible (cclpProblem 1 [[0]] [2] 1 [2] 1) x := by
  intro hx
  rw [feasible_cclp_iff] at hx
  obtain ⟨hb, _, hc, ha, _⟩ := hx
  have a1 := ha 1 (by decide) (by decide)
  have c1 := hc 1 (by decide) (by decide)
  have b1 := hb 1 (by decide) (by decide)
  have b2 := hb 2 (by decide) (by decide)
  simp [Icc_one_one, xcol, ycol] at a1 c1
  omega

/-- C15 (the code at the failing input). For `threeCustomerData` with `roundedDistance` the
tables are costs `[[0, 1, 0], [3, 0, -1], [6, 3, 0]]`, seed costs `[2, 4, 8]`, weights
`[2, 1, 3]`; with capacity 3 and 2 seeds, `borrowedSeedPoint` satisfies every row, is the only
0/1 point of least cost 12, and selects seed 1 (`z[1] = 1`, column 11) while customer 1 is
assigned to seed 0: the array read back is `[0, 0, 1]`, so `assignments[1] ≠ 1` and
`assignments[assignments[2]] ≠ assignments[2]`. -/
theorem selected_seed_not_self_assigned :
    (buildClusterInput roundedDistance threeCustomerData 0).cost
        = [[0, 1, 0], [3, 0, -1], [6, 3, 0]]
      ∧ (buildClusterInput roundedDistance threeCustomerData 0).seed_cost = [2, 4, 8]
      ∧ (buildClusterInput roundedDistance threeCustomerData 0).demand = [2, 1, 3]
      ∧ Feasible (cclpProblem 3 [[0, 1, 0], [3, 0, -1], [6, 3, 0]] [2, 1, 3] 2 [2, 4, 8] 3)
          borrowedSeedPoint
      ∧ objective (cclpProblem 3 [[0, 1, 0], [3, 0, -1], [6, 3, 0]] [2, 1, 3] 2 [2, 4, 8] 3)
          borrowedSeedPoint = 12
      ∧ (∀ x, Feasible (cclpProblem 3 [[0, 1, 0], [3, 0, -1], [6, 3, 0]] [2, 1, 3] 2 [2, 4, 8] 3) x →
          objective (cclpProblem 3 [[0, 1, 0], [3, 0, -1], [6, 3, 0]] [2, 1, 3] 2 [2, 4, 8] 3) x
              ≥ 12
            ∧ (objective (cclpProblem 3 [[0, 1, 0], [3, 0, -1], [6, 3, 0]] [2, 1, 3] 2 [2, 4, 8] 3)
                  x = 12 →
                ∀ c, 1 ≤ c → c ≤ 12 → x c = borrowedSeedPoint c))
      ∧ borrowedSeedPoint (3 * 3 + 1 + 1) = 1
      ∧ (BEL_CCLPSolve borrowedSeedSolver 3 [[0, 1, 0], [3, 0, -1], [6, 3, 0]] [2, 1, 3] 2
            [2, 4, 8] 3 [0, 0, 0]).2 = [0, 0, 1]
      ∧ (BEL_CCLPSolve borrowedSeedSolver 3 [[0, 1, 0], [3, 0, -1], [6, 3, 0]] [2, 1, 3] 2
            [2, 4, 8] 3 [0, 0, 0]).2.getD 1 0 ≠ 1
      ∧ (BEL_CCLPSolve borrowedSeedSolver 3 [[0, 1, 0], [3, 0, -1], [6, 3, 0]] [2, 1, 3] 2
            [2, 4, 8] 3 [0, 0, 0]).2.getD
            ((BEL_CCLPSolve borrowedSeedSolver 3 [[0, 1, 0], [3, 0, -1], [6, 3, 0]] [2, 1, 3] 2
              [2, 4, 8] 3 [0, 0, 0]).2.getD 2 0).toNat 0
          ≠ (BEL_CCLPSolve borrowedSeedSolver 3 [[0, 1, 0], [3, 0, -1], [6, 3, 0]] [2, 1, 3] 2
              [2, 4, 8] 3 [0, 0, 0]).2.getD 2 0 :=
  ⟨by decide, by decide, by decide, by decide, by decide, borrowedSeed_optimal, by decide,
    by decide, by decide, by decide⟩

/-- C16 (the code at the failing input). Two customers of weight 1, capacity 2, two seeds,
costs `[[0, -1], [3, 0]]` and seed costs `[2, 6]` (rounded distances between (0, 0), (1, 1),
(2, 2)): `sharedSeedPoint` satisfies every row and is the only 0/1 point of least cost 7; both
seed indicators are 1 and `MIN seeds items = 2`, but the array read back is `[1, 1]`, with a
single distinct value: the customers form one cluster, not two. -/
theorem selected_seed_left_empty :
    Feasible (cclpProblem 2 [[0, -1], [3, 0]] [1, 1] 2 [2, 6] 2) sharedSeedPoint
      ∧ objective (cclpProblem 2 [[0, -1], [3, 0]] [1, 1] 2 [2, 6] 2) sharedSeedPoint = 7
      ∧ (∀ x, Feasible (cclpProblem 2 [[0, -1], [3, 0]] [1, 1] 2 [2, 6] 2) x →
          objective (cclpProblem 2 [[0, -1], [3, 0]] [1, 1] 2 [2, 6] 2) x ≥ 7
            ∧ (objective (cclpProblem 2 [[0, -1], [3, 0]] [1, 1] 2 [2, 6] 2) x = 7 →
                ∀ c, 1 ≤ c → c ≤ 6 → x c = sharedSeedPoint c))
      ∧ sharedSeedPoint (2 * 2 + 1) = 1
      ∧ sharedSeedPoint (2 * 2 + 2) = 1
      ∧ MIN 2 (2 : Nat) = 2
      ∧ (BEL_CCLPSolve sharedSeedSolver 2 [[0, -1], [3, 0]] [1, 1] 2 [2, 6] 2 [0, 0]).2 = [1, 1]
      ∧ (BEL_CCLPSolve sharedSeedSolver 2 [[0, -1], [3, 0]] [1, 1] 2 [2, 6] 2
            [0, 0]).2.dedup.length = 1 :=
  ⟨by decide, by decide, sharedSeed_optimal 2 (by decide), by decide, by decide, by decide,
    by decide, by decide⟩

/-- C17 (the code at the failing input). With more seeds than items the seed-count row is fixed
at the number of items (for fewer than 2^24 items); but with two customers of weight 1,
capacity 2, three seeds, costs `[[0, -1], [3, 0]]` and seed costs `[2, 6]`, the point
`sharedSeedPoint` satisfies every row, is the only 0/1 point of least cost 7, and the array
read back is `[1, 1]`: customer 0 is not its own cluster. -/
theorem clamped_seeds_share_cluster :
    (∀ (items : Nat) (seeds : Int) (cost : List (List Int)) (weight seed_cost : List Int)
        (capacity : Int), (items : Int) < seeds → items < 16777216 →
        (1, RowBnd.fx (items : Int))
          ∈ (cclpProblem items cost weight seeds seed_cost capacity).rowBnds)
      ∧ Feasible (cclpProblem 2 [[0, -1], [3, 0]] [1, 1] 3 [2, 6] 2) sharedSeedPoint
      ∧ objective (cclpProblem 2 [[0, -1], [3, 0]] [1, 1] 3 [2, 6] 2) sharedSeedPoint = 7
      ∧ (∀ x, Feasible (cclpProblem 2 [[0, -1], [3, 0]] [1, 1] 3 [2, 6] 2) x →
          objective (cclpProblem 2 [[0, -1], [3, 0]] [1, 1] 3 [2, 6] 2) x ≥ 7
            ∧ (objective (cclpProblem 2 [[0, -1], [3, 0]] [1, 1] 3 [2, 6] 2) x = 7 →
                ∀ c, 1 ≤ c → c ≤ 6 → x c = sharedSeedPoint c))
      ∧ (BEL_CCLPSolve sharedSeedSolver 2 [[0, -1], [3, 0]] [1, 1] 3 [2, 6] 2 [0, 0]).2 = [1, 1]
      ∧ (BEL_CCLPSolve sharedSeedSolver 2 [[0, -1], [3, 0]] [1, 1] 3 [2, 6] 2 [0, 0]).2.getD 0 0
          ≠ 0 := by
  refine ⟨?_, by decide, by decide, sharedSeed_optimal 3 (by decide), by decide, by decide⟩
  intro items seeds cost weight seed_cost capacity hlt hsmall
  have hmin : MIN seeds (items : Int) = (items : Int) := by
    unfold MIN
    rw [if_neg (by omega)]
  have hval : f32IntValue (items : Int) = (items : Int) :=
    f32IntValue_exact _ (by omega) (by omega)
  have e : (cclpProblem items cost weight seeds seed_cost capacity).rowBnds
      = cclpRowBnds items seeds := rfl
  rw [e]
  unfold cclpRowBnds
  simp only [List.mem_append, List.mem_singleton]
  rw [hmin, hval]
  exact Or.inl (Or.inl (Or.inl rfl))

/-- C18 (the code at the failing input, and in general). `BEL_CCLPSolve` returns 0 whatever the
solver reports, although its documentation says `1 on failure`; one customer of weight 2 with
capacity 1 admits no 0/1 solution, `rejectingSolver` reports `I_NOFEAS`, the array is handed
back as it was received, and `BEL_SolveVRPProblem` on `overloadedData` never returns 1: where
`cluster[0]` held 1 and `seed[0]` held 0 it returns 0 with one empty route. -/
theorem cclp_failure_not_reported :
    (∀ (solver : MipProblem → MipResult) (items : Nat) (cost : List (List Int))
        (weight : List Int) (seeds : Int) (seed_cost : List Int) (capacity : Int)
        (assignments : List Int),
        (BEL_CCLPSolve solver items cost weight seeds seed_cost capacity assignments).1 = 0)
      ∧ (buildClusterInput roundedDistance overloadedData 0).cost = [[0]]
      ∧ (buildClusterInput roundedDistance overloadedData 0).demand = [2]
      ∧ (buildClusterInput roundedDistance overloadedData 0).seed_cost = [2]
      ∧ (∀ x, ¬ Feasible (cclpProblem 1 [[0]] [2] 1 [2] 1) x)
      ∧ (rejectingSolver (cclpProblem 1 [[0]] [2] 1 [2] 1)).status = MipStatus.I_NOFEAS
      ∧ (∀ a : List Int, BEL_CCLPSolve rejectingSolver 1 [[0]] [2] 1 [2] 1 a = (0, a))
      ∧ (∀ (cluster0 seed0 : List Int) (r : Int × BEL_VRPSolution),
          BEL_SolveVRPProblem roundedDistance rejectingSolver (BEL_TSPSolve idleSolvers)
              planeStatics overloadedDat cluster0 seed0 overloadedData emptySolution = some r →
            r.1 = 0)
      ∧ BEL_SolveVRPProblem roundedDistance rejectingSolver (BEL_TSPSolve idleSolvers)
            planeStatics overloadedDat [1] [0] overloadedData emptySolution
          = some (0, { routes := [[]], routelen := [0], cost := 0, nvehicles := 1 }) := by
  refine ⟨fun _ _ _ _ _ _ _ _ => rfl, by decide, by decide, by decide, no_cluster_of_overloaded,
    by decide, ?_, ?_, by decide⟩
  · intro a
    unfold BEL_CCLPSolve cclpReadBack cclpReadRow
    simp [rejectingSolver]
  · intro cluster0 seed0 r hr
    exact solveVRP_d2_returns_zero _ _ _ _ _ rfl _ _ _ _ r hr

/-- C20 (the code at the failing input). On `threeCustomerData` (two vehicles, as the lower
bound asks, three customers) with `roundedDistance`, the solver's answer `borrowedSeedPoint` is
within the column bounds, satisfies every row and has the reported objective value; the cluster
array is `[0, 0, 1]`, only customer 0 has `cluster[i] = i`, so `seed[1]` is never written. With
`seed[1]` holding 0, `BEL_SolveVRPProblem` returns 0 with routes `[1, 2]` and `[]`: node 3 is in
no route. -/
theorem customer_missing_from_routes :
    threeCustomerData.nvehicles ≤ threeCustomerData.ncustomers
      ∧ BEL_VRPVehiclesLB threeCustomerData = threeCustomerData.nvehicles
      ∧ nonDepots threeCustomerData threeCustomerData.dimension = [1, 2, 3]
      ∧ SolverSound borrowedSeedSolver
          (cclpProblem threeCustomerData.ncustomers
            (buildClusterInput roundedDistance threeCustomerData 0).cost
            (buildClusterInput roundedDistance threeCustomerData 0).demand
            threeCustomerData.nvehicles
            (buildClusterInput roundedDistance threeCustomerData 0).seed_cost
            threeCustomerData.capacity)
      ∧ (BEL_CCLPSolve borrowedSeedSolver threeCustomerData.ncustomers
            (buildClusterInput roundedDistance threeCustomerData 0).cost
            (buildClusterInput roundedDistance threeCustomerData 0).demand
            threeCustomerData.nvehicles
            (buildClusterInput roundedDistance threeCustomerData 0).seed_cost
            threeCustomerData.capacity [0, 0, 0]).2 = [0, 0, 1]
      ∧ BEL_SolveVRPProblem roundedDistance borrowedSeedSolver (BEL_TSPSolve idleSolvers)
            planeStatics threeCustomerDat [0, 0, 0] [0, 0] threeCustomerData emptySolution
          = some (0, { routes := [[1, 2], []], routelen := [2, 0], cost := 5, nvehicles := 2 })
      ∧ 3 ∉ ([[1, 2], []] : List (List Nat)).flatten :=
  ⟨by decide, by decide, by decide, by decide, by decide, by decide, by decide⟩

theorem sum_flatMap_int (l : List Nat) (f : Nat → List Int) :
    (l.flatMap f).sum = (l.map (fun i => (f i).sum)).sum := by
  induction l with
  | nil => rfl
  | cons a l ih => rw [List.flatMap_cons, List.sum_append, ih, List.map_cons, List.sum_cons]

theorem length_cclpMatrix (items : Nat) (weight : List Int) (capacity : Int) :
    (cclpMatrix items weight capacity).length = 4 * items * items + 2 * items := by
  have h1 : (cclpMatrixSeeds items 0).length = items := by
    unfold cclpMatrixSeeds
    rw [List.length_map, length_forIncl_one]
  have h2 : (cclpMatrixCapacity items weight capacity (0 + 1)).length = items * (items + 1) := by
    unfold cclpMatrixCapacity
    rw [length_flatMap_const _ _ (items + 1), length_forIncl_one]
    intro i hi
    rw [forIncl_one, List.mem_range'_1] at hi
    rw [List.length_append, List.length_map, forStep_cclp items i hi.1 (by omega),
      List.length_range', List.length_singleton]
  have h3 : (cclpMatrixAssign items (0 + 1 + items)).length = items * items := by
    unfold cclpMatrixAssign
    rw [length_flatMap_const _ _ items, length_forIncl_one]
    intro i hi
    rw [forIncl_one, List.mem_range'_1] at hi
    rw [List.length_map, forIncl_block items i hi.1, List.length_range']
  have h4 : (cclpMatrixLink items (0 + 1 + items + items)).length = items * items * 2 := by
    unfold cclpMatrixLink
    rw [length_flatMap_const _ _ 2, length_forIncl_one]
    intro i _
    rfl
  unfold cclpMatrix
  simp only [List.length_append, h1, h2, h3, h4]
  ring
theorem mem_cclpMatrix_range (items : Nat) (weight : List Int) (capacity : Int) (t : Triple)
    (ht : t ∈ cclpMatrix items weight capacity) :
    1 ≤ t.row ∧ t.row ≤ 1 + items + items + items * items
      ∧ 1 ≤ t.col ∧ t.col ≤ (items + 1) * items := by
  have hcols : (items + 1) * items = items * items + items := by ring
  unfold cclpMatrix at ht
  simp only [List.mem_append] at ht
  rcases ht with ((h | h) | h) | h
  · unfold cclpMatrixSeeds at h
    simp only [List.mem_map, forIncl_one, List.mem_range'_1] at h
    obtain ⟨i, hi, rfl⟩ := h
    simp only
    omega
  · rw [cclpMatrixCapacity_eq] at h
    unfold bppMatrix3 at h
    simp only [List.mem_flatMap, List.mem_append, List.mem_map, List.mem_singleton,
      forIncl_one, List.mem_range'_1] at h
    obtain ⟨i, hi, h | rfl⟩ := h
    · obtain ⟨j, hj, rfl⟩ := h
      rw [forStep_block items items i hi.1 (by omega), List.mem_range'] at hj
      obtain ⟨k, hk, rfl⟩ := hj
      simp only
      have : items * k + items ≤ items * items := by
        have := Nat.mul_le_mul_left items (show k + 1 ≤ items by omega)
        rw [Nat.mul_succ] at this
        exact this
      omega
    · simp only
      omega
  · rw [cclpMatrixAssign_eq] at h
    unfold bppMatrix2 at h
    simp only [List.mem_flatMap, List.mem_map, forIncl_one, List.mem_range'_1] at h
    obtain ⟨i, hi, j, hj, rfl⟩ := h
    rw [forIncl_block items i hi.1, List.mem_range'_1] at hj
    simp only
    have h1 : (i - 1) * items + items ≤ items * items := by
      have := Nat.mul_le_mul_right items (show (i - 1) + 1 ≤ items by omega)
      rw [Nat.succ_mul] at this
      exact this
    omega
  · unfold cclpMatrixLink at h
    simp only [List.mem_flatMap, List.mem_cons, List.mem_singleton, forIncl_one,
      List.mem_range'_1, List.not_mem_nil, or_false] at h
    obtain ⟨i, hi, rfl | rfl⟩ := h
    · simp only
      omega
    · simp only
      have hpos : 0 < items := by
        rcases Nat.eq_zero_or_pos items with h0 | h0
        · subst h0; omega
        · exact h0
      have := Nat.mod_lt (i - 1) hpos
      omega

theorem cclp_writes_fit_iff (items : Nat) :
    4 * items * items + 2 * items ≤ 100000 ↔ items ≤ 157 := by
  constructor
  · intro h
    by_contra hc
    have h1 : 158 * 158 ≤ items * items := Nat.mul_le_mul (by omega) (by omega)
    have h2 : 4 * items * items = 4 * (items * items) := by ring
    omega
  · intro h
    have h1 : items * items ≤ 157 * 157 := Nat.mul_le_mul h h
    have h2 : 4 * items * items = 4 * (items * items) := by ring
    omega

/-- C30: the triples that `BEL_CCLPSolve` writes to `ia`, `ja`, `ar` (the `k`-th of the list
goes to index `k`, as every write is preceded by `offset++`) number
`4 * items * items + 2 * items`, the precomputed value of `nonzeroes`; each has its row index
in `1 .. rows` and its column index in `1 .. cols`; and the last index written is at most
`MAX_NONZEROES`, the last index of the arrays, exactly when `items ≤ 157`. -/
theorem cclp_triples_and_array_bound (items : Nat) (cost : List (List Int))
    (weight : List Int) (seeds : Int) (seed_cost : List Int) (capacity : Int) :
    (cclpProblem items cost weight seeds seed_cost capacity).matrix.length
        = 4 * items * items + 2 * items
      ∧ (cclpProblem items cost weight seeds seed_cost capacity).matrix.length
        = cclpNonzeroes items
      ∧ (∀ t ∈ (cclpProblem items cost weight seeds seed_cost capacity).matrix,
          1 ≤ t.row
            ∧ (t.row : Int) ≤ (cclpProblem items cost weight seeds seed_cost capacity).nrows
            ∧ 1 ≤ t.col
            ∧ (t.col : Int) ≤ (cclpProblem items cost weight seeds seed_cost capacity).ncols)
      ∧ ((cclpProblem items cost weight seeds seed_cost capacity).matrix.length ≤ MAX_NONZEROES
          ↔ items ≤ 157) := by
  have hm : (cclpProblem items cost weight seeds seed_cost capacity).matrix
      = cclpMatrix items weight capacity := rfl
  have hr : (cclpProblem items cost weight seeds seed_cost capacity).nrows
      = ((1 + items + items + items * items : Nat) : Int) := by
    simp [cclpProblem]
  have hc : (cclpProblem items cost weight seeds seed_cost capacity).ncols
      = (((items + 1) * items : Nat) : Int) := by
    simp [cclpProblem]
  rw [hm, hr, hc, length_cclpMatrix]
  refine ⟨rfl, ?_, ?_, ?_⟩
  · unfold cclpNonzeroes
    ring
  · intro t ht
    obtain ⟨h1, h2, h3, h4⟩ := mem_cclpMatrix_range items weight capacity t ht
    exact ⟨h1, by exact_mod_cast h2, h3, by exact_mod_cast h4⟩
  · exact cclp_writes_fit_iff items

theorem sum_flatMap_map_int {α : Type} (l : List Nat) (F : Nat → List α) (g : α → Int) :
    ((l.flatMap F).map g).sum = (l.map (fun i => ((F i).map g).sum)).sum := by
  induction l with
  | nil => rfl
  | cons a l ih =>
    rw [List.flatMap_cons, List.map_append, List.sum_append, ih, List.map_cons, List.sum_cons]

/-- The objective of the problem built by `BEL_CCLPSolve`, column by column. -/
theorem objective_cclp (items : Nat) (cost : List (List Int)) (weight : List Int)
    (seeds : Int) (seed_cost : List Int) (capacity : Int) (x : Nat → Int) :
    objective (cclpProblem items cost weight seeds seed_cost capacity) x
      = (∑ i ∈ Finset.Icc 1 items, ∑ j ∈ Finset.Icc 1 items,
            getD2 cost (i - 1) (j - 1) * x (xcol items i j))
        + ∑ j ∈ Finset.Icc 1 items, seed_cost.getD (j - 1) 0 * x (ycol items items j) := by
  have e : (cclpProblem items cost weight seeds seed_cost capacity).objCoef
      = cclpObjCoef items cost seed_cost := rfl
  unfold objective
  rw [e]
  unfold cclpObjCoef
  simp only [List.map_append, List.sum_append, forIncl_one]
  rw [sum_flatMap_map_int, sum_range'_eq_sum_Icc]
  congr 1
  · apply Finset.sum_congr rfl
    intro i _
    rw [List.map_map, sum_range'_eq_sum_Icc]
    apply Finset.sum_congr rfl
    intro j _
    simp only [Function.comp, xcol]
    rw [Nat.add_comm j]
  · rw [List.map_map, sum_range'_eq_sum_Icc]
    apply Finset.sum_congr rfl
    intro j _
    simp only [Function.comp, ycol]
    rw [Nat.add_comm j]

theorem map_add_right_range' (c s n : Nat) :
    (List.range' s n).map (fun j => j + c) = List.range' (s + c) n := by
  have : (fun j => j + c) = (fun j => c + j) := funext (fun j => Nat.add_comm j c)
  rw [this, List.map_add_range', Nat.add_comm]

theorem flatMap_range'_blocks (n m : Nat) :
    (List.range' 1 m).flatMap (fun i => List.range' (1 + (i - 1) * n) n)
      = List.range' 1 (m * n) := by
  induction m with
  | zero => simp
  | succ m ih =>
    rw [List.range'_concat, List.flatMap_append, ih, List.flatMap_singleton, Nat.one_mul,
      Nat.add_sub_cancel_left, Nat.succ_mul, List.range'_append_1, Nat.add_comm]

/-- The objective coefficients are set once for each column `1 .. (items + 1) * items`, in
increasing order of the column. -/
theorem cclpObjCoef_columns (items : Nat) (cost : List (List Int)) (seed_cost : List Int) :
    (cclpObjCoef items cost seed_cost).map Prod.fst = List.range' 1 ((items + 1) * items) := by
  unfold cclpObjCoef
  simp only [List.map_append, forIncl_one, List.map_flatMap, List.map_map]
  have h1 : (List.range' 1 items).flatMap (fun i =>
      List.map (Prod.fst ∘ fun j => (j + (i - 1) * items, getD2 cost (i - 1) (j - 1)))
        (List.range' 1 items))
      = List.range' 1 (items * items) := by
    rw [← flatMap_range'_blocks items items]
    apply List.flatMap_congr
    intro i _
    have : (Prod.fst ∘ fun j => (j + (i - 1) * items, getD2 cost (i - 1) (j - 1)))
        = fun j => j + (i - 1) * items := rfl
    rw [this, map_add_right_range']
  have h2 : List.map (Prod.fst ∘ fun j => (j + items * items, seed_cost.getD (j - 1) 0))
        (List.range' 1 items)
      = List.range' (1 + items * items) items := by
    have : (Prod.fst ∘ fun j => (j + items * items, seed_cost.getD (j - 1) 0))
        = fun j => j + items * items := rfl
    rw [this, map_add_right_range']
  rw [h1, h2, List.range'_append_1, Nat.succ_mul, Nat.add_comm]

/-- C26: the problem built by `BEL_CCLPSolve` is a minimisation; the objective coefficients are
set once per column, `cost[i-1][j-1]` on column `(i - 1) * items + j` (that of `y[i][j]`) and
`seed_cost[j-1]` on column `items * items + j` (that of `z[j]`), so that the objective value of
column values `x` is `∑ cost[i-1][j-1] * y[i][j] + ∑ seed_cost[j-1] * z[j]`; the assignment row
of item `i` sums the same columns `(i - 1) * items + j`, and with 0/1 values that satisfy the
assignment rows the read-back stores `j - 1` at `i - 1` exactly when that column holds 1. -/
theorem cclp_objective_columns (items : Nat) (cost : List (List Int)) (weight : List Int)
    (seeds : Int) (seed_cost : List Int) (capacity : Int) :
    (cclpProblem items cost weight seeds seed_cost capacity).objDir = ObjDir.LPX_MIN
      ∧ (cclpProblem items cost weight seeds seed_cost capacity).objCoef.map Prod.fst
          = List.range' 1 ((items + 1) * items)
      ∧ (∀ i j, 1 ≤ i → i ≤ items → 1 ≤ j → j ≤ items →
          ((i - 1) * items + j, getD2 cost (i - 1) (j - 1))
            ∈ (cclpProblem items cost weight seeds seed_cost capacity).objCoef)
      ∧ (∀ j, 1 ≤ j → j ≤ items →
          (items * items + j, seed_cost.getD (j - 1) 0)
            ∈ (cclpProblem items cost weight seeds seed_cost capacity).objCoef)
      ∧ (∀ x : Nat → Int,
          objective (cclpProblem items cost weight seeds seed_cost capacity) x
            = (∑ i ∈ Finset.Icc 1 items, ∑ j ∈ Finset.Icc 1 items,
                  getD2 cost (i - 1) (j - 1) * x ((i - 1) * items + j))
              + ∑ j ∈ Finset.Icc 1 items, seed_cost.getD (j - 1) 0 * x (items * items + j))
      ∧ (∀ (x : Nat → Int) (i : Nat), 1 ≤ i → i ≤ items →
          rowActivity (cclpProblem items cost weight seeds seed_cost capacity).matrix x
              (i + (1 + items))
            = ∑ j ∈ Finset.Icc 1 items, x ((i - 1) * items + j))
      ∧ (∀ (x : Nat → Int) (a : List Int), items ≤ a.length →
          (∀ c, 1 ≤ c → c ≤ items * items → x c = 0 ∨ x c = 1) →
          (∀ i, 1 ≤ i → i ≤ items → ∑ j ∈ Finset.Icc 1 items, x ((i - 1) * items + j) = 1) →
          ∀ i j, 1 ≤ i → i ≤ items → 1 ≤ j → j ≤ items →
            ((cclpReadBack items x a).getD (i - 1) 0 = ((j - 1 : Nat) : Int)
              ↔ x ((i - 1) * items + j) = 1)) := by
  have e : (cclpProblem items cost weight seeds seed_cost capacity).objCoef
      = cclpObjCoef items cost seed_cost := rfl
  refine ⟨rfl, ?_, ?_, ?_, ?_, ?_, ?_⟩
  · rw [e]
    exact cclpObjCoef_columns items cost seed_cost
  · intro i j hi1 hi2 hj1 hj2
    rw [e]
    unfold cclpObjCoef
    simp only [List.mem_append, List.mem_flatMap, List.mem_map, forIncl_one, List.mem_range'_1]
    exact Or.inl ⟨i, ⟨hi1, by omega⟩, j, ⟨hj1, by omega⟩, by rw [Nat.add_comm]⟩
  · intro j hj1 hj2
    rw [e]
    unfold cclpObjCoef
    simp only [List.mem_append, List.mem_flatMap, List.mem_map, forIncl_one, List.mem_range'_1]
    exact Or.inr ⟨j, ⟨hj1, by omega⟩, by rw [Nat.add_comm]⟩
  · intro x
    exact objective_cclp items cost weight seeds seed_cost capacity x
  · intro x i hi1 hi2
    exact rowActivity_cclp_assign items weight capacity x i hi1 hi2
  · intro x a hlen hbin hassign i j hi1 hi2 hj1 hj2
    have hb : ∀ i, i < items → ∀ j, j < items →
        x (i * items + j + 1) = 0 ∨ x (i * items + j + 1) = 1 := by
      intro i' hi' j' hj'
      have hle : i' * items + items ≤ items * items := by
        have := Nat.mul_le_mul_right items (show i' + 1 ≤ items by omega)
        rw [Nat.succ_mul] at this
        exact this
      exact hbin _ (by omega) (by omega)
    have h := cclpReadBack_eq_iff items x a hlen hb hassign (i - 1) (j - 1) (by omega) (by omega)
    have hcol : (i - 1) * items + (j - 1) + 1 = (i - 1) * items + j := by omega
    rw [hcol] at h
    exact h

/-- C29 (as stated, refuted). The entries of the cost table are C `int`s.  `farDistance` is
symmetric, zero on the diagonal and satisfies the triangle inequality on the three nodes of
`twoCustomerData`, and all its values are `int`s; but
`dist(1, depot) + dist(1, 2) - dist(depot, 2) = 2^31` is not an `int`, and the entry
`cost[0][1]` that the code stores is `-2147483648`. -/
theorem metric_cost_overflow :
    (nonDepots twoCustomerData twoCustomerData.dimension).length = twoCustomerData.ncustomers
      ∧ (∀ i, i < twoCustomerData.dimension → ∀ j, j < twoCustomerData.dimension →
          farDistance i j = farDistance j i)
      ∧ (∀ i, i < twoCustomerData.dimension → farDistance i i = 0)
      ∧ (∀ i, i < twoCustomerData.dimension → ∀ j, j < twoCustomerData.dimension →
          ∀ k, k < twoCustomerData.dimension →
          farDistance i k ≤ farDistance i j + farDistance j k)
      ∧ (∀ i, i < twoCustomerData.dimension → ∀ j, j < twoCustomerData.dimension →
          0 ≤ farDistance i j ∧ farDistance i j < 2147483648)
      ∧ getD2 (buildClusterInput farDistance twoCustomerData 0).cost 0 1 = -2147483648
      ∧ getD2 (buildClusterInput farDistance twoCustomerData 0).cost 0 1 < 0 := by
  decide

/-- C29 (amended): when the number of nodes not flagged as depots is `ncustomers`, the depot is
one of the nodes, the distances between nodes are non-negative and below `2^30`, and the
distance function is symmetric with `dist(i, i) = 0` on the nodes, the cost table built by
`BEL_SolveVRPProblem` has `cost[a][a] = 0`; under the triangle inequality every `cost[a][b]`
is non-negative, and a negative `cost[a][b]` exhibits three nodes that violate the triangle
inequality. -/
theorem cost_table_nonneg_of_metric (edgelen : Nat → Nat → Int) (data : BEL_VRPData)
    (depot : Nat)
    (hcount : (nonDepots data data.dimension).length = data.ncustomers)
    (hdepot : depot < data.dimension)
    (hrange : ∀ i, i < data.dimension → ∀ j, j < data.dimension →
      0 ≤ edgelen i j ∧ edgelen i j < 1073741824)
    (hsymm : ∀ i, i < data.dimension → ∀ j, j < data.dimension → edgelen i j = edgelen j i)
    (hzero : ∀ i, i < data.dimension → edgelen i i = 0) :
    ∀ a b, a < data.ncustomers → b < data.ncustomers →
      getD2 (buildClusterInput edgelen data depot).cost a a = 0
        ∧ ((∀ i, i < data.dimension → ∀ j, j < data.dimension → ∀ k, k < data.dimension →
              edgelen i k ≤ edgelen i j + edgelen j k) →
            0 ≤ getD2 (buildClusterInput edgelen data depot).cost a b)
        ∧ (getD2 (buildClusterInput edgelen data depot).cost a b < 0 →
            ∃ i j k, i < data.dimension ∧ j < data.dimension ∧ k < data.dimension
              ∧ edgelen i j + edgelen j k < edgelen i k) := by
  intro a b ha hb
  have hrow : costRow edgelen data depot
      = fun i => (nonDepots data data.dimension).map
          (fun j => wrapInt32 (wrapInt32 (edgelen i depot + edgelen i j) - edgelen depot j)) := by
    funext i
    exact costRow_eq edgelen data depot i
  obtain ⟨hia, -, -⟩ := nonDepots_rank_getD data data.dimension a (by omega)
  have hcost : ∀ c, c < data.ncustomers →
      getD2 (buildClusterInput edgelen data depot).cost a c
        = edgelen ((nonDepots data data.dimension).getD a 0) depot
          + edgelen ((nonDepots data data.dimension).getD a 0)
              ((nonDepots data data.dimension).getD c 0)
          - edgelen depot ((nonDepots data data.dimension).getD c 0) := by
    intro c hc
    obtain ⟨hic, -, -⟩ := nonDepots_rank_getD data data.dimension c (by omega)
    have r1 := hrange _ hia depot hdepot
    have r2 := hrange _ hia _ hic
    have r3 := hrange depot hdepot _ hic
    rw [buildClusterInput_eq]
    simp only
    rw [hrow, getD2_map_map _ _
      (fun i j => wrapInt32 (wrapInt32 (edgelen i depot + edgelen i j) - edgelen depot j)) a c
      (by omega) (by omega)]
    rw [wrapInt32_of_range (_ + _) (by omega) (by omega)]
    exact wrapInt32_of_range _ (by omega) (by omega)
  obtain ⟨hib, -, -⟩ := nonDepots_rank_getD data data.dimension b (by omega)
  refine ⟨?_, ?_, ?_⟩
  · rw [hcost a ha, hzero _ hia, hsymm _ hia depot hdepot]
    ring
  · intro htri
    rw [hcost b hb]
    have h1 := htri depot hdepot _ hia _ hib
    rw [hsymm depot hdepot _ hia] at h1
    linarith
  · intro hneg
    rw [hcost b hb] at hneg
    refine ⟨depot, _, _, hdepot, hia, hib, ?_⟩
    rw [hsymm depot hdepot _ hia]
    linarith

theorem cost_table_nonneg_of_metric_witness :
    (nonDepots twoCustomerData twoCustomerData.dimension).length = twoCustomerData.ncustomers
      ∧ 0 < twoCustomerData.dimension
      ∧ (∀ i, i < twoCustomerData.dimension → ∀ j, j < twoCustomerData.dimension →
          0 ≤ depotDistance i j ∧ depotDistance i j < 1073741824)
      ∧ (∀ i, i < twoCustomerData.dimension → ∀ j, j < twoCustomerData.dimension →
          depotDistance i j = depotDistance j i)
      ∧ (∀ i, i < twoCustomerData.dimension → depotDistance i i = 0)
      ∧ ∀ a b, a < twoCustomerData.ncustomers → b < twoCustomerData.ncustomers →
          getD2 (buildClusterInput depotDistance twoCustomerData 0).cost a a = 0
            ∧ ((∀ i, i < twoCustomerData.dimension → ∀ j, j < twoCustomerData.dimension →
                  ∀ k, k < twoCustomerData.dimension →
                  depotDistance i k ≤ depotDistance i j + depotDistance j k) →
                0 ≤ getD2 (buildClusterInput depotDistance twoCustomerData 0).cost a b)
            ∧ (getD2 (buildClusterInput depotDistance twoCustomerData 0).cost a b < 0 →
                ∃ i j k, i < twoCustomerData.dimension ∧ j < twoCustomerData.dimension
                  ∧ k < twoCustomerData.dimension
                  ∧ depotDistance i j + depotDistance j k < depotDistance i k) :=
  ⟨by decide, by decide, by decide, by decide, by decide,
    cost_table_nonneg_of_metric depotDistance twoCustomerData 0 (by decide) (by decide)
      (by decide) (by decide) (by decide)⟩

theorem tsp_small (ext : TourSolvers) (n : Nat) (dat : CCdatagroup) (hn : n ≤ 3) :
    BEL_TSPSolve ext n dat = List.range n := by
  have h : n = 0 ∨ n = 1 ∨ n = 2 ∨ n = 3 := by omega
  rcases h with rfl | rfl | rfl | rfl <;> rfl

theorem perm_range_two (t : List Nat) (h : t.Perm (List.range 2)) : t = [0, 1] ∨ t = [1, 0] := by
  have hlen := h.length_eq
  have hmem : ∀ v, v ∈ t ↔ v = 0 ∨ v = 1 := by
    intro v
    rw [h.mem_iff]
    simp [List.range_succ]
  have hnd : t.Nodup := h.nodup_iff.mpr (List.nodup_range 2)
  match t, hlen, hmem, hnd with
  | [p, q], _, hmem, hnd =>
    have hp := (hmem p).mp (by simp)
    have hq := (hmem q).mp (by simp)
    have hpq : p ≠ q := by
      intro e
      subst e
      simp at hnd
    rcases hp with rfl | rfl <;> rcases hq with rfl | rfl <;> simp at hpq ⊢

theorem perm_range_three (t : List Nat) (h : t.Perm (List.range 3)) :
    t = [0, 1, 2] ∨ t = [0, 2, 1] ∨ t = [1, 0, 2] ∨ t = [1, 2, 0] ∨ t = [2, 0, 1]
      ∨ t = [2, 1, 0] := by
  have hlen := h.length_eq
  have hmem : ∀ v, v ∈ t ↔ v = 0 ∨ v = 1 ∨ v = 2 := by
    intro v
    rw [h.mem_iff]
    simp [List.range_succ]
  have hnd : t.Nodup := h.nodup_iff.mpr (List.nodup_range 3)
  match t, hlen, hmem, hnd with
  | [p, q, r], _, hmem, hnd =>
    have hp := (hmem p).mp (by simp)
    have hq := (hmem q).mp (by simp)
    have hr := (hmem r).mp (by simp)
    simp only [List.nodup_cons, List.mem_cons, List.mem_singleton, List.not_mem_nil,
      or_false, not_or, List.nodup_nil, and_true] at hnd
    obtain ⟨⟨hpq, hpr⟩, hqr⟩ := hnd
    rcases hp with rfl | rfl | rfl <;> rcases hq with rfl | rfl | rfl <;>
      rcases hr with rfl | rfl | rfl <;> simp at hpq hpr hqr ⊢
theorem tourCost_three (edgelen : Nat → Nat → Int) (a b c p q r : Nat) :
    tourCost edgelen [a, b, c] [p, q, r]
      = edgelen ([a, b, c].getD p 0) ([a, b, c].getD q 0)
        + edgelen ([a, b, c].getD q 0) ([a, b, c].getD r 0)
        + edgelen ([a, b, c].getD r 0) ([a, b, c].getD p 0) := by
  unfold tourCost forExcl
  simp only [List.length_cons, List.length_nil]
  show ([edgelen ([a, b, c].getD p 0) ([a, b, c].getD q 0),
      edgelen ([a, b, c].getD q 0) ([a, b, c].getD r 0)] : List Int).sum
    + edgelen ([a, b, c].getD r 0) ([a, b, c].getD p 0) = _
  simp only [List.sum_cons, List.sum_nil]
  ring

theorem tourCost_two (edgelen : Nat → Nat → Int) (a b p q : Nat) :
    tourCost edgelen [a, b] [p, q]
      = edgelen ([a, b].getD p 0) ([a, b].getD q 0)
        + edgelen ([a, b].getD q 0) ([a, b].getD p 0) := by
  unfold tourCost forExcl
  simp only [List.length_cons, List.length_nil]
  show ([edgelen ([a, b].getD p 0) ([a, b].getD q 0)] : List Int).sum
    + edgelen ([a, b].getD q 0) ([a, b].getD p 0) = _
  simp only [List.sum_cons, List.sum_nil]
  ring

/-- For at most three nodes and a distance that is symmetric on them, every tour that is a
permutation of the local indices costs as much as the identity tour. -/
theorem tourCost_small_eq (edgelen : Nat → Nat → Int) (cs : List Nat) (hn : cs.length ≤ 3)
    (hsymm : ∀ i ∈ cs, ∀ j ∈ cs, edgelen i j = edgelen j i) (t : List Nat)
    (ht : t.Perm (List.range cs.length)) :
    tourCost edgelen cs t = tourCost edgelen cs (List.range cs.length) := by
  match cs, hn, hsymm with
  | [], _, _ =>
    have : t = [] := List.Perm.eq_nil (by simpa using ht)
    rw [this]
    rfl
  | [a], _, _ =>
    have : t = [0] := List.perm_singleton.mp ht
    rw [this]
    rfl
  | [a, b], _, hsymm =>
    have hab : edgelen a b = edgelen b a := hsymm a (by simp) b (by simp)
    rcases perm_range_two t ht with rfl | rfl
    · rfl
    · show tourCost edgelen [a, b] [1, 0] = tourCost edgelen [a, b] [0, 1]
      rw [tourCost_two, tourCost_two]
      show edgelen b a + edgelen a b = edgelen a b + edgelen b a
      ring
  | [a, b, c], _, hsymm =>
    have hab : edgelen a b = edgelen b a := hsymm a (by simp) b (by simp)
    have hac : edgelen a c = edgelen c a := hsymm a (by simp) c (by simp)
    have hbc : edgelen b c = edgelen c b := hsymm b (by simp) c (by simp)
    rcases perm_range_three t ht with rfl | rfl | rfl | rfl | rfl | rfl
    · rfl
    · show tourCost edgelen [a, b, c] [0, 2, 1] = tourCost edgelen [a, b, c] [0, 1, 2]
      rw [tourCost_three, tourCost_three]
      show edgelen a c + edgelen c b + edgelen b a = edgelen a b + edgelen b c + edgelen c a
      rw [hab, hac, hbc]
      ring
    · show tourCost edgelen [a, b, c] [1, 0, 2] = tourCost edgelen [a, b, c] [0, 1, 2]
      rw [tourCost_three, tourCost_three]
      show edgelen b a + edgelen a c + edgelen c b = edgelen a b + edgelen b c + edgelen c a
      rw [hab, hac, hbc]
      ring
    · show tourCost edgelen [a, b, c] [1, 2, 0] = tourCost edgelen [a, b, c] [0, 1, 2]
      rw [tourCost_three, tourCost_three]
      show edgelen b c + edgelen c a + edgelen a b = edgelen a b + edgelen b c + edgelen c a
      ring
    · show tourCost edgelen [a, b, c] [2, 0, 1] = tourCost edgelen [a, b, c] [0, 1, 2]
      rw [tourCost_three, tourCost_three]
      show edgelen c a + edgelen a b + edgelen b c = edgelen a b + edgelen b c + edgelen c a
      ring
    · show tourCost edgelen [a, b, c] [2, 1, 0] = tourCost edgelen [a, b, c] [0, 1, 2]
      rw [tourCost_three, tourCost_three]
      show edgelen c b + edgelen b a + edgelen a c = edgelen a b + edgelen b c + edgelen c a
      rw [hab, hac, hbc]
      ring

/-- C25: for `ncount ≤ 3` `BEL_TSPSolve` returns the identity tour `0, 1, ..., ncount - 1`
whatever the Held-Karp and branch-and-cut solvers would answer (they are not consulted), and
for a distance that is symmetric on the nodes of the subset no tour that is a permutation of
the local indices is cheaper. -/
theorem tsp_small_identity_optimal (ext : TourSolvers) (ncount : Nat) (dat : CCdatagroup)
    (hn : ncount ≤ 3) :
    BEL_TSPSolve ext ncount dat = List.range ncount
      ∧ (∀ ext' : TourSolvers, BEL_TSPSolve ext' ncount dat = BEL_TSPSolve ext ncount dat)
      ∧ ∀ (edgelen : Nat → Nat → Int) (cs : List Nat), cs.length = ncount →
          (∀ i ∈ cs, ∀ j ∈ cs, edgelen i j = edgelen j i) →
          ∀ t : List Nat, t.Perm (List.range ncount) →
            tourCost edgelen cs (BEL_TSPSolve ext ncount dat) ≤ tourCost edgelen cs t := by
  refine ⟨tsp_small ext ncount dat hn, fun ext' => ?_, ?_⟩
  · rw [tsp_small ext ncount dat hn, tsp_small ext' ncount dat hn]
  · intro edgelen cs hlen hsymm t ht
    subst hlen
    rw [tsp_small ext cs.length dat hn, tourCost_small_eq edgelen cs hn hsymm t ht]

theorem tsp_small_identity_optimal_witness :
    (3 : Nat) ≤ 3
      ∧ BEL_TSPSolve idleSolvers 3 threeCustomerDat = List.range 3
      ∧ (∀ ext' : TourSolvers,
          BEL_TSPSolve ext' 3 threeCustomerDat = BEL_TSPSolve idleSolvers 3 threeCustomerDat)
      ∧ ∀ (edgelen : Nat → Nat → Int) (cs : List Nat), cs.length = 3 →
          (∀ i ∈ cs, ∀ j ∈ cs, edgelen i j = edgelen j i) →
          ∀ t : List Nat, t.Perm (List.range 3) →
            tourCost edgelen cs (BEL_TSPSolve idleSolvers 3 threeCustomerDat)
              ≤ tourCost edgelen cs t :=
  ⟨by decide, tsp_small_identity_optimal idleSolvers 3 threeCustomerDat (by decide)⟩

theorem pathCost_map_range' (edgelen : Nat → Nat → Int) (w : Nat → Nat) (s m : Nat) :
    pathCost edgelen ((List.range' s (m + 1)).map w)
      = ((List.range' (s + 1) m).map (fun k => edgelen (w (k - 1)) (w k))).sum := by
  induction m generalizing s with
  | zero => rfl
  | succ m ih =>
    rw [List.range'_succ, List.map_cons, List.range'_succ, List.map_cons, pathCost,
      ← List.map_cons, ← List.range'_succ, ih (s + 1)]
    rw [List.range'_succ (s + 1), List.map_cons, List.sum_cons, Nat.add_sub_cancel]

theorem getLastD_map_range' (w : Nat → Nat) (s m d : Nat) :
    ((List.range' s (m + 1)).map w).getLastD d = w (s + m) := by
  rw [List.range'_concat, List.map_append, List.map_singleton, List.getLastD_concat,
    Nat.one_mul]

/-- The cost that the route loop adds for one cluster is the closed-tour cost recomputed from
the stored route, when the node subset starts with the depot and the tour with index 0. -/
theorem tourCost_eq_closedTourCost (edgelen : Nat → Nat → Int) (depot : Nat) (rest : List Nat)
    (tour : List Nat) (h0 : tour.getD 0 0 = 0) :
    tourCost edgelen (depot :: rest) tour
      = closedTourCost edgelen depot (decodeRoute (depot :: rest) tour) := by
  have hw0 : (depot :: rest).getD (tour.getD 0 0) 0 = depot := by
    rw [h0]
    rfl
  have hlist : depot :: decodeRoute (depot :: rest) tour
      = (List.range' 0 (rest.length + 1)).map
          (fun k => (depot :: rest).getD (tour.getD k 0) 0) := by
    rw [List.range'_succ, List.map_cons, hw0]
    rfl
  unfold closedTourCost
  rw [hlist, pathCost_map_range', getLastD_map_range']
  unfold tourCost forExcl
  rw [hw0]
  simp only [List.length_cons, Nat.add_sub_cancel, Nat.zero_add]

theorem getD_set_self_list (l : List (List Nat)) (i : Nat) (v : List Nat) (h : i < l.length) :
    (l.set i v).getD i [] = v := by
  rw [List.getD_eq_getElem?_getD, List.getElem?_set_self h]
  rfl

theorem getD_set_ne_list (l : List (List Nat)) (i k : Nat) (v : List Nat) (h : i ≠ k) :
    (l.set i v).getD k [] = l.getD k [] := by
  rw [List.getD_eq_getElem?_getD, List.getD_eq_getElem?_getD, List.getElem?_set_ne h]

theorem map_getD_range_length (l : List (List Nat)) (f : List Nat → Int) :
    (List.range l.length).map (fun i => f (l.getD i [])) = l.map f := by
  apply List.ext_getElem
  · simp
  · intro i h1 h2
    simp only [List.getElem_map, List.getElem_range]
    rw [List.getD_eq_getElem _ _ (by simpa using h1)]
/-- One iteration of the route loop, when the loop as a whole stays within the arrays. -/
theorem routeLoop_cons_some (edgelen : Nat → Nat → Int) (tsp : Nat → CCdatagroup → List Nat)
    (st : Statics) (dat : CCdatagroup) (items depot : Nat) (cluster : List Int)
    (t : ClusterInput) (seed : List Int) (i : Nat) (rest : List Nat) (sol : BEL_VRPSolution)
    (c : Int) (r : Int × BEL_VRPSolution × Int)
    (hr : routeLoop edgelen tsp st dat items depot cluster t seed (i :: rest) sol c = some r) :
    ∃ s cs, readIdx t.node2customer (seed.getD i 0) = some s
      ∧ currentSet items depot cluster t.customer2node s = some cs
      ∧ ((routeDat st dat cs = none ∧ r = (1, sol, c))
        ∨ ∃ rdat, routeDat st dat cs = some rdat
            ∧ routeLoop edgelen tsp st dat items depot cluster t seed rest
                { sol with routelen := sol.routelen.set i ((cs.length : Int) - 1)
                           routes := sol.routes.set i (decodeRoute cs (tsp cs.length rdat)) }
                (addTourCost edgelen cs (tsp cs.length rdat) c) = some r) := by
  unfold routeLoop at hr
  split at hr
  · exact absurd hr (by simp)
  · rename_i s hs
    split at hr
    · exact absurd hr (by simp)
    · rename_i cs hcs
      refine ⟨s, cs, hs, hcs, ?_⟩
      split at hr
      · rename_i hd
        rw [Option.some.injEq] at hr
        exact Or.inl ⟨hd, hr.symm⟩
      · rename_i rdat hd
        exact Or.inr ⟨rdat, hd, hr⟩

theorem routeLoop_frame (edgelen : Nat → Nat → Int) (tsp : Nat → CCdatagroup → List Nat)
    (st : Statics) (dat : CCdatagroup) (items depot : Nat) (cluster : List Int)
    (t : ClusterInput) (seed : List Int) (l : List Nat) (sol : BEL_VRPSolution) (c : Int)
    (r : Int × BEL_VRPSolution × Int)
    (hr : routeLoop edgelen tsp st dat items depot cluster t seed l sol c = some r) :
    r.2.1.routes.length = sol.routes.length
      ∧ r.2.1.routelen.length = sol.routelen.length
      ∧ r.2.1.nvehicles = sol.nvehicles
      ∧ ∀ k, k ∉ l →
          r.2.1.routes.getD k [] = sol.routes.getD k []
            ∧ r.2.1.routelen.getD k 0 = sol.routelen.getD k 0 := by
  induction l generalizing sol c with
  | nil =>
    unfold routeLoop at hr
    rw [Option.some.injEq] at hr
    rw [← hr]
    exact ⟨rfl, rfl, rfl, fun _ _ => ⟨rfl, rfl⟩⟩
  | cons i rest ih =>
    obtain ⟨s, cs, -, -, h | ⟨rdat, -, hrest⟩⟩ := routeLoop_cons_some _ _ _ _ _ _ _ _ _ _ _ _ _ _ hr
    · rw [h.2]
      exact ⟨rfl, rfl, rfl, fun _ _ => ⟨rfl, rfl⟩⟩
    · obtain ⟨h1, h2, h3, h4⟩ := ih _ _ hrest
      simp only [List.length_set] at h1 h2
      refine ⟨h1, h2, h3, fun k hk => ?_⟩
      rw [List.mem_cons, not_or] at hk
      obtain ⟨h5, h6⟩ := h4 k hk.2
      simp only at h5 h6
      rw [getD_set_ne_list _ _ _ _ (Ne.symm hk.1)] at h5
      rw [getD_set_ne _ _ _ _ (Ne.symm hk.1)] at h6
      exact ⟨h5, h6⟩

/-- What a completed route loop has stored for the vehicle `i`. -/
theorem routeLoop_at (edgelen : Nat → Nat → Int) (tsp : Nat → CCdatagroup → List Nat)
    (st : Statics) (dat : CCdatagroup) (items depot : Nat) (cluster : List Int)
    (t : ClusterInput) (seed : List Int) (l : List Nat) (hnd : l.Nodup)
    (sol : BEL_VRPSolution) (c : Int) (r : Int × BEL_VRPSolution × Int)
    (hr : routeLoop edgelen tsp st dat items depot cluster t seed l sol c = some r)
    (h0 : r.1 = 0)
    (hlt : ∀ i ∈ l, i < sol.routes.length ∧ i < sol.routelen.length) :
    ∀ i ∈ l, ∃ s rdat,
      readIdx t.node2customer (seed.getD i 0) = some s
        ∧ (clusterNodes items depot cluster t.customer2node s).length ≤ items
        ∧ routeDat st dat (clusterNodes items depot cluster t.customer2node s) = some rdat
        ∧ r.2.1.routes.getD i []
            = decodeRoute (clusterNodes items depot cluster t.customer2node s)
                (tsp (clusterNodes items depot cluster t.customer2node s).length rdat)
        ∧ r.2.1.routelen.getD i 0
            = ((clusterNodes items depot cluster t.customer2node s).length : Int) - 1 := by
  induction l generalizing sol c with
  | nil => intro i hi; simp at hi
  | cons j rest ih =>
    obtain ⟨s, cs, hs, hcs, h | ⟨rdat, hd, hrest⟩⟩ :=
      routeLoop_cons_some _ _ _ _ _ _ _ _ _ _ _ _ _ _ hr
    · rw [h.2] at h0
      simp at h0
    · have hcs2 : cs = clusterNodes items depot cluster t.customer2node s
          ∧ (clusterNodes items depot cluster t.customer2node s).length ≤ items := by
        unfold currentSet at hcs
        split at hcs
        · rename_i hle
          rw [Option.some.injEq] at hcs
          exact ⟨hcs.symm, hle⟩
        · exact absurd hcs (by simp)
      rw [List.nodup_cons] at hnd
      intro i hi
      rw [List.mem_cons] at hi
      rcases hi with rfl | hi
      · obtain ⟨-, -, -, hfr⟩ := routeLoop_frame _ _ _ _ _ _ _ _ _ _ _ _ _ hrest
        obtain ⟨h5, h6⟩ := hfr i hnd.1
        simp only at h5 h6
        have hb := hlt i (List.mem_cons_self _ _)
        rw [getD_set_self_list _ _ _ hb.1] at h5
        rw [getD_set_eq _ _ _ hb.2] at h6
        rw [hcs2.1] at hd h5 h6
        exact ⟨s, rdat, hs, hcs2.2, hd, h5, h6⟩
      · exact ih hnd.2 _ _ hrest (fun k hk => by
          have := hlt k (List.mem_cons_of_mem _ hk)
          simp only [List.length_set]
          exact this) i hi
theorem foldl_wrap_add_eq (l : List Int) (c : Int) (hc : 0 ≤ c) (hl : ∀ e ∈ l, 0 ≤ e)
    (hb : c + l.sum < 2147483648) :
    l.foldl (fun acc e => wrapInt32 (acc + e)) c = c + l.sum := by
  induction l generalizing c with
  | nil => simp
  | cons a l ih =>
    have ha := hl a (List.mem_cons_self _ _)
    have hs : 0 ≤ l.sum := List.sum_nonneg (fun e he => hl e (List.mem_cons_of_mem _ he))
    rw [List.sum_cons] at hb
    rw [List.foldl_cons, wrapInt32_of_range (c + a) (by omega) (by omega),
      ih (c + a) (by omega) (fun e he => hl e (List.mem_cons_of_mem _ he)) (by omega),
      List.sum_cons]
    omega

/-- Without overflow the updates of `total_cost` for one route add its exact closed-tour
cost. -/
theorem addTourCost_eq (edgelen : Nat → Nat → Int) (cs tour : List Nat) (c : Int)
    (hnn : ∀ i j, 0 ≤ edgelen i j) (hc : 0 ≤ c)
    (hb : c + tourCost edgelen cs tour < 2147483648) :
    addTourCost edgelen cs tour c = c + tourCost edgelen cs tour := by
  unfold addTourCost
  unfold tourCost at hb ⊢
  have hs : 0 ≤ ((forExcl 1 cs.length).map (fun k =>
      edgelen (cs.getD (tour.getD (k - 1) 0) 0) (cs.getD (tour.getD k 0) 0))).sum :=
    List.sum_nonneg (fun e he => by
      rw [List.mem_map] at he
      obtain ⟨k, -, rfl⟩ := he
      exact hnn _ _)
  have hlast := hnn (cs.getD (tour.getD (cs.length - 1) 0) 0) (cs.getD (tour.getD 0 0) 0)
  have hfold : (forExcl 1 cs.length).foldl (fun acc k =>
        wrapInt32 (acc + edgelen (cs.getD (tour.getD (k - 1) 0) 0) (cs.getD (tour.getD k 0) 0)))
        c
      = c + ((forExcl 1 cs.length).map (fun k =>
          edgelen (cs.getD (tour.getD (k - 1) 0) 0) (cs.getD (tour.getD k 0) 0))).sum := by
    rw [← foldl_wrap_add_eq _ c hc (fun e he => by
      rw [List.mem_map] at he
      obtain ⟨k, -, rfl⟩ := he
      exact hnn _ _) (by omega), List.foldl_map]
  rw [hfold, wrapInt32_of_range _ (by omega) (by omega)]
  ring

theorem pathCost_nonneg (edgelen : Nat → Nat → Int) (hnn : ∀ i j, 0 ≤ edgelen i j)
    (l : List Nat) : 0 ≤ pathCost edgelen l := by
  induction l with
  | nil => exact le_refl _
  | cons a l ih =>
    cases l with
    | nil => exact le_refl _
    | cons b l =>
      unfold pathCost
      exact add_nonneg (hnn a b) ih

theorem closedTourCost_nonneg (edgelen : Nat → Nat → Int) (hnn : ∀ i j, 0 ≤ edgelen i j)
    (depot : Nat) (r : List Nat) : 0 ≤ closedTourCost edgelen depot r := by
  unfold closedTourCost
  exact add_nonneg (pathCost_nonneg edgelen hnn _) (hnn _ _)

/-- Without overflow the route loop adds, for every vehicle it visits, the closed-tour cost of
the route it has stored for that vehicle. -/
theorem routeLoop_cost (edgelen : Nat → Nat → Int) (tsp : Nat → CCdatagroup → List Nat)
    (htour : ∀ n rdat, (tsp n rdat).getD 0 0 = 0) (hnn : ∀ i j, 0 ≤ edgelen i j)
    (st : Statics) (dat : CCdatagroup) (items depot : Nat) (cluster : List Int)
    (t : ClusterInput) (seed : List Int) (l : List Nat) (hnd : l.Nodup)
    (sol : BEL_VRPSolution) (c : Int) (r : Int × BEL_VRPSolution × Int)
    (hr : routeLoop edgelen tsp st dat items depot cluster t seed l sol c = some r)
    (h0 : r.1 = 0)
    (hlt : ∀ i ∈ l, i < sol.routes.length)
    (hc : 0 ≤ c)
    (hb : c + (l.map (fun i => closedTourCost edgelen depot (r.2.1.routes.getD i []))).sum
      < 2147483648) :
    r.2.2 = c + (l.map (fun i => closedTourCost edgelen depot (r.2.1.routes.getD i []))).sum := by
  induction l generalizing sol c with
  | nil =>
    unfold routeLoop at hr
    rw [Option.some.injEq] at hr
    rw [← hr]
    simp
  | cons j rest ih =>
    obtain ⟨s, cs, hs, hcs, h | ⟨rdat, hd, hrest⟩⟩ :=
      routeLoop_cons_some _ _ _ _ _ _ _ _ _ _ _ _ _ _ hr
    · rw [h.2] at h0
      simp at h0
    · have hcs2 : cs = depot :: (List.range items).filterMap (fun j =>
          if cluster.getD j 0 = s then some (t.customer2node.getD j 0) else none) := by
        unfold currentSet at hcs
        split at hcs
        · rw [Option.some.injEq] at hcs
          exact hcs.symm
        · exact absurd hcs (by simp)
      rw [List.nodup_cons] at hnd
      obtain ⟨-, -, -, hfr⟩ := routeLoop_frame _ _ _ _ _ _ _ _ _ _ _ _ _ hrest
      obtain ⟨h5, -⟩ := hfr j hnd.1
      simp only at h5
      rw [getD_set_self_list _ _ _ (hlt j (List.mem_cons_self _ _))] at h5
      have hroute : closedTourCost edgelen depot (r.2.1.routes.getD j [])
          = tourCost edgelen cs (tsp cs.length rdat) := by
        rw [h5, hcs2, tourCost_eq_closedTourCost edgelen depot _ _ (htour _ _)]
      rw [List.map_cons, List.sum_cons, hroute] at hb ⊢
      have hrestnn : 0 ≤ (rest.map
          (fun i => closedTourCost edgelen depot (r.2.1.routes.getD i []))).sum :=
        List.sum_nonneg (fun e he => by
          rw [List.mem_map] at he
          obtain ⟨k, -, rfl⟩ := he
          exact closedTourCost_nonneg edgelen hnn _ _)
      have htc : 0 ≤ tourCost edgelen cs (tsp cs.length rdat) := by
        rw [← hroute]
        exact closedTourCost_nonneg edgelen hnn _ _
      have hadd := addTourCost_eq edgelen cs (tsp cs.length rdat) c hnn hc (by omega)
      rw [hadd] at hrest
      have hrec := ih hnd.2 _ _ hrest (fun k hk => by
        have := hlt k (List.mem_cons_of_mem _ hk)
        simp only [List.length_set]
        exact this) (by omega) (by omega)
      rw [hrec]
      ring

/-- The parts of a call of `BEL_SolveVRPProblem` that stays within its arrays. -/
theorem solveVRP_some (edgelen : Nat → Nat → Int) (solver : MipProblem → MipResult)
    (tsp : Nat → CCdatagroup → List Nat) (st : Statics) (dat : CCdatagroup)
    (cluster0 seed0 : List Int) (data : BEL_VRPData) (sol : BEL_VRPSolution)
    (res : Int × BEL_VRPSolution)
    (hres : BEL_SolveVRPProblem edgelen solver tsp st dat cluster0 seed0 data sol = some res) :
    ∃ seed r,
      detectSeeds data.ncustomers data.nvehicles
          (BEL_CCLPSolve solver data.ncustomers
            (buildClusterInput edgelen data (data.depots.getD st.curr_depot 0).toNat).cost
            (buildClusterInput edgelen data (data.depots.getD st.curr_depot 0).toNat).demand
            data.nvehicles
            (buildClusterInput edgelen data (data.depots.getD st.curr_depot 0).toNat).seed_cost
            data.capacity cluster0).2
          (buildClusterInput edgelen data (data.depots.getD st.curr_depot 0).toNat).customer2node
          seed0 = some seed
      ∧ routeLoop edgelen tsp st dat data.ncustomers (data.depots.getD st.curr_depot 0).toNat
          (BEL_CCLPSolve solver data.ncustomers
            (buildClusterInput edgelen data (data.depots.getD st.curr_depot 0).toNat).cost
            (buildClusterInput edgelen data (data.depots.getD st.curr_depot 0).toNat).demand
            data.nvehicles
            (buildClusterInput edgelen data (data.depots.getD st.curr_depot 0).toNat).seed_cost
            data.capacity cluster0).2
          (buildClusterInput edgelen data (data.depots.getD st.curr_depot 0).toNat) seed
          (List.range data.nvehicles.toNat)
          { sol with nvehicles := data.nvehicles
                     routelen := List.replicate data.nvehicles.toNat 0
                     routes := List.replicate data.nvehicles.toNat [] } 0 = some r
      ∧ ((r.1 = 1 ∧ res = (1, r.2.1)) ∨ (r.1 ≠ 1 ∧ res = (0, { r.2.1 with cost := r.2.2 }))) := by
  unfold BEL_SolveVRPProblem at hres
  simp only at hres
  split at hres
  · exact absurd hres (by simp)
  · split at hres
    · exact absurd hres (by simp)
    · rename_i seed hseed
      split at hres
      · exact absurd hres (by simp)
      · rename_i r hloop
        refine ⟨seed, r, hseed, hloop, ?_⟩
        by_cases h1 : r.1 = 1
        · rw [if_pos h1, Option.some.injEq] at hres
          exact Or.inl ⟨h1, hres.symm⟩
        · rw [if_neg h1, Option.some.injEq] at hres
          exact Or.inr ⟨h1, hres.symm⟩

theorem routeLoop_ret (edgelen : Nat → Nat → Int) (tsp : Nat → CCdatagroup → List Nat)
    (st : Statics) (dat : CCdatagroup) (items depot : Nat) (cluster : List Int)
    (t : ClusterInput) (seed : List Int) (l : List Nat) (sol : BEL_VRPSolution) (c : Int)
    (r : Int × BEL_VRPSolution × Int)
    (hr : routeLoop edgelen tsp st dat items depot cluster t seed l sol c = some r) :
    r.1 = 0 ∨ r.1 = 1 := by
  induction l generalizing sol c with
  | nil =>
    unfold routeLoop at hr
    rw [Option.some.injEq] at hr
    rw [← hr]
    exact Or.inl rfl
  | cons j rest ih =>
    obtain ⟨s, cs, -, -, h1 | ⟨rdat, -, hrest⟩⟩ :=
      routeLoop_cons_some _ _ _ _ _ _ _ _ _ _ _ _ _ _ hr
    · rw [h1.2]
      exact Or.inr rfl
    · exact ih _ _ hrest

/-- A call of `BEL_SolveVRPProblem` that returns 0: the route loop ran to its end. -/
theorem solveVRP_zero (edgelen : Nat → Nat → Int) (solver : MipProblem → MipResult)
    (tsp : Nat → CCdatagroup → List Nat) (st : Statics) (dat : CCdatagroup)
    (cluster0 seed0 : List Int) (data : BEL_VRPData) (sol sol' : BEL_VRPSolution)
    (hrun : BEL_SolveVRPProblem edgelen solver tsp st dat cluster0 seed0 data sol
      = some (0, sol')) :
    ∃ seed r,
      detectSeeds data.ncustomers data.nvehicles
          (BEL_CCLPSolve solver data.ncustomers
            (buildClusterInput edgelen data (data.depots.getD st.curr_depot 0).toNat).cost
            (buildClusterInput edgelen data (data.depots.getD st.curr_depot 0).toNat).demand
            data.nvehicles
            (buildClusterInput edgelen data (data.depots.getD st.curr_depot 0).toNat).seed_cost
            data.capacity cluster0).2
          (buildClusterInput edgelen data (data.depots.getD st.curr_depot 0).toNat).customer2node
          seed0 = some seed
      ∧ routeLoop edgelen tsp st dat data.ncustomers (data.depots.getD st.curr_depot 0).toNat
          (BEL_CCLPSolve solver data.ncustomers
            (buildClusterInput edgelen data (data.depots.getD st.curr_depot 0).toNat).cost
            (buildClusterInput edgelen data (data.depots.getD st.curr_depot 0).toNat).demand
            data.nvehicles
            (buildClusterInput edgelen data (data.depots.getD st.curr_depot 0).toNat).seed_cost
            data.capacity cluster0).2
          (buildClusterInput edgelen data (data.depots.getD st.curr_depot 0).toNat) seed
          (List.range data.nvehicles.toNat)
          { sol with nvehicles := data.nvehicles
                     routelen := List.replicate data.nvehicles.toNat 0
                     routes := List.replicate data.nvehicles.toNat [] } 0 = some r
      ∧ r.1 = 0 ∧ sol' = { r.2.1 with cost := r.2.2 } := by
  obtain ⟨seed, r, hseed, hloop, h | h⟩ := solveVRP_some _ _ _ _ _ _ _ _ _ _ hrun
  · have := h.2
    rw [Prod.mk.injEq] at this
    exact absurd this.1 (by decide)
  · refine ⟨seed, r, hseed, hloop, ?_, ?_⟩
    · rcases routeLoop_ret _ _ _ _ _ _ _ _ _ _ _ _ _ hloop with h1 | h1
      · exact h1
      · exact absurd h1 h.1
    · have := h.2
      rw [Prod.mk.injEq] at this
      exact this.2

theorem identityTour_head (n : Nat) (rdat : CCdatagroup) : (identityTour n rdat).getD 0 0 = 0 := by
  unfold identityTour
  cases n with
  | zero => rfl
  | succ n => rw [List.range_succ_eq_map]; rfl

theorem depotDistance_nonneg (i j : Nat) : 0 ≤ depotDistance i j := by
  unfold depotDistance
  split_ifs <;> decide

/-- C22 (as stated, refuted). `total_cost` and `sol->cost` are C `int`s.  On `twoCustomerData`
with both customers at distance `2^29` from the depot, one customer per vehicle and identity
tours, the call returns 0 with the routes `[1]` and `[2]`; each closed tour costs `2^30`, the
recomputed sum is `2^31`, which is not an `int`, and the code stores
`sol->cost = -2147483648`. -/
theorem solution_cost_overflow :
    (∀ n rdat, (identityTour n rdat).getD 0 0 = 0)
      ∧ (∀ n rdat, (identityTour n rdat).Perm (List.range n))
      ∧ (∀ i, i < twoCustomerData.dimension → ∀ j, j < twoCustomerData.dimension →
          0 ≤ halfwayDistance i j ∧ halfwayDistance i j < 2147483648)
      ∧ BEL_SolveVRPProblem halfwayDistance ownSeedsSolver identityTour planeStatics
          halfwayDat [0, 0] [0, 0] twoCustomerData emptySolution
        = some (0, { routes := [[1], [2]], routelen := [1, 1], cost := -2147483648,
                     nvehicles := 2 })
      ∧ closedTourCost halfwayDistance 0 [1] = 1073741824
      ∧ closedTourCost halfwayDistance 0 [2] = 1073741824
      ∧ (([[1], [2]] : List (List Nat)).map (closedTourCost halfwayDistance 0)).sum
          = 2147483648 := by
  refine ⟨identityTour_head, fun n _ => List.Perm.refl _, by decide, by decide, by decide,
    by decide, by decide⟩

/-- C22 (amended): when the distances are non-negative, every tour returned by the tour solver
starts at local index 0, `BEL_SolveVRPProblem` returns 0 and the sum, over the stored routes
(one per vehicle), of the closed-tour cost `dist(depot, r[0]) + ∑ dist(r[k], r[k+1]) +
dist(r[last], depot)` recomputed from the stored route alone is below `2^31`, `sol->cost` is
that sum; nothing else is added. -/
theorem solution_cost_is_sum_of_route_costs (edgelen : Nat → Nat → Int)
    (solver : MipProblem → MipResult) (tsp : Nat → CCdatagroup → List Nat) (st : Statics)
    (dat : CCdatagroup) (cluster0 seed0 : List Int) (data : BEL_VRPData)
    (sol sol' : BEL_VRPSolution)
    (hnn : ∀ i j, 0 ≤ edgelen i j)
    (htour : ∀ n rdat, (tsp n rdat).getD 0 0 = 0)
    (hrun : BEL_SolveVRPProblem edgelen solver tsp st dat cluster0 seed0 data sol
      = some (0, sol'))
    (hfit : (sol'.routes.map
        (closedTourCost edgelen (data.depots.getD st.curr_depot 0).toNat)).sum < 2147483648) :
    sol'.cost
        = (sol'.routes.map
            (closedTourCost edgelen (data.depots.getD st.curr_depot 0).toNat)).sum
      ∧ sol'.routes.length = data.nvehicles.toNat := by
  obtain ⟨seed, r, -, hloop, h0, hsol⟩ := solveVRP_zero _ _ _ _ _ _ _ _ _ _ hrun
  obtain ⟨hlen, -, -, -⟩ := routeLoop_frame _ _ _ _ _ _ _ _ _ _ _ _ _ hloop
  simp only [List.length_replicate] at hlen
  rw [hsol] at hfit ⊢
  simp only at hfit ⊢
  have hsum : ((List.range data.nvehicles.toNat).map (fun i =>
        closedTourCost edgelen (data.depots.getD st.curr_depot 0).toNat
          (r.2.1.routes.getD i []))).sum
      = (r.2.1.routes.map
          (closedTourCost edgelen (data.depots.getD st.curr_depot 0).toNat)).sum := by
    rw [← hlen, map_getD_range_length]
  have hcost := routeLoop_cost edgelen tsp htour hnn _ _ _ _ _ _ _ _ (List.nodup_range _) _ _ r
    hloop h0 (fun i hi => by
      simp only [List.length_replicate]
      exact List.mem_range.mp hi) (le_refl _) (by rw [hsum, zero_add]; exact hfit)
  refine ⟨?_, hlen⟩
  rw [hcost, zero_add, hsum]

theorem solution_cost_is_sum_of_route_costs_witness :
    (∀ i j, 0 ≤ depotDistance i j)
      ∧ (∀ n rdat, (identityTour n rdat).getD 0 0 = 0)
      ∧ BEL_SolveVRPProblem depotDistance ownSeedsSolver identityTour planeStatics
          twoCustomerDat [0, 0] [0, 0] twoCustomerData emptySolution
        = some (0, { routes := [[1], [2]], routelen := [1, 1], cost := 8, nvehicles := 2 })
      ∧ (([[1], [2]] : List (List Nat)).map
            (closedTourCost depotDistance
              (twoCustomerData.depots.getD planeStatics.curr_depot 0).toNat)).sum < 2147483648
      ∧ (8 : Int)
          = (([[1], [2]] : List (List Nat)).map
              (closedTourCost depotDistance
                (twoCustomerData.depots.getD planeStatics.curr_depot 0).toNat)).sum
      ∧ ([[1], [2]] : List (List Nat)).length = twoCustomerData.nvehicles.toNat :=
  ⟨depotDistance_nonneg, identityTour_head, by decide, by decide,
    solution_cost_is_sum_of_route_costs depotDistance ownSeedsSolver identityTour planeStatics
      twoCustomerDat [0, 0] [0, 0] twoCustomerData emptySolution
      { routes := [[1], [2]], routelen := [1, 1], cost := 8, nvehicles := 2 }
      depotDistance_nonneg identityTour_head (by decide) (by decide)⟩

theorem map_getD_cons_range' (a d : Nat) (l : List Nat) :
    (List.range' 1 l.length).map (fun k => (a :: l).getD k d) = l := by
  apply List.ext_getElem
  · simp
  · intro i h1 h2
    simp only [List.getElem_map, List.getElem_range', Nat.one_mul]
    rw [List.getD_eq_getElem _ _ (by simp; omega)]
    simp [Nat.add_comm 1 i]

/-- A tour that is a permutation of the local indices and starts at 0 decodes to a permutation
of the nodes that follow the depot. -/
theorem decodeRoute_perm (depot : Nat) (rest tour : List Nat)
    (hperm : tour.Perm (List.range (rest.length + 1))) (h0 : tour.getD 0 0 = 0) :
    (decodeRoute (depot :: rest) tour).Perm rest := by
  have hlen : tour.length = rest.length + 1 := by
    rw [hperm.length_eq, List.length_range]
  match tour, hlen, hperm, h0 with
  | a :: tl, hlen, hperm, h0 =>
    have ha : a = 0 := h0
    subst ha
    have htl : tl.length = rest.length := by
      simp only [List.length_cons] at hlen
      omega
    have hr : List.range (rest.length + 1) = 0 :: List.range' 1 rest.length := by
      rw [List.range_eq_range', List.range'_succ]
    rw [hr] at hperm
    have hp2 : tl.Perm (List.range' 1 rest.length) := hperm.cons_inv
    have hdec : decodeRoute (depot :: rest) (0 :: tl)
        = tl.map (fun v => (depot :: rest).getD v 0) := by
      unfold decodeRoute forExcl
      simp only [List.length_cons, Nat.add_sub_cancel]
      have : (List.range' 1 rest.length).map (fun k => (0 :: tl).getD k 0) = tl := by
        rw [← htl]
        exact map_getD_cons_range' 0 0 tl
      conv_rhs => rw [← this]
      rw [List.map_map]
      rfl
    rw [hdec]
    have := hp2.map (fun v => (depot :: rest).getD v 0)
    rw [map_getD_cons_range'] at this
    exact this

theorem filterMap_ite_eq_map_filter_nat (l : List Nat) (p : Nat → Prop) [DecidablePred p]
    (f : Nat → Nat) :
    l.filterMap (fun j => if p j then some (f j) else none) = (l.filter (fun j => p j)).map f := by
  induction l with
  | nil => rfl
  | cons a l ih =>
    by_cases h : p a
    · rw [List.filterMap_cons_some (by rw [if_pos h]), List.filter_cons_of_pos (by simpa using h),
        List.map_cons, ih]
    · rw [List.filterMap_cons_none (by rw [if_neg h]), List.filter_cons_of_neg (by simpa using h),
        ih]

/-- The node subset of a cluster: the depot, then the nodes of its customers in increasing
order of the customer index. -/
theorem clusterNodes_eq (items depot : Nat) (cluster : List Int) (customer2node : List Nat)
    (s : Int) :
    clusterNodes items depot cluster customer2node s
      = depot :: ((List.range items).filter (fun j => cluster.getD j 0 = s)).map
          (fun j => customer2node.getD j 0) := by
  unfold clusterNodes
  rw [filterMap_ite_eq_map_filter_nat _ (fun j => cluster.getD j 0 = s)]

/-- C21 (the general property and the code at the failing input). In a call of
`BEL_SolveVRPProblem` that stays within its arrays and returns 0, with tours that are
permutations of the local indices starting at 0, each vehicle `i` has the node subset
`current_set` = the depot followed by the nodes of the customers `j` with
`cluster[j] = node2customer[seed[i]]` in increasing order of `j`, `routelen[i] = n - 1`,
`routes[i][k-1] = current_set[tour[k]]`, and the stored route is a permutation of the cluster's
nodes without the depot.  But `current_set` has `items` entries and receives the depot and the
customers: on `oneRouteData` (three customers on one vehicle) the subset is `[0, 1, 2, 3]`, the
write `current_set[3]` is outside the array, and the call has no defined result. -/
theorem route_decoding_and_current_set_bound :
    (∀ (edgelen : Nat → Nat → Int) (solver : MipProblem → MipResult)
        (tsp : Nat → CCdatagroup → List Nat) (st : Statics) (dat : CCdatagroup)
        (cluster0 seed0 : List Int) (data : BEL_VRPData) (sol sol' : BEL_VRPSolution),
        (nonDepots data data.dimension).length = data.ncustomers →
        data.isadepot.getD (solveDepot st data) 0 ≠ 0 →
        (∀ n rdat, (tsp n rdat).Perm (List.range n) ∧ (tsp n rdat).getD 0 0 = 0) →
        BEL_SolveVRPProblem edgelen solver tsp st dat cluster0 seed0 data sol
          = some (0, sol') →
        ∃ seed,
          detectSeeds data.ncustomers data.nvehicles
              (solveCluster edgelen solver st cluster0 data)
              (buildClusterInput edgelen data (solveDepot st data)).customer2node seed0
            = some seed
          ∧ ∀ i, i < data.nvehicles.toNat → ∃ s cs rdat,
              readIdx (buildClusterInput edgelen data (solveDepot st data)).node2customer
                  (seed.getD i 0) = some s
              ∧ cs = solveDepot st data
                  :: ((List.range data.ncustomers).filter
                        (fun j => (solveCluster edgelen solver st cluster0 data).getD j 0 = s)).map
                      (fun j =>
                        (buildClusterInput edgelen data (solveDepot st data)).customer2node.getD
                          j 0)
              ∧ cs.length ≤ data.ncustomers
              ∧ routeDat st dat cs = some rdat
              ∧ sol'.routelen.getD i 0 = (cs.length : Int) - 1
              ∧ sol'.routes.getD i []
                  = (forExcl 1 cs.length).map (fun k => cs.getD ((tsp cs.length rdat).getD k 0) 0)
              ∧ (sol'.routes.getD i []).Perm cs.tail
              ∧ solveDepot st data ∉ sol'.routes.getD i [])
      ∧ SolverSound oneSeedSolver
          (cclpProblem oneRouteData.ncustomers
            (buildClusterInput roundedDistance oneRouteData 0).cost
            (buildClusterInput roundedDistance oneRouteData 0).demand
            oneRouteData.nvehicles
            (buildClusterInput roundedDistance oneRouteData 0).seed_cost
            oneRouteData.capacity)
      ∧ solveCluster roundedDistance oneSeedSolver planeStatics [0, 0, 0] oneRouteData
          = [2, 2, 2]
      ∧ detectSeeds 3 1 [2, 2, 2] [1, 2, 3] [0] = some [3]
      ∧ readIdx (buildClusterInput roundedDistance oneRouteData 0).node2customer 3 = some 2
      ∧ clusterNodes 3 0 [2, 2, 2] [1, 2, 3] 2 = [0, 1, 2, 3]
      ∧ ¬ (clusterNodes 3 0 [2, 2, 2] [1, 2, 3] 2).length ≤ oneRouteData.ncustomers
      ∧ currentSet 3 0 [2, 2, 2] [1, 2, 3] 2 = none
      ∧ BEL_SolveVRPProblem roundedDistance oneSeedSolver (BEL_TSPSolve idleSolvers)
          planeStatics threeCustomerDat [0, 0, 0] [0] oneRouteData emptySolution = none := by
  refine ⟨?_, by decide, by decide, by decide, by decide, by decide, by decide, by decide,
    by decide⟩
  intro edgelen solver tsp st dat cluster0 seed0 data sol sol' hcount hdepot htour hrun
  obtain ⟨seed, r, hseed, hloop, h0, hsol⟩ := solveVRP_zero _ _ _ _ _ _ _ _ _ _ hrun
  refine ⟨seed, hseed, fun i hi => ?_⟩
  obtain ⟨s, rdat, hs, hle, hd, hroute, hlen⟩ :=
    routeLoop_at _ _ _ _ _ _ _ _ _ _ (List.nodup_range _) _ _ r hloop h0
      (fun k hk => by
        simp only [List.length_replicate]
        exact ⟨List.mem_range.mp hk, List.mem_range.mp hk⟩) i (List.mem_range.mpr hi)
  have hcs := clusterNodes_eq data.ncustomers (solveDepot st data)
    (solveCluster edgelen solver st cluster0 data)
    (buildClusterInput edgelen data (solveDepot st data)).customer2node s
  have hroutes : sol'.routes = r.2.1.routes := by rw [hsol]
  have hroutelen : sol'.routelen = r.2.1.routelen := by rw [hsol]
  have hle2 : (clusterNodes data.ncustomers (solveDepot st data)
      (solveCluster edgelen solver st cluster0 data)
      (buildClusterInput edgelen data (solveDepot st data)).customer2node s).length
        ≤ data.ncustomers := hle
  have hd2 : routeDat st dat (clusterNodes data.ncustomers (solveDepot st data)
      (solveCluster edgelen solver st cluster0 data)
      (buildClusterInput edgelen data (solveDepot st data)).customer2node s) = some rdat := hd
  have hroute2 : sol'.routes.getD i []
      = decodeRoute (clusterNodes data.ncustomers (solveDepot st data)
          (solveCluster edgelen solver st cluster0 data)
          (buildClusterInput edgelen data (solveDepot st data)).customer2node s)
        (tsp (clusterNodes data.ncustomers (solveDepot st data)
          (solveCluster edgelen solver st cluster0 data)
          (buildClusterInput edgelen data (solveDepot st data)).customer2node s).length rdat) := by
    rw [hroutes]
    exact hroute
  have hlen2 : sol'.routelen.getD i 0
      = ((clusterNodes data.ncustomers (solveDepot st data)
          (solveCluster edgelen solver st cluster0 data)
          (buildClusterInput edgelen data (solveDepot st data)).customer2node s).length : Int)
        - 1 := by
    rw [hroutelen]
    exact hlen
  rw [hcs] at hle2 hd2 hroute2 hlen2
  refine ⟨s, _, rdat, hs, rfl, hle2, hd2, hlen2, hroute2, ?_, ?_⟩
  · rw [hroute2]
    have hp := htour (((List.range data.ncustomers).filter
        (fun j => (solveCluster edgelen solver st cluster0 data).getD j 0 = s)).map
        (fun j =>
          (buildClusterInput edgelen data (solveDepot st data)).customer2node.getD j 0)).length.succ
      rdat
    exact decodeRoute_perm _ _ _ hp.1 hp.2
  · intro hmem
    rw [hroute2] at hmem
    have hp := htour (((List.range data.ncustomers).filter
        (fun j => (solveCluster edgelen solver st cluster0 data).getD j 0 = s)).map
        (fun j =>
          (buildClusterInput edgelen data (solveDepot st data)).customer2node.getD j 0)).length.succ
      rdat
    have hperm := decodeRoute_perm (solveDepot st data) _ _ hp.1 hp.2
    have hmem2 := hperm.mem_iff.mp hmem
    rw [List.mem_map] at hmem2
    obtain ⟨j, hj, hj2⟩ := hmem2
    rw [List.mem_filter, List.mem_range] at hj
    have hc2n : (buildClusterInput edgelen data (solveDepot st data)).customer2node
        = nonDepots data data.dimension := by
      rw [buildClusterInput_eq]
    rw [hc2n] at hj2
    obtain ⟨-, hflag, -⟩ := nonDepots_rank_getD data data.dimension j (by omega)
    rw [hj2] at hflag
    exact hdepot hflag

/-- Below the range where binary32 rounds, with depots of demand 0, every 0/1 solution of the
rows built for `BEL_VRPVehiclesLB(data)` bins uses all of them. -/
theorem binsUsed_eq_vehiclesLB (d : BEL_VRPData) (x : Nat → Int)
    (hdem : ∀ i, i < d.dimension → 0 ≤ d.demand.getD i 0)
    (hdep : ∀ i, i < d.dimension → d.isadepot.getD i 0 ≠ 0 → d.demand.getD i 0 = 0)
    (hs : ∑ i ∈ Finset.range d.dimension, d.demand.getD i 0 < 16777216)
    (hc0 : 0 < d.capacity) (hc : d.capacity < 16777216)
    (hlen : (customerVolumes d).length = d.ncustomers)
    (hf : Feasible (bppProblem (BEL_VRPVehiclesLB d) d.capacity d.ncustomers
      (customerVolumes d)) x) :
    binsUsed (BEL_VRPVehiclesLB d).toNat d.ncustomers x = BEL_VRPVehiclesLB d := by
  have hLB := vehiclesLB_exact d hdem hs hc0 hc
  have hsum : (customerVolumes d).sum = ∑ i ∈ Finset.range d.dimension, d.demand.getD i 0 := by
    rw [sum_customerVolumes]
    apply Finset.sum_congr rfl
    intro i hi
    rw [Finset.mem_range] at hi
    by_cases h : d.isadepot.getD i 0 = 0
    · rw [if_pos h]
    · rw [if_neg h, hdep i hi h]
  have hnn : 0 ≤ BEL_VRPVehiclesLB d := by
    rw [hLB]
    apply Int.ceil_nonneg
    apply div_nonneg
    · exact_mod_cast Finset.sum_nonneg (fun i hi => hdem i (by
        rw [Finset.mem_range] at hi
        exact hi))
    · exact_mod_cast hc0.le
  rw [feasible_bpp_toNat, feasible_bpp_iff] at hf
  obtain ⟨hb, ha, hcap, -, -⟩ := hf
  have hge := ceil_le_binsUsed (BEL_VRPVehiclesLB d).toNat d.capacity d.ncustomers
    (customerVolumes d) x hc0 ha hcap
  rw [← hlen, ← sum_list_eq_totalVolume, hsum, ← hLB, hlen] at hge
  have hle := binsUsed_le (BEL_VRPVehiclesLB d).toNat d.ncustomers x hb
  rw [Int.toNat_of_nonneg hnn] at hle
  omega

/-- C28 (in the exact range, and the code at the failing input). With non-negative demands,
depots of demand 0, total demand and capacity positive and below 2^24, every 0/1 solution of the
rows that `BEL_VRPProblemIsFeasible` builds uses exactly `BEL_VRPVehiclesLB(data)` bins, and a
TRUE answer on a sound solver stores that number in `nvehicles`; with a sound solver the answer
of a call that is a defined execution is FALSE whenever the rows for that many bins have no 0/1
solution.  But on `roundedUpData`
the binary32 quotient gives `BEL_VRPVehiclesLB = 4`, the solution `roundedUpSolver` reports
uses 3 bins, and the call returns TRUE with `nvehicles = 3`. -/
theorem fleet_size_equals_bound_in_exact_range :
    (∀ (d : BEL_VRPData) (x : Nat → Int),
        (∀ i, i < d.dimension → 0 ≤ d.demand.getD i 0) →
        (∀ i, i < d.dimension → d.isadepot.getD i 0 ≠ 0 → d.demand.getD i 0 = 0) →
        ∑ i ∈ Finset.range d.dimension, d.demand.getD i 0 < 16777216 →
        0 < d.capacity → d.capacity < 16777216 →
        (customerVolumes d).length = d.ncustomers →
        Feasible (bppProblem (BEL_VRPVehiclesLB d) d.capacity d.ncustomers
          (customerVolumes d)) x →
        binsUsed (BEL_VRPVehiclesLB d).toNat d.ncustomers x = BEL_VRPVehiclesLB d)
      ∧ (∀ (solver : MipProblem → MipResult) (s : NamePointer) (d : BEL_VRPData) (e : Int)
          (r : FeasResult),
          (∀ i, i < d.dimension → 0 ≤ d.demand.getD i 0) →
          (∀ i, i < d.dimension → d.isadepot.getD i 0 ≠ 0 → d.demand.getD i 0 = 0) →
          ∑ i ∈ Finset.range d.dimension, d.demand.getD i 0 < 16777216 →
          0 < d.capacity → d.capacity < 16777216 →
          (customerVolumes d).length = d.ncustomers →
          SolverSound solver (bppProblem (BEL_VRPVehiclesLB d) d.capacity d.ncustomers
            (customerVolumes d)) →
          BEL_VRPProblemIsFeasible solver s (some d) e = some r →
          r.ret = true →
          r.data = some { d with nvehicles := BEL_VRPVehiclesLB d })
      ∧ (∀ (solver : MipProblem → MipResult) (s : NamePointer) (d : BEL_VRPData) (e : Int),
          SolverSound solver (bppProblem (BEL_VRPVehiclesLB d) d.capacity d.ncustomers
            (customerVolumes d)) →
          (∀ x, ¬ Feasible (bppProblem (BEL_VRPVehiclesLB d) d.capacity d.ncustomers
            (customerVolumes d)) x) →
          (∀ r, BEL_VRPProblemIsFeasible solver s (some d) e = some r → r.ret = false)
            ∧ (feasibilityCallDefined s d →
                BEL_VRPProblemIsFeasible solver s (some d) e
                  = some ⟨false, some d, BEL_VRP_NOT_ENOUGH_VEHICLES⟩))
      ∧ (∀ i, i < roundedUpData.dimension → 0 ≤ roundedUpData.demand.getD i 0)
      ∧ 0 < roundedUpData.capacity
      ∧ BEL_VRPVehiclesLB roundedUpData = 4
      ∧ Feasible (bppProblem (BEL_VRPVehiclesLB roundedUpData) roundedUpData.capacity
          roundedUpData.ncustomers (customerVolumes roundedUpData))
          (roundedUpSolver (bppProblem (BEL_VRPVehiclesLB roundedUpData)
            roundedUpData.capacity roundedUpData.ncustomers
            (customerVolumes roundedUpData))).colVal
      ∧ binsUsed 4 roundedUpData.ncustomers
          (roundedUpSolver (bppProblem (BEL_VRPVehiclesLB roundedUpData)
            roundedUpData.capacity roundedUpData.ncustomers
            (customerVolumes roundedUpData))).colVal = 3
      ∧ BEL_VRPProblemIsFeasible roundedUpSolver NamePointer.writable (some roundedUpData) 0
          = some ⟨true, some { roundedUpData with nvehicles := 3 }, 0⟩ := by
  refine ⟨?_, ?_, ?_, by decide, by decide, by decide, by decide, by decide, by decide⟩
  · intro d x hdem hdep hs hc0 hc hlen hf
    exact binsUsed_eq_vehiclesLB d x hdem hdep hs hc0 hc hlen hf
  · intro solver s d e r hdem hdep hs hc0 hc hlen hsound hcall hret
    obtain ⟨-, hr⟩ := feasible_call_some solver s d e r hcall
    by_cases hst : (solver (bppProblem (BEL_VRPVehiclesLB d) d.capacity d.ncustomers
          (customerVolumes d))).status = MipStatus.I_OPT
        ∨ (solver (bppProblem (BEL_VRPVehiclesLB d) d.capacity d.ncustomers
          (customerVolumes d))).status = MipStatus.I_FEAS
    · rw [if_pos hst] at hr
      obtain ⟨hf, hobj⟩ := hsound hst
      rw [hr]
      simp only
      rw [hobj, objective_bpp_toNat, binsUsed_eq_vehiclesLB d _ hdem hdep hs hc0 hc hlen hf]
    · rw [if_neg hst] at hr
      rw [hr] at hret
      simp at hret
  · intro solver s d e hsound hno
    have hst : ¬ ((solver (bppProblem (BEL_VRPVehiclesLB d) d.capacity d.ncustomers
          (customerVolumes d))).status = MipStatus.I_OPT
        ∨ (solver (bppProblem (BEL_VRPVehiclesLB d) d.capacity d.ncustomers
          (customerVolumes d))).status = MipStatus.I_FEAS) :=
      fun hst => absurd (hsound hst).1 (hno _)
    refine ⟨fun r hcall => ?_, fun hdef => ?_⟩
    · obtain ⟨-, hr⟩ := feasible_call_some solver s d e r hcall
      rw [if_neg hst] at hr
      rw [hr]
    · rw [feasible_call_eq, if_pos hdef, if_neg hst]

/-- C27 (the code at the failing input, and in general). For an instance with a 2-D norm
`BEL_SolveVRPProblem` copies `x` and `y`; for any other instance norm the layout is chosen by
the file-static `norm`, not by the norm of the instance: an instance with a 3-D norm gets `x`,
`y`, `z` copied only when the file-static `norm` is 3-D as well, and otherwise the call returns
1.  On `twoCustomerData` with the 3-D coordinates `spaceDat` and the default settings the call
returns 1 with empty routes; with the file-static `norm` set to a 3-D norm it returns 0. -/
theorem coordinate_layout_reads_static_norm :
    (∀ (st : Statics) (dat : CCdatagroup) (cs : List Nat), dat.normSize = NormSize.d2 →
        routeDat st dat cs
          = some ⟨dat.normSize, cs.map (fun c => dat.x.getD c 0),
              cs.map (fun c => dat.y.getD c 0), []⟩)
      ∧ (∀ (st : Statics) (dat : CCdatagroup) (cs : List Nat), dat.normSize = NormSize.d3 →
          st.norm = NormSize.d3 →
          routeDat st dat cs
            = some ⟨dat.normSize, cs.map (fun c => dat.x.getD c 0),
                cs.map (fun c => dat.y.getD c 0), cs.map (fun c => dat.z.getD c 0)⟩)
      ∧ (∀ (st : Statics) (dat : CCdatagroup) (cs : List Nat), dat.normSize = NormSize.d3 →
          st.norm ≠ NormSize.d3 → routeDat st dat cs = none)
      ∧ (∀ (st : Statics) (dat : CCdatagroup) (cs : List Nat), dat.normSize = NormSize.other →
          st.norm = NormSize.d3 →
          routeDat st dat cs
            = some ⟨dat.normSize, cs.map (fun c => dat.x.getD c 0),
                cs.map (fun c => dat.y.getD c 0), cs.map (fun c => dat.z.getD c 0)⟩)
      ∧ spaceDat.normSize = NormSize.d3
      ∧ planeStatics.norm = NormSize.d2
      ∧ BEL_SolveVRPProblem depotDistance ownSeedsSolver (BEL_TSPSolve idleSolvers)
            planeStatics spaceDat [0, 0] [0, 0] twoCustomerData emptySolution
          = some (1, { routes := [[], []], routelen := [0, 0], cost := 0, nvehicles := 2 })
      ∧ BEL_SolveVRPProblem depotDistance ownSeedsSolver (BEL_TSPSolve idleSolvers)
            spaceStatics spaceDat [0, 0] [0, 0] twoCustomerData emptySolution
          = some (0, { routes := [[1], [2]], routelen := [1, 1], cost := 8, nvehicles := 2 })
      ∧ routeDat spaceStatics spaceDat [0, 1] = some ⟨NormSize.d3, [0, 2], [0, 0], [0, 0]⟩ := by
  refine ⟨?_, ?_, ?_, ?_, by decide, by decide, by decide, by decide, by decide⟩
  · intro st dat cs h
    unfold routeDat
    rw [if_pos h]
  · intro st dat cs h1 h2
    unfold routeDat
    rw [if_neg (by rw [h1]; decide), if_pos h2]
  · intro st dat cs h1 h2
    unfold routeDat
    rw [if_neg (by rw [h1]; decide), if_neg h2]
  · intro st dat cs h1 h2
    unfold routeDat
    rw [if_neg (by rw [h1]; decide), if_pos h2]

/-- With one seed to select, every 0/1 solution of the rows of `BEL_CCLPSolve` selects one item
`j0`, and the read-back loop stores `j0` for every item, `j0` included. -/
theorem single_seed_readback (items : Nat) (cost : List (List Int)) (weight : List Int)
    (seed_cost : List Int) (capacity : Int) (x : Nat → Int) (a : List Int)
    (h1 : 1 ≤ items) (hlen : items ≤ a.length)
    (hx : Feasible (cclpProblem items cost weight 1 seed_cost capacity) x) :
    ∃ j0, j0 < items ∧ x (ycol items items (j0 + 1)) = 1
      ∧ ∀ i, i < items → (cclpReadBack items x a).getD i 0 = (j0 : Int) := by
  rw [feasible_cclp_iff] at hx
  obtain ⟨hb, hs, -, ha, hl⟩ := hx
  have hmin : MIN 1 (items : Int) = 1 := by
    unfold MIN
    split
    · rfl
    · omega
  have hval : f32IntValue 1 = 1 := by decide
  rw [hmin, hval] at hs
  have hzb : ∀ j ∈ Finset.Icc 1 items,
      x (ycol items items j) = 0 ∨ x (ycol items items j) = 1 := by
    intro j hj
    rw [Finset.mem_Icc] at hj
    refine hb _ ?_ ?_
    · unfold ycol; omega
    · unfold ycol
      rw [Nat.add_mul, Nat.one_mul]
      omega
  obtain ⟨j1, ⟨⟨hj1a, hj1b⟩, hz1⟩, huniq⟩ :=
    (sum_binary_eq_one_iff items (fun j => x (ycol items items j)) hzb).mp hs
  have hbin := ycells_binary items x hb
  refine ⟨j1 - 1, by omega, ?_, fun i hi => ?_⟩
  · rw [Nat.sub_add_cancel hj1a]
    exact hz1
  · obtain ⟨j0, hj0, hone, hz⟩ := assign_row_unique items x hbin ha i hi
    have hlink := hl (i + 1) (j0 + 1) (by omega) (by omega) (by omega) (by omega)
    have hcol : xcol items (i + 1) (j0 + 1) = i * items + j0 + 1 := by
      unfold xcol
      rw [Nat.add_sub_cancel]
      omega
    rw [hcol, hone] at hlink
    have hzj0 : x (ycol items items (j0 + 1)) = 1 := by
      rcases hzb (j0 + 1) (by rw [Finset.mem_Icc]; omega) with h | h
      · omega
      · exact h
    have hj : j0 + 1 = j1 := huniq (j0 + 1) ⟨⟨by omega, by omega⟩, hzj0⟩
    have hj' : j0 = j1 - 1 := by omega
    rw [← hj']
    exact cclpReadBack_unique items x a hlen i hi j0 hj0 (by rw [hone]; decide) hz

theorem filterMap_range_single (n j0 : Nat) (f : Nat → Int) :
    (List.range n).filterMap (fun i => if i = j0 then some (f i) else none)
      = if j0 < n then [f j0] else [] := by
  induction n with
  | zero => simp
  | succ n ih =>
    rw [List.range_succ, List.filterMap_append, ih]
    by_cases h : j0 < n
    · have hne : ¬ n = j0 := by omega
      simp [h, hne, Nat.lt_succ_of_lt h]
    · by_cases h2 : n = j0
      · subst h2
        simp
      · have h3 : ¬ j0 < n + 1 := by omega
        simp [h, h2, h3]

/-- When the array `cluster` holds the same customer `j0` for every customer, the seed
detection loop finds exactly the node of `j0`. -/
theorem foundSeeds_const (items : Nat) (cluster : List Int) (customer2node : List Nat) (j0 : Nat)
    (hj0 : j0 < items) (hall : ∀ i, i < items → cluster.getD i 0 = (j0 : Int)) :
    foundSeeds items cluster customer2node = [((customer2node.getD j0 0 : Nat) : Int)] := by
  unfold foundSeeds
  have hcongr : (List.range items).filterMap (fun i =>
        if cluster.getD i 0 = (i : Int) then some ((customer2node.getD i 0 : Nat) : Int) else none)
      = (List.range items).filterMap (fun i =>
        if i = j0 then some ((customer2node.getD i 0 : Nat) : Int) else none) := by
    apply List.filterMap_congr
    intro i hi
    rw [List.mem_range] at hi
    rw [hall i hi]
    by_cases h : i = j0
    · rw [if_pos h, if_pos (by rw [h])]
    · rw [if_neg h, if_neg (by intro h2; exact h (by exact_mod_cast h2.symm))]
  rw [hcongr, filterMap_range_single, if_pos hj0]

/-- When the array `cluster` holds `s` for every customer, the node subset of `s` is the depot
and all the customers: one entry more than `items`. -/
theorem clusterNodes_const_length (items depot : Nat) (cluster : List Int)
    (customer2node : List Nat) (s : Int) (hall : ∀ i, i < items → cluster.getD i 0 = s) :
    (clusterNodes items depot cluster customer2node s).length = items + 1 := by
  rw [clusterNodes_eq, List.length_cons, List.length_map]
  have : (List.range items).filter (fun j => cluster.getD j 0 = s) = List.range items := by
    rw [List.filter_eq_self]
    intro j hj
    rw [List.mem_range] at hj
    simpa using hall j hj
  rw [this, List.length_range]

theorem currentSet_const (items depot : Nat) (cluster : List Int)
    (customer2node : List Nat) (s : Int) (hall : ∀ i, i < items → cluster.getD i 0 = s) :
    currentSet items depot cluster customer2node s = none := by
  unfold currentSet
  rw [if_neg]
  rw [clusterNodes_const_length items depot cluster customer2node s hall]
  omega

/-- One vehicle: whenever the solver's column values satisfy the rows of the clustering problem,
all customers are read back into one cluster, the node subset of the only vehicle has
`items + 1` entries, and the write of the last one falls outside `current_set`. -/
theorem single_vehicle_overrun (edgelen : Nat → Nat → Int) (solver : MipProblem → MipResult)
    (tsp : Nat → CCdatagroup → List Nat) (st : Statics) (dat : CCdatagroup)
    (cluster0 seed0 : List Int) (data : BEL_VRPData) (sol : BEL_VRPSolution)
    (hv : data.nvehicles = 1) (hitems : 1 ≤ data.ncustomers)
    (hcount : (nonDepots data data.dimension).length = data.ncustomers)
    (hlen : data.ncustomers ≤ cluster0.length)
    (hx : Feasible
      (cclpProblem data.ncustomers (buildClusterInput edgelen data (solveDepot st data)).cost
        (buildClusterInput edgelen data (solveDepot st data)).demand 1
        (buildClusterInput edgelen data (solveDepot st data)).seed_cost data.capacity)
      (solver (cclpProblem data.ncustomers
        (buildClusterInput edgelen data (solveDepot st data)).cost
        (buildClusterInput edgelen data (solveDepot st data)).demand 1
        (buildClusterInput edgelen data (solveDepot st data)).seed_cost data.capacity)).colVal) :
    BEL_SolveVRPProblem edgelen solver tsp st dat cluster0 seed0 data sol = none := by
  cases hres : BEL_SolveVRPProblem edgelen solver tsp st dat cluster0 seed0 data sol with
  | none => rfl
  | some res =>
    exfalso
    obtain ⟨seed, r, hseed, hloop, -⟩ := solveVRP_some _ _ _ _ _ _ _ _ _ _ hres
    obtain ⟨j0, hj0, -, hall⟩ := single_seed_readback _ _ _ _ _ _ cluster0 hitems hlen hx
    have hcl : (BEL_CCLPSolve solver data.ncustomers
          (buildClusterInput edgelen data (data.depots.getD st.curr_depot 0).toNat).cost
          (buildClusterInput edgelen data (data.depots.getD st.curr_depot 0).toNat).demand
          data.nvehicles
          (buildClusterInput edgelen data (data.depots.getD st.curr_depot 0).toNat).seed_cost
          data.capacity cluster0).2
        = cclpReadBack data.ncustomers (solver (cclpProblem data.ncustomers
            (buildClusterInput edgelen data (solveDepot st data)).cost
            (buildClusterInput edgelen data (solveDepot st data)).demand 1
            (buildClusterInput edgelen data (solveDepot st data)).seed_cost
            data.capacity)).colVal cluster0 := by
      rw [hv]
      rfl
    rw [hcl] at hseed hloop
    have hc2n : (buildClusterInput edgelen data (data.depots.getD st.curr_depot 0).toNat).customer2node
        = nonDepots data data.dimension := by
      rw [buildClusterInput_eq]
    -- the seed list
    unfold detectSeeds at hseed
    simp only at hseed
    rw [foundSeeds_const _ _ _ j0 hj0 hall] at hseed
    split at hseed
    · rw [Option.some.injEq] at hseed
      have hs0 : seed.getD 0 0
          = (((buildClusterInput edgelen data
              (data.depots.getD st.curr_depot 0).toNat).customer2node.getD j0 0 : Nat) : Int) := by
        rw [← hseed]
        rfl
      -- the first vehicle
      have hrange : List.range data.nvehicles.toNat = [0] := by
        rw [hv]
        rfl
      rw [hrange] at hloop
      obtain ⟨s, cs, hs, hcs, -⟩ := routeLoop_cons_some _ _ _ _ _ _ _ _ _ _ _ _ _ _ hloop
      rw [hs0] at hs
      unfold readIdx at hs
      split at hs
      · rename_i hin
        rw [Option.some.injEq, Int.toNat_ofNat, hc2n] at hs
        obtain ⟨hlt, hflag, hrank⟩ :=
          nonDepots_rank_getD data data.dimension j0 (by omega)
        rw [node2customer_getD _ _ _ _ hlt, if_pos hflag, hrank] at hs
        rw [← hs, currentSet_const _ _ _ _ _ hall] at hcs
        exact absurd hcs (by simp)
      · exact absurd hs (by simp)
    · exact absurd hseed (by simp)

theorem single_cluster_point (x : Nat → Int)
    (hx : Feasible (cclpProblem 1 [[0]] [1] 1 [2] 1) x) : x 1 = 1 ∧ x 2 = 1 := by
  rw [feasible_cclp_iff] at hx
  obtain ⟨-, hs, -, ha, -⟩ := hx
  have hval : f32IntValue (MIN 1 (1 : Nat)) = 1 := by decide
  rw [hval] at hs
  have a1 := ha 1 (by decide) (by decide)
  simp [binsUsed, Icc_one_one, xcol, ycol] at a1 hs
  exact ⟨a1, hs⟩

/-- C24 (the code at the failing input). Scenario D: one depot, one customer, one vehicle.  For
every such instance whose clustering solution satisfies the rows, the node subset of the vehicle
is the depot and the customer, two entries, while `current_set` has `items = 1` entries: the
write `current_set[1]` is outside the array and `BEL_SolveVRPProblem` has no defined result.
The values the rest of the loop would compute from that subset are the claimed ones: with the
tour that `BEL_TSPSolve` returns for two nodes the route is `[c]` and, for a symmetric distance,
the cost is `2 * dist(depot, c)`.  On `singleCustomerData` (demand 1, capacity 1) the lower
bound is 1, the feasibility check answers TRUE with one vehicle, the only 0/1 solution of the
clustering rows is `y[1][1] = z[1] = 1`, the subset is `[0, 1]` and the call has no result. -/
theorem single_customer_overruns_current_set :
    (∀ (edgelen : Nat → Nat → Int) (solver : MipProblem → MipResult)
        (tsp : Nat → CCdatagroup → List Nat) (st : Statics) (dat : CCdatagroup)
        (cluster0 seed0 : List Int) (data : BEL_VRPData) (sol : BEL_VRPSolution),
        data.nvehicles = 1 → data.ncustomers = 1 →
        (nonDepots data data.dimension).length = 1 →
        1 ≤ cluster0.length →
        Feasible
          (cclpProblem data.ncustomers (buildClusterInput edgelen data (solveDepot st data)).cost
            (buildClusterInput edgelen data (solveDepot st data)).demand data.nvehicles
            (buildClusterInput edgelen data (solveDepot st data)).seed_cost data.capacity)
          (solver (cclpProblem data.ncustomers
            (buildClusterInput edgelen data (solveDepot st data)).cost
            (buildClusterInput edgelen data (solveDepot st data)).demand data.nvehicles
            (buildClusterInput edgelen data (solveDepot st data)).seed_cost
            data.capacity)).colVal →
        BEL_SolveVRPProblem edgelen solver tsp st dat cluster0 seed0 data sol = none)
      ∧ (∀ (edgelen : Nat → Nat → Int) (ext : TourSolvers) (depot c : Nat) (rdat : CCdatagroup),
          edgelen c depot = edgelen depot c →
          decodeRoute [depot, c] (BEL_TSPSolve ext 2 rdat) = [c]
            ∧ tourCost edgelen [depot, c] (BEL_TSPSolve ext 2 rdat) = 2 * edgelen depot c)
      ∧ BEL_VRPVehiclesLB singleCustomerData = 1
      ∧ BEL_VRPProblemIsFeasible singlePackSolver NamePointer.writable
            (some { singleCustomerData with nvehicles := 0 }) 0
          = some ⟨true, some singleCustomerData, 0⟩
      ∧ SolverSound singlePackSolver (bppProblem 1 1 1 (customerVolumes singleCustomerData))
      ∧ (buildClusterInput roundedDistance singleCustomerData 0).cost = [[0]]
      ∧ (buildClusterInput roundedDistance singleCustomerData 0).seed_cost
          = [2 * roundedDistance 0 1]
      ∧ (buildClusterInput roundedDistance singleCustomerData 0).demand = [1]
      ∧ (buildClusterInput roundedDistance singleCustomerData 0).customer2node = [1]
      ∧ (∀ x, Feasible (cclpProblem 1 [[0]] [1] 1 [2] 1) x → x 1 = 1 ∧ x 2 = 1)
      ∧ SolverSound singleSeedSolver (cclpProblem 1 [[0]] [1] 1 [2] 1)
      ∧ (∀ c0, solveCluster roundedDistance singleSeedSolver planeStatics [c0]
            singleCustomerData = [0])
      ∧ detectSeeds 1 1 [0] [1] [0] = some [1]
      ∧ readIdx (buildClusterInput roundedDistance singleCustomerData 0).node2customer 1 = some 0
      ∧ clusterNodes 1 0 [0] [1] 0 = [0, 1]
      ∧ ¬ (clusterNodes 1 0 [0] [1] 0).length ≤ singleCustomerData.ncustomers
      ∧ currentSet 1 0 [0] [1] 0 = none
      ∧ BEL_SolveVRPProblem roundedDistance singleSeedSolver (BEL_TSPSolve idleSolvers)
          planeStatics overloadedDat [0] [0] singleCustomerData emptySolution = none := by
  refine ⟨?_, ?_, by decide, by decide, by decide, by decide, by decide, by decide,
    by decide, single_cluster_point, by decide, ?_, by decide, by decide, by decide, by decide,
    by decide, by decide⟩
  · intro edgelen solver tsp st dat cluster0 seed0 data sol hv hitems hcount hlen hx
    rw [hv] at hx
    exact single_vehicle_overrun edgelen solver tsp st dat cluster0 seed0 data sol hv
      (by omega) (by omega) (by omega) hx
  · intro edgelen ext depot c rdat hsymm
    rw [tsp_small ext 2 rdat (by decide)]
    refine ⟨rfl, ?_⟩
    show tourCost edgelen [depot, c] [0, 1] = 2 * edgelen depot c
    rw [tourCost_two]
    show edgelen depot c + edgelen c depot = 2 * edgelen depot c
    rw [hsymm]
    ring
  · intro c0
    rfl

/-- A positive total demand that one vehicle can carry gives the lower bound 1. -/
theorem vehiclesLB_one (d : BEL_VRPData)
    (hdem : ∀ i, i < d.dimension → 0 ≤ d.demand.getD i 0)
    (hpos : 0 < ∑ i ∈ Finset.range d.dimension, d.demand.getD i 0)
    (hle : ∑ i ∈ Finset.range d.dimension, d.demand.getD i 0 ≤ d.capacity)
    (hc : d.capacity < 16777216) : BEL_VRPVehiclesLB d = 1 := by
  rw [vehiclesLB_exact d hdem (by omega) (by omega) hc, Int.ceil_eq_iff]
  have hcq : (0 : ℚ) < (d.capacity : ℚ) := by exact_mod_cast (by omega : 0 < d.capacity)
  have hsq : (0 : ℚ) < ((∑ i ∈ Finset.range d.dimension, d.demand.getD i 0 : Int) : ℚ) := by
    exact_mod_cast hpos
  have hleq : ((∑ i ∈ Finset.range d.dimension, d.demand.getD i 0 : Int) : ℚ)
      ≤ (d.capacity : ℚ) := by exact_mod_cast hle
  constructor
  · simp only [Int.cast_one, sub_self]
    exact div_pos hsq hcq
  · rw [Int.cast_one, div_le_one hcq]
    exact hleq

/-- Two items whose volumes fit together in one bin: `pairPackPoint` satisfies the rows built
for one bin, and uses it. -/
theorem pairPack_feasible (w1 w2 capacity : Int) (hle : w1 + w2 ≤ capacity) :
    Feasible (bppProblem 1 capacity 2 [w1, w2]) pairPackPoint := by
  refine (feasible_bpp_iff 1 capacity 2 [w1, w2] pairPackPoint).mpr ⟨?_, ?_, ?_, ?_, ?_⟩
  · intro c _ _
    unfold pairPackPoint
    split
    · exact Or.inr rfl
    · exact Or.inl rfl
  · intro i h1 h2
    have : i = 1 ∨ i = 2 := by omega
    rcases this with rfl | rfl <;> decide
  · intro j h1 h2
    have : j = 1 := by omega
    subst this
    rw [Icc_one_two, Finset.sum_pair (by decide)]
    show w1 * 1 + w2 * 1 ≤ capacity * 1
    omega
  · intro i j h1 h2 h3 h4
    have hj : j = 1 := by omega
    have : i = 1 ∨ i = 2 := by omega
    subst hj
    rcases this with rfl | rfl <;> decide
  · intro j h1 h2
    change j < 1 at h2
    omega

/-- C23 (the code at the failing input). Scenario A: one depot, two customers, one vehicle.
In the exact range a positive total demand within the capacity gives the lower bound 1; the
bin-packing rows for one bin hold at `pairPackPoint`, which uses one bin; every 0/1 solution of
the clustering rows with one seed reads back the same customer for both customers, and that
customer is selected and assigned to itself.  The node subset of the only vehicle is then the
depot and both customers, three entries, while `current_set` has `items = 2` entries: the write
`current_set[2]` is outside the array and `BEL_SolveVRPProblem` has no defined result.  The
route the rest of the loop would store from that subset is `[c1, c2]`.  On `pairData` the lower
bound is 1, the feasibility check answers TRUE with one vehicle, the array `cluster` is
`[0, 0]`, the subset is `[0, 1, 2]` and the call has no result. -/
theorem two_customers_overrun_current_set :
    (∀ d : BEL_VRPData,
        (∀ i, i < d.dimension → 0 ≤ d.demand.getD i 0) →
        0 < ∑ i ∈ Finset.range d.dimension, d.demand.getD i 0 →
        ∑ i ∈ Finset.range d.dimension, d.demand.getD i 0 ≤ d.capacity →
        d.capacity < 16777216 → BEL_VRPVehiclesLB d = 1)
      ∧ (∀ w1 w2 capacity : Int, w1 + w2 ≤ capacity →
          Feasible (bppProblem 1 capacity 2 [w1, w2]) pairPackPoint
            ∧ binsUsed 1 2 pairPackPoint = 1)
      ∧ (∀ (cost : List (List Int)) (weight seed_cost : List Int) (capacity : Int)
          (x : Nat → Int) (a : List Int), 2 ≤ a.length →
          Feasible (cclpProblem 2 cost weight 1 seed_cost capacity) x →
          (cclpReadBack 2 x a).getD 0 0 = (cclpReadBack 2 x a).getD 1 0
            ∧ ∃ j0, j0 < 2 ∧ (cclpReadBack 2 x a).getD j0 0 = (j0 : Int)
                ∧ x (ycol 2 2 (j0 + 1)) = 1)
      ∧ (∀ (edgelen : Nat → Nat → Int) (solver : MipProblem → MipResult)
          (tsp : Nat → CCdatagroup → List Nat) (st : Statics) (dat : CCdatagroup)
          (cluster0 seed0 : List Int) (data : BEL_VRPData) (sol : BEL_VRPSolution),
          data.nvehicles = 1 → data.ncustomers = 2 →
          (nonDepots data data.dimension).length = 2 →
          2 ≤ cluster0.length →
          Feasible
            (cclpProblem data.ncustomers (buildClusterInput edgelen data (solveDepot st data)).cost
              (buildClusterInput edgelen data (solveDepot st data)).demand data.nvehicles
              (buildClusterInput edgelen data (solveDepot st data)).seed_cost data.capacity)
            (solver (cclpProblem data.ncustomers
              (buildClusterInput edgelen data (solveDepot st data)).cost
              (buildClusterInput edgelen data (solveDepot st data)).demand data.nvehicles
              (buildClusterInput edgelen data (solveDepot st data)).seed_cost
              data.capacity)).colVal →
          BEL_SolveVRPProblem edgelen solver tsp st dat cluster0 seed0 data sol = none)
      ∧ (∀ (ext : TourSolvers) (depot c1 c2 : Nat) (rdat : CCdatagroup),
          decodeRoute [depot, c1, c2] (BEL_TSPSolve ext 3 rdat) = [c1, c2])
      ∧ BEL_VRPVehiclesLB pairData = 1
      ∧ customerVolumes pairData = [1, 1]
      ∧ BEL_VRPProblemIsFeasible pairPackSolver NamePointer.writable
            (some { pairData with nvehicles := 0 }) 0
          = some ⟨true, some pairData, 0⟩
      ∧ SolverSound pairPackSolver (bppProblem 1 2 2 [1, 1])
      ∧ (buildClusterInput roundedDistance pairData 0).cost = [[0, 1], [3, 0]]
      ∧ (buildClusterInput roundedDistance pairData 0).seed_cost = [2, 4]
      ∧ (buildClusterInput roundedDistance pairData 0).demand = [1, 1]
      ∧ (buildClusterInput roundedDistance pairData 0).customer2node = [1, 2]
      ∧ SolverSound pairSeedSolver (cclpProblem 2 [[0, 1], [3, 0]] [1, 1] 1 [2, 4] 2)
      ∧ solveCluster roundedDistance pairSeedSolver planeStatics [0, 0] pairData = [0, 0]
      ∧ detectSeeds 2 1 [0, 0] [1, 2] [0] = some [1]
      ∧ readIdx (buildClusterInput roundedDistance pairData 0).node2customer 1 = some 0
      ∧ clusterNodes 2 0 [0, 0] [1, 2] 0 = [0, 1, 2]
      ∧ ¬ (clusterNodes 2 0 [0, 0] [1, 2] 0).length ≤ pairData.ncustomers
      ∧ currentSet 2 0 [0, 0] [1, 2] 0 = none
      ∧ BEL_SolveVRPProblem roundedDistance pairSeedSolver (BEL_TSPSolve idleSolvers)
          planeStatics pairDat [0, 0] [0] pairData emptySolution = none := by
  refine ⟨vehiclesLB_one, fun w1 w2 capacity hle => ⟨pairPack_feasible w1 w2 capacity hle,
      by decide⟩, ?_, ?_, ?_, ?_⟩
  · intro cost weight seed_cost capacity x a hlen hx
    obtain ⟨j0, hj0, hz, hall⟩ :=
      single_seed_readback 2 cost weight seed_cost capacity x a (by decide) hlen hx
    refine ⟨?_, j0, hj0, hall j0 hj0, hz⟩
    rw [hall 0 (by decide), hall 1 (by decide)]
  · intro edgelen solver tsp st dat cluster0 seed0 data sol hv hitems hcount hlen hx
    rw [hv] at hx
    exact single_vehicle_overrun edgelen solver tsp st dat cluster0 seed0 data sol hv
      (by omega) (by omega) (by omega) hx
  · intro ext depot c1 c2 rdat
    rw [tsp_small ext 3 rdat (by decide)]
    rfl
  · decide

end Beluga
